import Mathlib

/-!
Verification of the PM-agent pipeline (idea → PRD → prototype → epic →
tasks) against its natural-language specification.

The development shallowly embeds the Python sources:

* `pending_store.py` — park / list / unpark of paused pipeline items
  (data lives in a Jira issue comment, discovery in a `parked.json`
  index kept in a GitHub repo);
* `jira_client.py` — `markdown_to_adf` / `_parse_inline_markdown` /
  `_extract_adf_text` (comments are posted as ADF built from markdown
  and read back by flattening text nodes), `add_comment`,
  `get_issue_comments`, `delete_comment`;
* `confluence_client.py` — `markdown_to_wiki` / `_inline_md_to_wiki`,
  `fetch_page_content`;
* `github_client.py` — `push_prototype`, `fetch_prototype_html`;
* the stage handlers `pm1_idea_intake.py` … `pm4_epic.py`
  (`process_idea`, `approve_idea`, `approve_prd`, `approve_prototype`,
  `approve_epic`).

Python text is modelled as `List Char`; Python dicts as association
lists preserving insertion order; the external systems (Jira issues and
comments, Confluence pages, the prototypes repository, the Telegram
transport) as one explicit state record threaded through the handlers.
JSON values (`json.dumps` / `json.loads` with `separators=(",", ":")`)
are modelled by an executable serializer and parser over a `Json`
inductive (floats are not used by any parked payload and are omitted).
-/

namespace PMAgent

/-- Python `str` is modelled as a list of characters. -/
abbrev Str := List Char

/-- String-literal helper: `lit "abc"` is the `List Char` of the literal. -/
def lit (s : String) : Str := s.data

/-! ### Association lists (Python `dict` with insertion order) -/

/-- `d.get(k)` — first binding wins (keys are unique by construction). -/
def aget {α : Type} [DecidableEq α] {β : Type} (k : α) : List (α × β) → Option β
  | [] => none
  | (k', v) :: rest => if k' = k then some v else aget k rest

/-- `d[k] = v` — update in place if present, else append (Python dict
insertion-order semantics). -/
def aset {α : Type} [DecidableEq α] {β : Type} (k : α) (v : β) :
    List (α × β) → List (α × β)
  | [] => [(k, v)]
  | (k', v') :: rest =>
      if k' = k then (k, v) :: rest else (k', v') :: aset k v rest

/-- `del d[k]` / `d.pop(k, None)` — remove the first binding of `k`. -/
def aerase {α : Type} [DecidableEq α] {β : Type} (k : α) :
    List (α × β) → List (α × β)
  | [] => []
  | (k', v') :: rest => if k' = k then rest else (k', v') :: aerase k rest

/-- Keys of an association list. -/
def akeys {α β : Type} (d : List (α × β)) : List α := d.map Prod.fst

/-! ### Python string helpers -/

/-- Python `s[a:b]` (for `a ≤ b`; empty when `b ≤ a`). -/
def slice (t : Str) (a b : Nat) : Str := (t.drop a).take (b - a)

/-- ASCII whitespace as recognised by Python's `str.strip`. -/
def isPySpace (c : Char) : Bool :=
  c = ' ' ∨ c = '\t' ∨ c = '\n' ∨ c = '\x0d' ∨ c = '\x0b' ∨ c = '\x0c'

/-- Python `s.strip()`. -/
def pyStrip (t : Str) : Str :=
  ((t.dropWhile isPySpace).reverse.dropWhile isPySpace).reverse

/-- Python `s.startswith(p)`. -/
def pyStarts (t p : Str) : Bool := p.isPrefixOf t

/-- Auxiliary scan for `str.find`: index of the first suffix of which
`pat` is a prefix. -/
def findAux (pat : Str) : Str → Nat → Option Nat
  | [], i => if pat = [] then some i else none
  | c :: rest, i =>
      if pat.isPrefixOf (c :: rest) then some i else findAux pat rest (i + 1)

/-- Python `t.find(pat, start)` (`none` for `-1`). -/
def pyFind (t pat : Str) (start : Nat) : Option Nat :=
  (findAux pat (t.drop start) 0).map (· + start)

/-- Python `s.split(sep)` on a single-character separator (no maxsplit). -/
def pySplitChar (sep : Char) (t : Str) : List Str :=
  match t with
  | [] => [[]]
  | c :: rest =>
      let r := pySplitChar sep rest
      if c = sep then [] :: r
      else
        match r with
        | [] => [[c]]
        | piece :: more => (c :: piece) :: more

/-- Python `s.split(sep, 2)`: at most two splits, remainder kept whole. -/
def pySplit2 (sep : Char) (t : Str) : List Str :=
  match pyFind t [sep] 0 with
  | none => [t]
  | some i =>
      let first := slice t 0 i
      let rest := t.drop (i + 1)
      match pyFind rest [sep] 0 with
      | none => [first, rest]
      | some j => [first, slice rest 0 j, rest.drop (j + 1)]

/-- Python `s.split("\n")`. -/
def splitLines (t : Str) : List Str := pySplitChar '\n' t

/-- Python `"\n".join(ls)` / `sep.join` generalisation. -/
def joinWith (sep : Str) : List Str → Str
  | [] => []
  | [x] => x
  | x :: rest => x ++ sep ++ joinWith sep rest

/-- Python `str.lower` (ASCII, as relevant for Jira issue keys). -/
def pyLower (t : Str) : Str := t.map Char.toLower

/-- Python `sub in s` (substring containment). -/
def pyContains (t sub : Str) : Bool := (pyFind t sub 0).isSome

end PMAgent

namespace PMAgent

/-! ### JSON (`json.dumps` with `separators=(",", ":")`, `json.loads`)

Floats never occur in parked payloads (the extractors store strings,
ints and lists of string/int objects), so the model omits them; the
parser rejects a fraction or exponent rather than mis-reading it. -/

inductive Json where
  | null : Json
  | bool (b : Bool) : Json
  | num (n : Int) : Json
  | str (s : Str) : Json
  | arr (xs : List Json) : Json
  | obj (kvs : List (Str × Json)) : Json

mutual

/-- Decidable equality on JSON values (the nested inductive defeats the
deriving handler, so it is written out). -/
def Json.decEq : (a b : Json) → Decidable (a = b)
  | .null, .null => isTrue rfl
  | .null, .bool _ => isFalse nofun
  | .null, .num _ => isFalse nofun
  | .null, .str _ => isFalse nofun
  | .null, .arr _ => isFalse nofun
  | .null, .obj _ => isFalse nofun
  | .bool _, .null => isFalse nofun
  | .bool x, .bool y =>
      if h : x = y then isTrue (by rw [h])
      else isFalse (by intro hh; injection hh; contradiction)
  | .bool _, .num _ => isFalse nofun
  | .bool _, .str _ => isFalse nofun
  | .bool _, .arr _ => isFalse nofun
  | .bool _, .obj _ => isFalse nofun
  | .num _, .null => isFalse nofun
  | .num _, .bool _ => isFalse nofun
  | .num x, .num y =>
      if h : x = y then isTrue (by rw [h])
      else isFalse (by intro hh; injection hh; contradiction)
  | .num _, .str _ => isFalse nofun
  | .num _, .arr _ => isFalse nofun
  | .num _, .obj _ => isFalse nofun
  | .str _, .null => isFalse nofun
  | .str _, .bool _ => isFalse nofun
  | .str _, .num _ => isFalse nofun
  | .str x, .str y =>
      if h : x = y then isTrue (by rw [h])
      else isFalse (by intro hh; injection hh; contradiction)
  | .str _, .arr _ => isFalse nofun
  | .str _, .obj _ => isFalse nofun
  | .arr _, .null => isFalse nofun
  | .arr _, .bool _ => isFalse nofun
  | .arr _, .num _ => isFalse nofun
  | .arr _, .str _ => isFalse nofun
  | .arr xs, .arr ys =>
      match Json.decEqList xs ys with
      | isTrue h => isTrue (by rw [h])
      | isFalse h => isFalse (by intro hh; injection hh; contradiction)
  | .arr _, .obj _ => isFalse nofun
  | .obj _, .null => isFalse nofun
  | .obj _, .bool _ => isFalse nofun
  | .obj _, .num _ => isFalse nofun
  | .obj _, .str _ => isFalse nofun
  | .obj _, .arr _ => isFalse nofun
  | .obj xs, .obj ys =>
      match Json.decEqObj xs ys with
      | isTrue h => isTrue (by rw [h])
      | isFalse h => isFalse (by intro hh; injection hh; contradiction)

/-- Decidable equality on JSON arrays. -/
def Json.decEqList : (xs ys : List Json) → Decidable (xs = ys)
  | [], [] => isTrue rfl
  | [], _ :: _ => isFalse nofun
  | _ :: _, [] => isFalse nofun
  | x :: xs, y :: ys =>
      match Json.decEq x y, Json.decEqList xs ys with
      | isTrue h1, isTrue h2 => isTrue (by rw [h1, h2])
      | isFalse h1, _ => isFalse (by intro hh; injection hh; contradiction)
      | _, isFalse h2 => isFalse (by intro hh; injection hh; contradiction)

/-- Decidable equality on JSON object member lists. -/
def Json.decEqObj : (xs ys : List (Str × Json)) → Decidable (xs = ys)
  | [], [] => isTrue rfl
  | [], _ :: _ => isFalse nofun
  | _ :: _, [] => isFalse nofun
  | (k, v) :: xs, (k', v') :: ys =>
      if hk : k = k' then
        match Json.decEq v v', Json.decEqObj xs ys with
        | isTrue h1, isTrue h2 => isTrue (by rw [hk, h1, h2])
        | isFalse h1, _ => isFalse (by intro hh; cases hh; exact h1 rfl)
        | _, isFalse h2 => isFalse (by intro hh; cases hh; exact h2 rfl)
      else
        isFalse (by intro hh; cases hh; exact hk rfl)

end

instance : DecidableEq Json := Json.decEq

/-- Decimal digit character. -/
def digitChar (d : Nat) : Char := Char.ofNat (48 + d)

/-- Decimal rendering, fuelled so that the kernel can evaluate it
(`n + 1` steps always suffice since `n / 10 < n` for `n ≥ 10`). -/
def natDecAux : Nat → Nat → Str
  | 0, _ => []
  | fuel + 1, n =>
      if n < 10 then [digitChar n]
      else natDecAux fuel (n / 10) ++ [digitChar (n % 10)]

/-- Decimal rendering of a natural number (no leading zeros). -/
def natDec (n : Nat) : Str := natDecAux (n + 1) n

/-- Python `str(int)`. -/
def intDec (n : Int) : Str :=
  if n < 0 then '-' :: natDec n.natAbs else natDec n.natAbs

/-- Lowercase hexadecimal digit, as emitted by `json.dumps`. -/
def hexDigitChar (d : Nat) : Char :=
  if d < 10 then Char.ofNat (48 + d) else Char.ofNat (87 + d)

/-- Four-digit hexadecimal rendering (for `\uXXXX` escapes). -/
def hex4 (n : Nat) : Str :=
  [hexDigitChar (n / 4096 % 16), hexDigitChar (n / 256 % 16),
   hexDigitChar (n / 16 % 16), hexDigitChar (n % 16)]

/-- `json.dumps` escaping of one character (`ensure_ascii=True`:
everything outside `0x20`–`0x7e` becomes a `\uXXXX` escape, astral
characters a surrogate pair). -/
def escChar (c : Char) : Str :=
  if c = '"' then ['\\', '"']
  else if c = '\\' then ['\\', '\\']
  else if c = '\n' then ['\\', 'n']
  else if c = '\x0d' then ['\\', 'r']
  else if c = '\t' then ['\\', 't']
  else if c = '\x08' then ['\\', 'b']
  else if c = '\x0c' then ['\\', 'f']
  else if 0x20 ≤ c.toNat ∧ c.toNat ≤ 0x7e then [c]
  else if c.toNat < 0x10000 then '\\' :: 'u' :: hex4 c.toNat
  else
    let v := c.toNat - 0x10000
    ('\\' :: 'u' :: hex4 (0xd800 + v / 0x400)) ++
      ('\\' :: 'u' :: hex4 (0xdc00 + v % 0x400))

/-- `json.dumps` escaping of a string body. -/
def escape (s : Str) : Str := (s.map escChar).flatten

mutual

/-- `json.dumps(v, separators=(",", ":"))`. -/
def dumps : Json → Str
  | .null => lit "null"
  | .bool true => lit "true"
  | .bool false => lit "false"
  | .num n => intDec n
  | .str s => '"' :: (escape s ++ ['"'])
  | .arr xs => '[' :: (dumpsArr xs ++ [']'])
  | .obj kvs => '\x7b' :: (dumpsObj kvs ++ ['\x7d'])

/-- Comma-joined array elements. -/
def dumpsArr : List Json → Str
  | [] => []
  | [x] => dumps x
  | x :: y :: rest => dumps x ++ ',' :: dumpsArr (y :: rest)

/-- Comma-joined `"key":value` members. -/
def dumpsObj : List (Str × Json) → Str
  | [] => []
  | [(k, v)] => '"' :: (escape k ++ '"' :: ':' :: dumps v)
  | (k, v) :: m :: rest =>
      ('"' :: (escape k ++ '"' :: ':' :: dumps v)) ++ ',' :: dumpsObj (m :: rest)

end

/-- JSON insignificant whitespace. -/
def isJsonWs (c : Char) : Bool :=
  c = ' ' ∨ c = '\t' ∨ c = '\n' ∨ c = '\x0d'

/-- Skip insignificant whitespace. -/
def skipWs (t : Str) : Str := t.dropWhile isJsonWs

/-- Value of a hexadecimal digit character. -/
def hexVal (c : Char) : Option Nat :=
  if '0' ≤ c ∧ c ≤ '9' then some (c.toNat - 48)
  else if 'a' ≤ c ∧ c ≤ 'f' then some (c.toNat - 87)
  else if 'A' ≤ c ∧ c ≤ 'F' then some (c.toNat - 70)
  else none

/-- Parse the four hex digits of a `\uXXXX` escape. -/
def parseHex4 : Str → Option (Nat × Str)
  | a :: b :: c :: d :: rest => do
      let va ← hexVal a
      let vb ← hexVal b
      let vc ← hexVal c
      let vd ← hexVal d
      pure (va * 4096 + vb * 256 + vc * 16 + vd, rest)
  | _ => none

/-- Parse a JSON string body after the opening quote (strict mode:
raw control characters are rejected; surrogate pairs are recombined;
a lone surrogate is rejected since the model's `Char` is a scalar
value). -/
def parseStrBody (fuel : Nat) (t : Str) : Option (Str × Str) :=
  match fuel with
  | 0 => none
  | fuel + 1 =>
    match t with
    | [] => none
    | '"' :: rest => some ([], rest)
    | '\\' :: e :: rest =>
        let simpleEsc : Char → Option Char := fun c =>
          if c = '"' then some '"'
          else if c = '\\' then some '\\'
          else if c = '/' then some '/'
          else if c = 'b' then some '\x08'
          else if c = 'f' then some '\x0c'
          else if c = 'n' then some '\n'
          else if c = 'r' then some '\x0d'
          else if c = 't' then some '\t'
          else none
        match simpleEsc e with
        | some c => do
            let (s, r) ← parseStrBody fuel rest
            pure (c :: s, r)
        | none =>
          if e = 'u' then
            match parseHex4 rest with
            | none => none
            | some (v, rest') =>
              if h1 : 0xd800 ≤ v ∧ v ≤ 0xdbff then
                match rest' with
                | '\\' :: 'u' :: rest'' =>
                    match parseHex4 rest'' with
                    | none => none
                    | some (w, rest''') =>
                        if 0xdc00 ≤ w ∧ w ≤ 0xdfff then do
                          let n := 0x10000 + (v - 0xd800) * 0x400 + (w - 0xdc00)
                          let (s, r) ← parseStrBody fuel rest'''
                          if hn : n < 0x110000 then
                            pure (Char.ofNatAux n (by omega) :: s, r)
                          else none
                        else none
                | _ => none
              else if h2 : 0xdc00 ≤ v ∧ v ≤ 0xdfff then none
              else do
                let (s, r) ← parseStrBody fuel rest'
                if hv : v < 0x110000 then
                  pure (Char.ofNatAux v (by omega) :: s, r)
                else none
          else none
    | c :: rest =>
        if c.toNat < 0x20 then none
        else do
          let (s, r) ← parseStrBody fuel rest
          pure (c :: s, r)

/-- Parse a run of decimal digits. -/
def parseDigits : Str → (Str × Str)
  | [] => ([], [])
  | c :: rest =>
      if '0' ≤ c ∧ c ≤ '9' then
        let (ds, r) := parseDigits rest
        (c :: ds, r)
      else ([], c :: rest)

/-- Numeric value of a digit run. -/
def digitsVal (ds : Str) : Nat := ds.foldl (fun a c => a * 10 + (c.toNat - 48)) 0

/-- Parse a JSON number (integers only; a fraction or exponent makes the
model reject, it never arises from the embedded serializer). -/
def parseNum (t : Str) : Option (Json × Str) :=
  let (neg, t') :=
    match t with
    | '-' :: r => (true, r)
    | _ => (false, t)
  match parseDigits t' with
  | ([], _) => none
  | (ds, r) =>
      if ds.length > 1 ∧ ds.head? = some '0' then none
      else
        match r with
        | '.' :: _ => none
        | 'e' :: _ => none
        | 'E' :: _ => none
        | _ =>
            let v : Int := Int.ofNat (digitsVal ds)
            some (.num (if neg then -v else v), r)

mutual

/-- Parse one JSON value. -/
def parseVal (fuel : Nat) (t : Str) : Option (Json × Str) :=
  match fuel with
  | 0 => none
  | fuel + 1 =>
    match t with
    | 'n' :: 'u' :: 'l' :: 'l' :: r => some (.null, r)
    | 't' :: 'r' :: 'u' :: 'e' :: r => some (.bool true, r)
    | 'f' :: 'a' :: 'l' :: 's' :: 'e' :: r => some (.bool false, r)
    | '"' :: r => do
        let (s, r') ← parseStrBody (r.length + 1) r
        pure (.str s, r')
    | '[' :: r =>
        (match skipWs r with
         | ']' :: r' => some (.arr [], r')
         | r' => do
             let (xs, r'') ← parseElems fuel r'
             pure (.arr xs, r''))
    | '\x7b' :: r =>
        (match skipWs r with
         | '\x7d' :: r' => some (.obj [], r')
         | r' => do
             let (kvs, r'') ← parseMembers fuel r'
             pure (.obj kvs, r''))
    | _ => parseNum t

/-- Parse the elements of a non-empty array, then its closing bracket. -/
def parseElems (fuel : Nat) (t : Str) : Option (List Json × Str) :=
  match fuel with
  | 0 => none
  | fuel + 1 => do
    let (x, r) ← parseVal fuel (skipWs t)
    match skipWs r with
    | ',' :: r' => do
        let (xs, r'') ← parseElems fuel r'
        pure (x :: xs, r'')
    | ']' :: r' => pure ([x], r')
    | _ => none

/-- Parse the members of a non-empty object, then its closing brace. -/
def parseMembers (fuel : Nat) (t : Str) : Option (List (Str × Json) × Str) :=
  match fuel with
  | 0 => none
  | fuel + 1 => do
    match skipWs t with
    | '"' :: r => do
        let (k, r') ← parseStrBody (r.length + 1) r
        match skipWs r' with
        | ':' :: r'' => do
            let (v, r''') ← parseVal fuel (skipWs r'')
            match skipWs r''' with
            | ',' :: r4 => do
                let (kvs, r5) ← parseMembers fuel r4
                pure ((k, v) :: kvs, r5)
            | '\x7d' :: r4 => pure ([(k, v)], r4)
            | _ => none
        | _ => none
    | _ => none

end

/-- `json.loads`: parse a full document, `none` on any error (the
callers catch `json.JSONDecodeError`). -/
def loads (t : Str) : Option Json :=
  match parseVal (t.length * 2 + 8) (skipWs t) with
  | some (v, rest) => if skipWs rest = [] then some v else none
  | none => none

end PMAgent

namespace PMAgent

/-! ### ADF (`jira_client.markdown_to_adf`, `_parse_inline_markdown`,
`_extract_adf_text`)

`add_comment` posts a comment whose body is the ADF document built by
`markdown_to_adf`; `get_issue_comments` reads a comment back as the
concatenation of its ADF text nodes (`_extract_adf_text`, `"".join`).
Only the node shapes the converter produces are modelled. -/

/-- ADF inline node: a text node, optionally with a `strong` mark. -/
inductive Inline where
  | text (s : Str) : Inline
  | strong (s : Str) : Inline
deriving DecidableEq

/-- ADF block node (the shapes `markdown_to_adf` emits; a `listItem`
holds one paragraph, modelled as its inline content). -/
inductive Block where
  | paragraph (content : List Inline) : Block
  | heading (level : Nat) (content : List Inline) : Block
  | bulletList (items : List (List Inline)) : Block
  | orderedList (items : List (List Inline)) : Block
deriving DecidableEq

/-- `_parse_inline_markdown`, scan phase: walk the line collecting bold
nodes (and at most one leading plain-text node).  Fuelled: the index
strictly increases, so `t.length + 1` steps always suffice. -/
def scanInline (fuel : Nat) (t : Str) (i : Nat) (nodes : List Inline) :
    List Inline :=
  match fuel with
  | 0 => nodes
  | fuel + 1 =>
    if i < t.length then
      if t.get? i = some '*' ∧ t.get? (i + 1) = some '*' then
        match pyFind t (lit "**") (i + 2) with
        | some e =>
            let nodes1 :=
              if nodes = [] ∧ 0 < i then nodes ++ [.text (slice t 0 i)]
              else nodes
            let inner := slice t (i + 2) e
            let nodes2 :=
              if pyStrip inner ≠ [] then nodes1 ++ [.strong inner] else nodes1
            scanInline fuel t (e + 2) nodes2
        | none => scanInline fuel t (i + 1) nodes
      else if t.get? i = some '*' ∧
          (i = 0 ∨ t.get? (i - 1) = some ' ' ∨ t.get? (i - 1) = some '\t' ∨
            t.get? (i - 1) = some '(') then
        match pyFind t ['*'] (i + 1) with
        | some e =>
            if i + 1 < e then
              let inner := slice t (i + 1) e
              if ¬ pyContains inner [' '] ∨ inner.length < 80 then
                let nodes1 :=
                  if nodes = [] ∧ 0 < i then nodes ++ [.text (slice t 0 i)]
                  else nodes
                scanInline fuel t (e + 1) (nodes1 ++ [.strong inner])
              else scanInline fuel t (i + 1) nodes
            else scanInline fuel t (i + 1) nodes
        | none => scanInline fuel t (i + 1) nodes
      else scanInline fuel t (i + 1) nodes
    else nodes

/-- `_parse_inline_markdown`, rebuild phase: re-locate each bold node's
markdown source from the running position, re-inserting the gaps between
matches (plain nodes are appended without advancing the position, as in
the source).  Returns the rebuilt list and the final position. -/
def rebuildInline (t : Str) : List Inline → Nat → (List Inline × Nat)
  | [], pos => ([], pos)
  | .text s :: rest, pos =>
      let (r, p) := rebuildInline t rest pos
      (.text s :: r, p)
  | .strong s :: rest, pos =>
      match pyFind t (lit "**" ++ s ++ lit "**") pos,
          pyFind t ('*' :: s ++ ['*']) pos with
      | some d, some sg =>
          if d ≤ sg then
            let gap := if pos < d then [Inline.text (slice t pos d)] else []
            let (r, p) := rebuildInline t rest (d + s.length + 4)
            (gap ++ .strong s :: r, p)
          else
            let gap := if pos < sg then [Inline.text (slice t pos sg)] else []
            let (r, p) := rebuildInline t rest (sg + s.length + 2)
            (gap ++ .strong s :: r, p)
      | some d, none =>
          let gap := if pos < d then [Inline.text (slice t pos d)] else []
          let (r, p) := rebuildInline t rest (d + s.length + 4)
          (gap ++ .strong s :: r, p)
      | none, some sg =>
          let gap := if pos < sg then [Inline.text (slice t pos sg)] else []
          let (r, p) := rebuildInline t rest (sg + s.length + 2)
          (gap ++ .strong s :: r, p)
      | none, none =>
          let (r, p) := rebuildInline t rest pos
          (.strong s :: r, p)

/-- `_parse_inline_markdown(text)`. -/
def parseInline (t : Str) : List Inline :=
  if t = [] then [.text [' ']]
  else
    let nodes := scanInline (t.length + 1) t 0 []
    if nodes = [] then [.text t]
    else
      let (res, pos) := rebuildInline t nodes 0
      let res2 :=
        if pos < t.length then
          let remaining := t.drop pos
          if pyStrip remaining ≠ [] then res ++ [.text remaining] else res
        else res
      if res2 = [] then [.text t] else res2

/-- One step of `markdown_to_adf`'s line loop (accumulator reversed:
head is the latest node, so list items can be merged into it). -/
def adfLineStep (revAcc : List Block) (line : Str) : List Block :=
  let stripped := pyStrip line
  if stripped = [] then revAcc
  else if pyStarts stripped (lit "### ") then
    .heading 3 (parseInline (stripped.drop 4)) :: revAcc
  else if pyStarts stripped (lit "## ") then
    .heading 2 (parseInline (stripped.drop 3)) :: revAcc
  else if pyStarts stripped (lit "# ") then
    .heading 1 (parseInline (stripped.drop 2)) :: revAcc
  else if pyStarts stripped (lit "- ") ∨
      (pyStarts stripped (lit "* ") ∧ ¬ pyStarts stripped (lit "**")) then
    let item := parseInline (stripped.drop 2)
    match revAcc with
    | .bulletList items :: rest => .bulletList (items ++ [item]) :: rest
    | _ => .bulletList [item] :: revAcc
  else if 2 < stripped.length ∧ (stripped.head?.map Char.isDigit = some true) ∧
      pyContains (stripped.take 5) (lit ". ") then
    let dotPos := (pyFind stripped (lit ". ") 0).getD 0
    let item := parseInline (stripped.drop (dotPos + 2))
    match revAcc with
    | .orderedList items :: rest => .orderedList (items ++ [item]) :: rest
    | _ => .orderedList [item] :: revAcc
  else
    .paragraph (parseInline stripped) :: revAcc

/-- `markdown_to_adf(md_text)`. -/
def markdownToAdf (md : Str) : List Block :=
  if md = [] then [.paragraph [.text [' ']]]
  else
    let nodes := ((splitLines md).foldl adfLineStep []).reverse
    if nodes = [] then [.paragraph [.text [' ']]] else nodes

/-- Text of one inline node (`_extract_adf_text` on a text node). -/
def extractInline : Inline → Str
  | .text s => s
  | .strong s => s

/-- Concatenated text of an inline list. -/
def extractInlines (c : List Inline) : Str := (c.map extractInline).flatten

/-- `_extract_adf_text` on one block node. -/
def extractBlock : Block → Str
  | .paragraph c => extractInlines c
  | .heading _ c => extractInlines c
  | .bulletList items => (items.map extractInlines).flatten
  | .orderedList items => (items.map extractInlines).flatten

/-- `_extract_adf_text` on a whole ADF document (`"".join` throughout). -/
def extractBlocks (bs : List Block) : Str := (bs.map extractBlock).flatten

/-- The text `get_issue_comments` observes for a comment that
`add_comment` posted with markdown body `md`: the comment is stored as
`markdown_to_adf(md)` and read back with `_extract_adf_text`. -/
def commentObserved (md : Str) : Str := extractBlocks (markdownToAdf md)

end PMAgent

namespace PMAgent

/-! ### Wiki markup (`confluence_client._inline_md_to_wiki`,
`markdown_to_wiki`)

The three `re.sub` calls are modelled as left-to-right scanners with the
exact match/advance behaviour of the regexes involved (all three
patterns are deterministic: their character classes cannot backtrack
past the delimiter they stop at). -/

/-- The backtick character (0x60). -/
def btick : Char := Char.ofNat 96

/-- `re.sub` of an inline-code span to `{{...}}` (pattern: backtick,
one or more non-backticks, backtick).  Fuelled scanner; the input
length plus one always suffices. -/
def subCode (fuel : Nat) (t : Str) : Str :=
  match fuel with
  | 0 => t
  | fuel + 1 =>
    match t with
    | [] => []
    | c :: rest =>
        if c = btick then
          match pyFind rest [btick] 0 with
          | some j =>
              if 0 < j then
                '\x7b' :: '\x7b' :: (slice rest 0 j ++
                  '\x7d' :: '\x7d' :: subCode fuel (rest.drop (j + 1)))
              else c :: subCode fuel rest
          | none => c :: subCode fuel rest
        else c :: subCode fuel rest

/-- `re.sub(r'\*\*(.+?)\*\*', r'*\1*', text)`: lazily matched bold
spans become single-starred. -/
def subBold (fuel : Nat) (t : Str) : Str :=
  match fuel with
  | 0 => t
  | fuel + 1 =>
    match t with
    | [] => []
    | [c] => [c]
    | c1 :: c2 :: rest =>
        if c1 = '*' ∧ c2 = '*' then
          match pyFind rest (lit "**") 1 with
          | some j =>
              '*' :: (slice rest 0 j ++ '*' :: subBold fuel (rest.drop (j + 2)))
          | none => c1 :: subBold fuel (c2 :: rest)
        else c1 :: subBold fuel (c2 :: rest)

/-- `re.sub(r'\[([^\]]+)\]\(([^)]+)\)', r'[\1|\2]', text)`: markdown
links become `[text|url]`. -/
def subLink (fuel : Nat) (t : Str) : Str :=
  match fuel with
  | 0 => t
  | fuel + 1 =>
    match t with
    | [] => []
    | c :: rest =>
        if c = '[' then
          match pyFind rest [']'] 0 with
          | some j =>
              if 0 < j ∧ rest.get? (j + 1) = some '(' then
                match pyFind rest [')'] (j + 2) with
                | some k =>
                    if j + 2 < k then
                      '[' :: (slice rest 0 j ++ '|' ::
                        (slice rest (j + 2) k ++ ']' :: subLink fuel (rest.drop (k + 1))))
                    else c :: subLink fuel rest
                | none => c :: subLink fuel rest
              else c :: subLink fuel rest
          | none => c :: subLink fuel rest
        else c :: subLink fuel rest

/-- `_inline_md_to_wiki(text)` (code spans, then bold, then links). -/
def inlineMdToWiki (t : Str) : Str :=
  if t = [] then []
  else
    let t1 := subCode (t.length + 1) t
    let t2 := subBold (t1.length + 1) t1
    subLink (t2.length + 1) t2

/-- Python `s.endswith(p)`. -/
def pyEnds (t p : Str) : Bool := p.isSuffixOf t

/-- Characters allowed in a markdown table separator row. -/
def isTableSepChar (c : Char) : Bool :=
  c = '|' ∨ c = '-' ∨ c = ':' ∨ c = ' '

/-- One line of `markdown_to_wiki`'s loop.  State: `(in_code_block,
in_table, reversed output lines)`. -/
def wikiLineStep (st : Bool × Bool × List Str) (line : Str) :
    Bool × Bool × List Str :=
  let inCode := st.1
  let inTable := st.2.1
  let acc := st.2.2
  if pyStarts (pyStrip line) (lit "```") then
    if inCode then (false, inTable, lit "\x7bcode\x7d" :: acc)
    else
      let lang := pyStrip ((pyStrip line).drop 3)
      let opener :=
        if lang ≠ [] then lit "\x7bcode:language=" ++ lang ++ ['\x7d']
        else lit "\x7bcode\x7d"
      (true, inTable, opener :: acc)
  else if inCode then (inCode, inTable, line :: acc)
  else
    let stripped := pyStrip line
    if stripped = [] then (inCode, false, [] :: acc)
    else if pyStarts stripped (lit "######") then
      (inCode, inTable,
        (lit "h6. " ++ inlineMdToWiki (pyStrip (stripped.drop 6))) :: acc)
    else if pyStarts stripped (lit "#####") then
      (inCode, inTable,
        (lit "h5. " ++ inlineMdToWiki (pyStrip (stripped.drop 5))) :: acc)
    else if pyStarts stripped (lit "####") then
      (inCode, inTable,
        (lit "h4. " ++ inlineMdToWiki (pyStrip (stripped.drop 4))) :: acc)
    else if pyStarts stripped (lit "###") then
      (inCode, inTable,
        (lit "h3. " ++ inlineMdToWiki (pyStrip (stripped.drop 3))) :: acc)
    else if pyStarts stripped (lit "##") then
      (inCode, inTable,
        (lit "h2. " ++ inlineMdToWiki (pyStrip (stripped.drop 2))) :: acc)
    else if pyStarts stripped (lit "# ") then
      (inCode, inTable,
        (lit "h1. " ++ inlineMdToWiki (pyStrip (stripped.drop 2))) :: acc)
    else if pyStarts stripped (lit "|") ∧ pyEnds stripped (lit "|") then
      if stripped.all isTableSepChar then (inCode, inTable, acc)
      else
        let cells := ((pySplitChar '|' stripped).drop 1).dropLast.map pyStrip
        if ¬ inTable then
          (inCode, true,
            (lit "|| " ++ joinWith (lit " || ") (cells.map inlineMdToWiki) ++
              lit " ||") :: acc)
        else
          (inCode, inTable,
            (lit "| " ++ joinWith (lit " | ") (cells.map inlineMdToWiki) ++
              lit " |") :: acc)
    else
      -- any non-table line below this point resets the table state
      if pyStarts stripped (lit "- ") ∨
          (pyStarts stripped (lit "* ") ∧ ¬ pyStarts stripped (lit "**")) then
        (inCode, false, ('*' :: ' ' :: inlineMdToWiki (stripped.drop 2)) :: acc)
      else if 2 < stripped.length ∧
          (stripped.head?.map Char.isDigit = some true) ∧
          pyContains (stripped.take 5) (lit ". ") then
        let dotPos := (pyFind stripped (lit ". ") 0).getD 0
        (inCode, false,
          ('#' :: ' ' :: inlineMdToWiki (stripped.drop (dotPos + 2))) :: acc)
      else if stripped = lit "---" ∨ stripped = lit "***" ∨
          stripped = lit "___" then
        (inCode, false, lit "----" :: acc)
      else
        (inCode, false, inlineMdToWiki stripped :: acc)

/-- `markdown_to_wiki(md_text)`. -/
def markdownToWiki (md : Str) : Str :=
  if md = [] then []
  else
    let st := (splitLines md).foldl wikiLineStep (false, false, [])
    joinWith ['\n'] st.2.2.reverse

end PMAgent

namespace PMAgent

/-! ### External state and the pending/park store (`pending_store.py`)

One record models everything the embedded code observes or mutates:
Jira issues and their comments, the `parked.json` index, Confluence
pages, the prototypes repository, the Telegram transport, the
per-stage in-memory pending dicts, and the success/failure of the
fallible external calls a scenario fixes in advance. -/

/-- A `pending_ideas` entry (PM1). -/
structure IdeaEntry where
  issue_key : Str
  structSummary : Str
  structDescription : Str
  raw_idea : Str
  kb_context_text : Str
  chat_id : Int
deriving DecidableEq

/-- A `pending_prds` entry (PM2). -/
structure PrdEntry where
  issue_key : Str
  summary : Str
  page_id : Str
  page_title : Str
  web_url : Str
  prd_markdown : Str
  kb_context_text : Str
  inspiration : Str
  chat_id : Int
deriving DecidableEq

/-- A `pending_prototypes` entry (PM3). -/
structure ProtoEntry where
  issue_key : Str
  summary : Str
  prototype_url : Str
  html_content : Str
  prd_content : Str
  prd_page_id : Str
  prd_web_url : Str
  design_system_text : Str
  db_schema_text : Str
  chat_id : Int
deriving DecidableEq

/-- A `pending_epics` entry (PM4). -/
structure EpicEntry where
  issue_key : Str
  summary : Str
  epic_title : Str
  epic_summary : Str
  prd_page_id : Str
  prd_web_url : Str
  prd_content : Str
  prototype_url : Str
  chat_id : Int
deriving DecidableEq

/-- The observable external world plus the process's in-memory state. -/
structure Agent where
  /-- Jira issues: key → summary field. -/
  issues : List (Str × Str) := []
  /-- Jira comments per issue: key → list of `(comment_id, text)`,
  where the text is what `get_issue_comments` observes. -/
  comments : List (Str × List (Nat × Str)) := []
  /-- Next fresh Jira comment id. -/
  nextCid : Nat := 0
  /-- `parked.json` in the prototypes repo: issue key → stage tag. -/
  parked : List (Str × Str) := []
  /-- Confluence pages: page id → extracted text content. -/
  pages : List (Str × Str) := []
  /-- Prototypes repo files: filename → content. -/
  protos : List (Str × Str) := []
  /-- Whether the Jira comment POST succeeds (fixed per scenario). -/
  addCommentOk : Bool := true
  /-- `fetch_knowledge_base` + `format_kb_for_prompt` result
  (`none` models an empty/failed KB fetch, which is falsy). -/
  kb : Option Str := none
  /-- `enrich_idea` result: `(summary, description)` or failure. -/
  enriched : Option (Str × Str) := none
  /-- `create_idea` result: the new issue key, or failure. -/
  newIdeaKey : Option Str := none
  /-- `create_epic` result: the new epic key, or failure. -/
  epicCreated : Option Str := none
  /-- Whether the Telegram preview send succeeds. -/
  previewOk : Bool := true
  /-- Telegram messages sent: `(chat_id, message_id, text)`. -/
  sent : List (Int × Nat × Str) := []
  /-- Telegram message edits: `(chat_id, message_id, new text)`. -/
  edits : List (Int × Nat × Str) := []
  /-- Telegram message deletions: `(chat_id, message_id)`. -/
  deleted : List (Int × Nat) := []
  /-- Next fresh Telegram message id. -/
  nextMsg : Nat := 0
  /-- `pm1_idea_intake.pending_ideas`. -/
  pendingIdeas : List (Nat × IdeaEntry) := []
  /-- `pm2_prd.pending_prds`. -/
  pendingPrds : List (Nat × PrdEntry) := []
  /-- `pm3_prototype.pending_prototypes`. -/
  pendingProtos : List (Nat × ProtoEntry) := []
  /-- `pm4_epic.pending_epics`. -/
  pendingEpics : List (Nat × EpicEntry) := []
deriving DecidableEq

/-- `jira_client.get_issue` (summary field only; `none` = fetch failed
or issue absent). -/
def getIssue (k : Str) (a : Agent) : Option Str := aget k a.issues

/-- `jira_client.get_issue_comments`. -/
def commentsOf (k : Str) (a : Agent) : List (Nat × Str) :=
  (aget k a.comments).getD []

/-- `jira_client.add_comment`: posts `markdown_to_adf(md)`; what later
reads observe is `commentObserved md`.  Fails when the POST fails or
the issue does not exist. -/
def addComment (k md : Str) (a : Agent) : Bool × Agent :=
  if a.addCommentOk ∧ (aget k a.issues).isSome then
    (true,
      { a with
        comments := aset k (commentsOf k a ++ [(a.nextCid, commentObserved md)]) a.comments
        nextCid := a.nextCid + 1 })
  else (false, a)

/-- `jira_client.delete_comment`. -/
def deleteComment (k : Str) (cid : Nat) (a : Agent) : Agent :=
  { a with comments := aset k ((commentsOf k a).filter (fun c => c.1 ≠ cid)) a.comments }

/-- `confluence_client.fetch_page_content` (text content; `none` on
failure). -/
def fetchPageContent (pid : Str) (a : Agent) : Option Str := aget pid a.pages

/-- `github_client.push_prototype`: whole-file upsert keyed by
filename; returns the public pages URL. -/
def pushPrototype (filename content : Str) (a : Agent) : Str × Agent :=
  (lit "https://james-axis.github.io/prototypes/" ++ filename,
    { a with protos := aset filename content a.protos })

/-- `github_client.fetch_prototype_html`: reads
`f"{issue_key.lower()}.html"` from the prototypes repo. -/
def fetchPrototypeHtml (k : Str) (a : Agent) : Option Str :=
  aget (pyLower k ++ lit ".html") a.protos

/-- `bot.send_message` (always succeeds; returns the message id). -/
def sendMessage (chat : Int) (text : Str) (a : Agent) : Nat × Agent :=
  (a.nextMsg,
    { a with sent := a.sent ++ [(chat, a.nextMsg, text)], nextMsg := a.nextMsg + 1 })

/-- `bot.edit_message_text`. -/
def editMessageText (text : Str) (chat : Int) (mid : Nat) (a : Agent) : Agent :=
  { a with edits := a.edits ++ [(chat, mid, text)] }

/-- `bot.delete_message`. -/
def deleteMessage (chat : Int) (mid : Nat) (a : Agent) : Agent :=
  { a with deleted := a.deleted ++ [(chat, mid)] }

/-- `PARK_MARKER`. -/
def PARK_MARKER : Str := lit "PM_AGENT_PARKED"

/-- `pending_store.park_item`: write the marker comment, then register
the key in `parked.json`; the index is untouched when the comment write
fails. -/
def parkItem (k stage : Str) (data : Json) (a : Agent) : Bool × Agent :=
  let payload := dumps data
  let text := PARK_MARKER ++ ':' :: (stage ++ ':' :: payload)
  let (ok, a1) := addComment k text a
  if ok then (true, { a1 with parked := aset k stage a1.parked })
  else (false, a1)

/-- `text.split(":", 2)` followed by `json.loads(payload)`;
`none` models the caught `ValueError` / `JSONDecodeError`. -/
def parseMarkerComment (t : Str) : Option (Str × Json) :=
  match pySplit2 ':' t with
  | [_, stage, payload] => (loads payload).map (fun d => (stage, d))
  | _ => none

/-- The comment loop shared by `list_parked` and `unpark_item`: the
first comment that starts with the marker *and* parses wins; marker
comments that fail to parse are logged and skipped. -/
def findMarker : List (Nat × Str) → Option (Nat × Str × Json)
  | [] => none
  | (cid, t) :: rest =>
      if pyStarts t PARK_MARKER then
        match parseMarkerComment t with
        | some (st, d) => some (cid, st, d)
        | none => findMarker rest
      else findMarker rest

/-- An element of `list_parked`'s result. -/
structure ParkedItem where
  issue_key : Str
  summary : Str
  stage : Str
  data : Json
  comment_id : Nat
deriving DecidableEq

/-- One key of `list_parked`'s loop: accumulate either an item or a
stale key. -/
def listParkedStep (a : Agent) (acc : List ParkedItem × List Str)
    (kv : Str × Str) : List ParkedItem × List Str :=
  match getIssue kv.1 a with
  | none => (acc.1, acc.2 ++ [kv.1])
  | some summary =>
      match findMarker (commentsOf kv.1 a) with
      | some (cid, st, d) =>
          (acc.1 ++ [⟨kv.1, summary, st, d, cid⟩], acc.2)
      | none => (acc.1, acc.2 ++ [kv.1])

/-- `pending_store.list_parked`: read the index, fetch each issue's
comments, and prune index entries whose backing data vanished. -/
def listParked (a : Agent) : List ParkedItem × Agent :=
  if a.parked = [] then ([], a)
  else
    let (items, stale) := a.parked.foldl (listParkedStep a) ([], [])
    if stale ≠ [] then
      (items, { a with parked := stale.foldl (fun p k => aerase k p) a.parked })
    else (items, a)

/-- `pending_store.unpark_item`: delete the first parsing marker
comment, drop the key from the index, return `{stage, data}`. -/
def unparkItem (k : Str) (a : Agent) : Option (Str × Json) × Agent :=
  let res := findMarker (commentsOf k a)
  let a1 :=
    match res with
    | some (cid, _, _) => deleteComment k cid a
    | none => a
  let a2 :=
    if (aget k a1.parked).isSome then { a1 with parked := aerase k a1.parked }
    else a1
  (res.map (fun r => (r.2.1, r.2.2)), a2)

end PMAgent

namespace PMAgent

/-! ### Stage projections and resume reconstruction
(`pending_store.store_data_for_stage`, `reconstruct_pending`) -/

/-- A Python dict of JSON-typed values (e.g. a pending dict or the
stored park payload). -/
abbrev Dict := List (Str × Json)

/-- `p.get(key, default)`. -/
def jget (p : Dict) (k : Str) (default : Json) : Json :=
  (aget k p).getD default

/-- Python truthiness of a JSON value. -/
def jsonTruthy : Json → Bool
  | .null => false
  | .bool b => b
  | .num n => n ≠ 0
  | .str s => s ≠ []
  | .arr xs => xs ≠ []
  | .obj kvs => kvs ≠ []

/-- The string content of a JSON value if it is a string (the stage
fields the extractors persist are strings). -/
def asStr : Json → Str
  | .str s => s
  | _ => []

/-- `store_data_for_stage(stage, pending)`: the per-stage projection to
the minimal durable payload; unknown stages project to `{}`. -/
def storeDataForStage (stage : Str) (p : Dict) : Dict :=
  if stage = lit "pm1" then []
  else if stage = lit "pm2" then
    [(lit "page_id", jget p (lit "page_id") (.str [])),
     (lit "web_url", jget p (lit "web_url") (.str [])),
     (lit "page_title", jget p (lit "page_title") (.str []))]
  else if stage = lit "pm3" then
    [(lit "prototype_url", jget p (lit "prototype_url") (.str [])),
     (lit "prd_page_id", jget p (lit "prd_page_id") (.str [])),
     (lit "prd_web_url", jget p (lit "prd_web_url") (.str []))]
  else if stage = lit "pm4" then
    [(lit "epic_title", jget p (lit "epic_title") (.str [])),
     (lit "epic_summary", jget p (lit "epic_summary") (.str [])),
     (lit "prd_page_id", jget p (lit "prd_page_id") (.str [])),
     (lit "prd_web_url", jget p (lit "prd_web_url") (.str [])),
     (lit "prototype_url", jget p (lit "prototype_url") (.str []))]
  else if stage = lit "pm5" then
    [(lit "epic_key", jget p (lit "epic_key") (.str [])),
     (lit "epic_title", jget p (lit "epic_title") (.str [])),
     (lit "tasks", jget p (lit "tasks") (.arr [])),
     (lit "total_sp", jget p (lit "total_sp") (.num 0)),
     (lit "prd_page_id", jget p (lit "prd_page_id") (.str [])),
     (lit "prd_web_url", jget p (lit "prd_web_url") (.str [])),
     (lit "prototype_url", jget p (lit "prototype_url") (.str []))]
  else if stage = lit "pm6" then
    [(lit "epic_key", jget p (lit "epic_key") (.str [])),
     (lit "epic_title", jget p (lit "epic_title") (.str [])),
     (lit "tasks", jget p (lit "tasks") (.arr [])),
     (lit "total_sp", jget p (lit "total_sp") (.num 0)),
     (lit "prd_page_id", jget p (lit "prd_page_id") (.str [])),
     (lit "prd_web_url", jget p (lit "prd_web_url") (.str [])),
     (lit "prototype_url", jget p (lit "prototype_url") (.str [])),
     (lit "context_summary", jget p (lit "context_summary") (.str []))]
  else []

/-- The PRD text `reconstruct_pending` re-fetches for a stored
`page_id`-like field: live Confluence content when the id is truthy
and the fetch succeeds, `""` otherwise. -/
def refetchPrd (pidJ : Json) (a : Agent) : Str :=
  if jsonTruthy pidJ then
    match pidJ with
    | .str pid => (fetchPageContent pid a).getD []
    | _ => []
  else []

/-- `reconstruct_pending(stage, issue_key, summary, stored_data,
chat_id)`: rebuild the full pending dict from the minimal stored data
plus live re-fetches; unknown stages return the minimal data verbatim
(spread last, after the base fields) with a warning. -/
def reconstructPending (stage k summary : Str) (stored : Dict) (chat : Int)
    (a : Agent) : Dict :=
  if stage = lit "pm1" then
    [(lit "issue_key", .str k),
     (lit "structured", .obj [(lit "summary", .str summary),
                              (lit "description", .str [])]),
     (lit "raw_idea", .str []),
     (lit "kb_context_text", .str []),
     (lit "chat_id", .num chat)]
  else if stage = lit "pm2" then
    let pageIdJ := jget stored (lit "page_id") (.str [])
    [(lit "issue_key", .str k),
     (lit "summary", .str summary),
     (lit "page_id", pageIdJ),
     (lit "page_title", jget stored (lit "page_title") (.str [])),
     (lit "web_url", jget stored (lit "web_url") (.str [])),
     (lit "prd_markdown", .str (refetchPrd pageIdJ a)),
     (lit "kb_context_text", .str []),
     (lit "inspiration", .str []),
     (lit "chat_id", .num chat)]
  else if stage = lit "pm3" then
    let prdPageIdJ := jget stored (lit "prd_page_id") (.str [])
    let protoUrlJ := jget stored (lit "prototype_url") (.str [])
    let html :=
      if jsonTruthy protoUrlJ then (fetchPrototypeHtml k a).getD [] else []
    [(lit "issue_key", .str k),
     (lit "summary", .str summary),
     (lit "prototype_url", protoUrlJ),
     (lit "html_content", .str html),
     (lit "prd_content", .str (refetchPrd prdPageIdJ a)),
     (lit "prd_page_id", prdPageIdJ),
     (lit "prd_web_url", jget stored (lit "prd_web_url") (.str [])),
     (lit "design_system_text", .str []),
     (lit "db_schema_text", .str []),
     (lit "chat_id", .num chat)]
  else if stage = lit "pm4" then
    let prdPageIdJ := jget stored (lit "prd_page_id") (.str [])
    [(lit "issue_key", .str k),
     (lit "summary", .str summary),
     (lit "epic_title", jget stored (lit "epic_title") (.str summary)),
     (lit "epic_summary", jget stored (lit "epic_summary") (.str [])),
     (lit "prd_page_id", prdPageIdJ),
     (lit "prd_web_url", jget stored (lit "prd_web_url") (.str [])),
     (lit "prd_content", .str (refetchPrd prdPageIdJ a)),
     (lit "prototype_url", jget stored (lit "prototype_url") (.str [])),
     (lit "chat_id", .num chat)]
  else if stage = lit "pm5" then
    let prdPageIdJ := jget stored (lit "prd_page_id") (.str [])
    [(lit "issue_key", .str k),
     (lit "summary", .str summary),
     (lit "epic_key", jget stored (lit "epic_key") (.str [])),
     (lit "epic_title", jget stored (lit "epic_title") (.str summary)),
     (lit "tasks", jget stored (lit "tasks") (.arr [])),
     (lit "total_sp", jget stored (lit "total_sp") (.num 0)),
     (lit "prd_page_id", prdPageIdJ),
     (lit "prd_web_url", jget stored (lit "prd_web_url") (.str [])),
     (lit "prd_content", .str (refetchPrd prdPageIdJ a)),
     (lit "prototype_url", jget stored (lit "prototype_url") (.str [])),
     (lit "chat_id", .num chat)]
  else if stage = lit "pm6" then
    [(lit "issue_key", .str k),
     (lit "summary", .str summary),
     (lit "epic_key", jget stored (lit "epic_key") (.str [])),
     (lit "epic_title", jget stored (lit "epic_title") (.str summary)),
     (lit "tasks", jget stored (lit "tasks") (.arr [])),
     (lit "total_sp", jget stored (lit "total_sp") (.num 0)),
     (lit "prd_page_id", jget stored (lit "prd_page_id") (.str [])),
     (lit "prd_web_url", jget stored (lit "prd_web_url") (.str [])),
     (lit "prd_content", .str []),
     (lit "prototype_url", jget stored (lit "prototype_url") (.str [])),
     (lit "context_summary", jget stored (lit "context_summary") (.str [])),
     (lit "chat_id", .num chat)]
  else
    stored.foldl (fun d kv => aset kv.1 kv.2 d)
      [(lit "issue_key", .str k), (lit "summary", .str summary),
       (lit "chat_id", .num chat)]

end PMAgent

namespace PMAgent

/-! ### Stage handlers (`pm1_idea_intake.py`, `pm2_prd.py`,
`pm3_prototype.py`, `pm4_epic.py`) -/

/-- The JPD idea deep link used by `approve_idea`. -/
def ideaLink (k : Str) : Str :=
  lit "https://axiscrm.atlassian.net/jira/polaris/projects/AR/ideas/view/11184018?selectedIssue=" ++ k

/-- `https://axiscrm.atlassian.net/browse/{key}`. -/
def browseLink (k : Str) : Str :=
  lit "https://axiscrm.atlassian.net/browse/" ++ k

/-- `telegram_bot.send_idea_preview`: sends the hyperlinked preview
with the four action buttons; `none` when the send raises. -/
def sendIdeaPreview (chat : Int) (k summary : Str) (a : Agent) :
    Option Nat × Agent :=
  if a.previewOk then
    let msg := lit "💡 [" ++ k ++ lit "](" ++ browseLink k ++ lit ") — " ++ summary
    let (mid, a') := sendMessage chat msg a
    (some mid, a')
  else (none, a)

/-- `jira_client.create_idea` (outcome fixed by the scenario; on
success the new issue exists in Jira with the enriched summary). -/
def createIdea (structSummary : Str) (a : Agent) : Option Str × Agent :=
  match a.newIdeaKey with
  | none => (none, a)
  | some k => (some k, { a with issues := aset k structSummary a.issues })

/-- The exception raised at `pm1_idea_intake.py:43`: the call
`create_idea(structured, swimlane_id=STRATEGIC_INITIATIVES_ID)` passes
a keyword argument that `jira_client.create_idea(structured_data)`
does not accept, so Python raises before entering the callee. -/
def createIdeaTypeError : Str :=
  lit "TypeError: create_idea() got an unexpected keyword argument 'swimlane_id'"

/-- `pm1_idea_intake.process_idea`: status message, KB fetch, AI
enrichment — a failing fetch or enrichment aborts with a user-visible
`❌` edit.  The Jira-creation step then calls
`create_idea(structured, swimlane_id=STRATEGIC_INITIATIVES_ID)`, which
raises `TypeError` (the callee has no `swimlane_id` parameter), so the
remainder of the source function — the creation-failure `❌` edit, the
preview send and the `pending_ideas` install — is unreachable.  The
result pairs the uncaught exception (if any) with the Telegram state at
the moment it escapes. -/
def processIdea (raw : Str) (chat : Int) (a : Agent) : Option Str × Agent :=
  let (statusId, a1) := sendMessage chat (lit "🧠 Loading knowledge base...") a
  match a1.kb with
  | none =>
      (none,
        editMessageText (lit "❌ Failed to load knowledge base. Check Confluence access.")
          chat statusId a1)
  | some _kbText =>
    let a2 := editMessageText (lit "🧠 Enriching your idea with AI...") chat statusId a1
    match a2.enriched with
    | none =>
        (none,
          editMessageText (lit "❌ AI enrichment failed. Check Claude API key and logs.")
            chat statusId a2)
    | some _structured =>
      let a3 := editMessageText (lit "📝 Creating idea in Jira...") chat statusId a2
      -- pm1_idea_intake.py:43 — the call itself raises TypeError
      (some createIdeaTypeError, a3)

/-- The `❌ … already been processed or expired.` replies. -/
def alreadyProcessedIdea : Str :=
  lit "❌ This idea has already been processed or expired."

/-- `pm1_idea_intake.approve_idea`: pop the entry first; a missing
entry reports already-processed without touching anything. -/
def approveIdea (mid : Nat) (a : Agent) : Str × Agent :=
  match aget mid a.pendingIdeas with
  | none => (alreadyProcessedIdea, a)
  | some e =>
      let a1 := { a with pendingIdeas := aerase mid a.pendingIdeas }
      let (_, a2) := addComment e.issue_key
        (lit "**PM1 Approved** — Idea enriched and created via PM Agent. Ready for PM2 processing.") a1
      (lit "✅ [" ++ e.issue_key ++ lit "](" ++ ideaLink e.issue_key ++
        lit ") — Approved", a2)

/-- `pm2_prd.approve_prd`: reads the entry with `get` — deliberately
*not* popped ("don't pop from pending yet — callback needs it") — adds
the `PRD approved` comment and sends the prototype-decision prompt. -/
def approvePrd (mid : Nat) (a : Agent) : Option Str × Agent :=
  match aget mid a.pendingPrds with
  | none => (some (lit "❌ This PRD has already been processed or expired."), a)
  | some e =>
      let (_, a1) := addComment e.issue_key (lit "PRD approved") a
      let text := lit "✅ [" ++ e.issue_key ++ lit "](" ++
        browseLink e.issue_key ++ lit ") — PRD Approved\n\n🎨 *Prototype needed?*"
      let (_, a2) := sendMessage e.chat_id text a1
      (none, a2)

/-- `pm3_prototype.approve_prototype`: pop first, then comment. -/
def approvePrototype (mid : Nat) (a : Agent) : Str × Agent :=
  match aget mid a.pendingProtos with
  | none => (lit "❌ This prototype has already been processed or expired.", a)
  | some e =>
      let a1 := { a with pendingProtos := aerase mid a.pendingProtos }
      let (_, a2) := addComment e.issue_key
        (lit "Prototype approved by James. Ready for development.") a1
      (lit "✅ [" ++ e.issue_key ++ lit "](" ++ e.prototype_url ++
        lit ") — Prototype Approved", a2)

/-- `jira_client.create_epic` (outcome fixed by the scenario; on
success the epic exists in Jira and the browse URL is returned). -/
def createEpic (title : Str) (a : Agent) : Option (Str × Str) × Agent :=
  match a.epicCreated with
  | none => (none, a)
  | some ek =>
      (some (ek, browseLink ek), { a with issues := aset ek title a.issues })

/-- `pm4_epic.approve_epic`: pop first; create the epic, then comment
on the source idea and on the epic. -/
def approveEpic (mid : Nat) (a : Agent) : Str × Agent :=
  match aget mid a.pendingEpics with
  | none => (lit "❌ This Epic has already been processed or expired.", a)
  | some e =>
      let a1 := { a with pendingEpics := aerase mid a.pendingEpics }
      match createEpic e.epic_title a1 with
      | (none, a2) =>
          (lit "❌ Failed to create Epic in AX project for " ++ e.issue_key ++
            lit ".", a2)
      | (some (epicKey, epicUrl), a2) =>
          let (_, a3) := addComment e.issue_key
            (lit "Epic created: " ++ epicKey ++ lit " — " ++ epicUrl) a2
          let (_, a4) := addComment epicKey
            (lit "Source idea: " ++ e.issue_key ++ lit "\nPRD: " ++
              e.prd_web_url ++ lit "\nPrototype: " ++ e.prototype_url) a3
          (lit "✅ Epic [" ++ epicKey ++ lit "](" ++ epicUrl ++
            lit ") created — " ++ e.epic_title, a4)

/-- The filename `pm3_prototype.process_prototype` (and
`apply_prototype_changes`) pushes the prototype to:
`f"{issue_key}.html"`. -/
def pushFilename (k : Str) : Str := k ++ lit ".html"

/-- The filename `github_client.fetch_prototype_html` reads on resume:
`f"{issue_key.lower()}.html"`. -/
def fetchFilename (k : Str) : Str := pyLower k ++ lit ".html"

end PMAgent


namespace PMAgent

theorem akeys_cons {α β : Type} (k : α) (v : β) (d : List (α × β)) :
    akeys ((k, v) :: d) = k :: akeys d := rfl

theorem aget_aset_self {α : Type} [DecidableEq α] {β : Type} (k : α) (v : β)
    (d : List (α × β)) : aget k (aset k v d) = some v := by
  induction d with
  | nil => simp [aset, aget]
  | cons hd tl ih =>
      obtain ⟨k0, v0⟩ := hd
      by_cases h : k0 = k
      · simp [aset, aget, h]
      · simp [aset, aget, h, ih]

theorem aget_aset_ne {α : Type} [DecidableEq α] {β : Type} {k k' : α}
    (h : k' ≠ k) (v : β) (d : List (α × β)) :
    aget k (aset k' v d) = aget k d := by
  induction d with
  | nil => simp [aset, aget, h]
  | cons hd tl ih =>
      obtain ⟨k0, v0⟩ := hd
      by_cases h0 : k0 = k'
      · subst h0
        have hk : k0 ≠ k := h
        simp [aset, aget, hk]
      · by_cases h1 : k0 = k
        · subst h1
          have hk : k0 ≠ k' := h0
          rw [aset, if_neg hk, aget, if_pos rfl, aget, if_pos rfl]
        · rw [aset, if_neg h0, aget, if_neg h1, aget, if_neg h1]
          exact ih

theorem aget_eq_none_of_not_mem {α : Type} [DecidableEq α] {β : Type} {k : α}
    {d : List (α × β)} (h : k ∉ akeys d) : aget k d = none := by
  induction d with
  | nil => simp [aget]
  | cons hd tl ih =>
      obtain ⟨k0, v0⟩ := hd
      rw [akeys_cons, List.mem_cons, not_or] at h
      have h0 : k0 ≠ k := fun hh => h.1 hh.symm
      rw [aget, if_neg h0]
      exact ih h.2

theorem mem_akeys_of_aget {α : Type} [DecidableEq α] {β : Type} {k : α}
    {d : List (α × β)} (h : (aget k d).isSome) : k ∈ akeys d := by
  by_contra hc
  rw [aget_eq_none_of_not_mem hc] at h
  simp at h

theorem aget_aerase_self {α : Type} [DecidableEq α] {β : Type} {k : α}
    {d : List (α × β)} (h : (akeys d).Nodup) : aget k (aerase k d) = none := by
  induction d with
  | nil => simp [aerase, aget]
  | cons hd tl ih =>
      obtain ⟨k0, v0⟩ := hd
      rw [akeys_cons, List.nodup_cons] at h
      by_cases h0 : k0 = k
      · subst h0
        rw [aerase, if_pos rfl]
        exact aget_eq_none_of_not_mem h.1
      · rw [aerase, if_neg h0, aget, if_neg h0]
        exact ih h.2

theorem aget_aerase_of_none {α : Type} [DecidableEq α] {β : Type} {k : α}
    (k' : α) {d : List (α × β)} (h : aget k d = none) :
    aget k (aerase k' d) = none := by
  induction d with
  | nil => simp [aerase, aget]
  | cons hd tl ih =>
      obtain ⟨k0, v0⟩ := hd
      by_cases h0 : k0 = k
      · rw [aget, if_pos h0] at h
        cases h
      · rw [aget, if_neg h0] at h
        by_cases h1 : k0 = k'
        · rw [aerase, if_pos h1]
          exact h
        · rw [aerase, if_neg h1, aget, if_neg h0]
          exact ih h

theorem mem_akeys_aset {α : Type} [DecidableEq α] {β : Type} {key k : α}
    {v : β} {d : List (α × β)} (h : key ∈ akeys (aset k v d)) :
    key ∈ akeys d ∨ key = k := by
  induction d with
  | nil =>
      rw [show aset k v ([] : List (α × β)) = [(k, v)] from rfl,
        akeys_cons] at h
      rcases List.mem_cons.mp h with h | h
      · exact Or.inr h
      · simp [akeys] at h
  | cons hd tl ih =>
      obtain ⟨k0, v0⟩ := hd
      by_cases h0 : k0 = k
      · rw [aset, if_pos h0, akeys_cons, List.mem_cons] at h
        rcases h with h | h
        · exact Or.inr h
        · exact Or.inl (by rw [akeys_cons, List.mem_cons]; exact Or.inr h)
      · rw [aset, if_neg h0, akeys_cons, List.mem_cons] at h
        rcases h with h | h
        · exact Or.inl (by rw [akeys_cons, List.mem_cons]; exact Or.inl h)
        · rcases ih h with h1 | h1
          · exact Or.inl (by rw [akeys_cons, List.mem_cons]; exact Or.inr h1)
          · exact Or.inr h1

theorem akeys_aset_nodup {α : Type} [DecidableEq α] {β : Type} {k : α} (v : β)
    {d : List (α × β)} (h : (akeys d).Nodup) : (akeys (aset k v d)).Nodup := by
  induction d with
  | nil => simp [aset, akeys]
  | cons hd tl ih =>
      obtain ⟨k0, v0⟩ := hd
      rw [akeys_cons, List.nodup_cons] at h
      by_cases h0 : k0 = k
      · subst h0
        rw [aset, if_pos rfl, akeys_cons, List.nodup_cons]
        exact ⟨h.1, h.2⟩
      · rw [aset, if_neg h0, akeys_cons, List.nodup_cons]
        refine ⟨?_, ih h.2⟩
        intro hm
        rcases mem_akeys_aset hm with h1 | h1
        · exact h.1 h1
        · exact h0 h1

theorem mem_aset_self {α : Type} [DecidableEq α] {β : Type} {k : α} (v : β)
    {d : List (α × β)} (h : (akeys d).Nodup) : (k, v) ∈ aset k v d := by
  induction d with
  | nil => simp [aset]
  | cons hd tl ih =>
      obtain ⟨k0, v0⟩ := hd
      rw [akeys_cons, List.nodup_cons] at h
      by_cases h0 : k0 = k
      · rw [aset, if_pos h0]
        exact List.mem_cons_self _ _
      · rw [aset, if_neg h0]
        exact List.mem_cons_of_mem _ (ih h.2)

end PMAgent

namespace PMAgent

/-! ### C5 — prototype park/resume filename -/

/-- C5: the resume path does *not* re-fetch the prototype under the
filename it was pushed to.  `process_prototype` pushes
`f"{issue_key}.html"`, while `fetch_prototype_html` (used by
`reconstruct_pending` for a parked pm3 item) reads
`f"{issue_key.lower()}.html"`.  For the issue key `"AR-42"` the pushed
file is `AR-42.html`, the fetch asks for `ar-42.html`, and resuming a
parked prototype whose HTML is present in the repo under the pushed
name reconstructs an empty `html_content`. -/
theorem prototype_resume_fetches_wrong_filename :
    fetchFilename (lit "AR-42") ≠ pushFilename (lit "AR-42") ∧
    (let a : Agent :=
      { protos := [(pushFilename (lit "AR-42"), lit "<html>proto</html>")] }
     jget
       (reconstructPending (lit "pm3") (lit "AR-42") (lit "SMS reminders")
         [(lit "prototype_url",
           .str (lit "https://james-axis.github.io/prototypes/AR-42.html")),
          (lit "prd_page_id", .str []),
          (lit "prd_web_url", .str [])]
         7 a)
       (lit "html_content") .null = .str []) := by
  constructor
  · decide
  · decide

/-! ### C8 — unknown stage tags degrade gracefully -/

/-- Folding `aset` over pairs whose keys avoid `key` leaves `key`'s
binding in the base dict unchanged. -/
theorem aget_foldl_aset_of_none {key : Str} :
    ∀ (xs : Dict) (base : Dict), aget key xs = none →
      aget key (xs.foldl (fun d kv => aset kv.1 kv.2 d) base) = aget key base := by
  intro xs
  induction xs with
  | nil => intro base _; rfl
  | cons hd tl ih =>
      intro base h
      obtain ⟨k0, v0⟩ := hd
      by_cases h0 : k0 = key
      · rw [aget, if_pos h0] at h
        cases h
      · rw [aget, if_neg h0] at h
        rw [List.foldl_cons, ih _ h, aget_aset_ne h0]

/-- Keys stored in an assoc list survive the `{base, **stored}` spread
(`aset`-fold) verbatim. -/
theorem aget_foldl_aset_of_mem {key : Str} {v : Json} :
    ∀ (xs : Dict) (base : Dict), (akeys xs).Nodup →
      aget key xs = some v →
      aget key (xs.foldl (fun d kv => aset kv.1 kv.2 d) base) = some v := by
  intro xs
  induction xs with
  | nil => intro base _ h; simp [aget] at h
  | cons hd tl ih =>
      intro base hnd h
      obtain ⟨k0, v0⟩ := hd
      rw [akeys_cons, List.nodup_cons] at hnd
      by_cases h0 : k0 = key
      · subst h0
        rw [aget, if_pos rfl] at h
        cases h
        have htl : aget k0 tl = none := aget_eq_none_of_not_mem hnd.1
        rw [List.foldl_cons, aget_foldl_aset_of_none _ _ htl]
        exact aget_aset_self _ _ _
      · rw [aget, if_neg h0] at h
        rw [List.foldl_cons]
        exact ih _ hnd.2 h

end PMAgent

namespace PMAgent

/-- C8: for a stage tag outside `pm1`–`pm6`, `reconstruct_pending`
does not fail: after logging a warning it returns the base dict
`{issue_key, summary, chat_id}` with every key/value pair of
`stored_data` spread over it verbatim (the spread is last, so a stored
key wins; when `stored_data` does not shadow them, the three base
fields carry the call's arguments). -/
theorem unknown_stage_reconstruct_verbatim
    (stage k summary : Str) (stored : Dict) (chat : Int) (a : Agent)
    (hstage : stage ∉ [lit "pm1", lit "pm2", lit "pm3", lit "pm4",
      lit "pm5", lit "pm6"])
    (hnd : (akeys stored).Nodup) :
    (∀ key v, aget key stored = some v →
      aget key (reconstructPending stage k summary stored chat a) = some v) ∧
    (aget (lit "issue_key")
      (reconstructPending stage k summary stored chat a)).isSome ∧
    (aget (lit "summary")
      (reconstructPending stage k summary stored chat a)).isSome ∧
    (aget (lit "chat_id")
      (reconstructPending stage k summary stored chat a)).isSome ∧
    (aget (lit "issue_key") stored = none →
      aget (lit "issue_key") (reconstructPending stage k summary stored chat a)
        = some (.str k)) ∧
    (aget (lit "summary") stored = none →
      aget (lit "summary") (reconstructPending stage k summary stored chat a)
        = some (.str summary)) ∧
    (aget (lit "chat_id") stored = none →
      aget (lit "chat_id") (reconstructPending stage k summary stored chat a)
        = some (.num chat)) := by
  simp only [List.mem_cons, List.mem_singleton, not_or] at hstage
  obtain ⟨h1, h2, h3, h4, h5, h6⟩ := hstage
  have hr : reconstructPending stage k summary stored chat a =
      stored.foldl (fun d kv => aset kv.1 kv.2 d)
        [(lit "issue_key", .str k), (lit "summary", .str summary),
         (lit "chat_id", .num chat)] := by
    rw [reconstructPending, if_neg h1, if_neg h2, if_neg h3, if_neg h4,
      if_neg h5, if_neg (by simpa using h6)]
  rw [hr]
  refine ⟨fun key v hk => aget_foldl_aset_of_mem _ _ hnd hk, ?_, ?_, ?_,
    ?_, ?_, ?_⟩
  · cases hcase : aget (lit "issue_key") stored with
    | some v => rw [aget_foldl_aset_of_mem _ _ hnd hcase]; rfl
    | none => rw [aget_foldl_aset_of_none _ _ hcase]; rfl
  · cases hcase : aget (lit "summary") stored with
    | some v => rw [aget_foldl_aset_of_mem _ _ hnd hcase]; rfl
    | none => rw [aget_foldl_aset_of_none _ _ hcase]; rfl
  · cases hcase : aget (lit "chat_id") stored with
    | some v => rw [aget_foldl_aset_of_mem _ _ hnd hcase]; rfl
    | none => rw [aget_foldl_aset_of_none _ _ hcase]; rfl
  · intro hnone
    rw [aget_foldl_aset_of_none _ _ hnone]
    rfl
  · intro hnone
    rw [aget_foldl_aset_of_none _ _ hnone]
    rfl
  · intro hnone
    rw [aget_foldl_aset_of_none _ _ hnone]
    rfl

/-- C8 witness: the real stage tag `pm7` has no reconstruction case;
at a concrete stored payload the unknown-stage path returns it
verbatim together with the base fields. -/
theorem unknown_stage_reconstruct_verbatim_witness :
    (∀ key v, aget key [(lit "x", Json.num 3)] = some v →
      aget key (reconstructPending (lit "pm7") (lit "AR-9") (lit "S")
        [(lit "x", Json.num 3)] 5 {}) = some v) ∧
    (aget (lit "issue_key") (reconstructPending (lit "pm7") (lit "AR-9")
      (lit "S") [(lit "x", Json.num 3)] 5 {})).isSome ∧
    (aget (lit "summary") (reconstructPending (lit "pm7") (lit "AR-9")
      (lit "S") [(lit "x", Json.num 3)] 5 {})).isSome ∧
    (aget (lit "chat_id") (reconstructPending (lit "pm7") (lit "AR-9")
      (lit "S") [(lit "x", Json.num 3)] 5 {})).isSome ∧
    (aget (lit "issue_key") [(lit "x", Json.num 3)] = none →
      aget (lit "issue_key") (reconstructPending (lit "pm7") (lit "AR-9")
        (lit "S") [(lit "x", Json.num 3)] 5 {}) = some (.str (lit "AR-9"))) ∧
    (aget (lit "summary") [(lit "x", Json.num 3)] = none →
      aget (lit "summary") (reconstructPending (lit "pm7") (lit "AR-9")
        (lit "S") [(lit "x", Json.num 3)] 5 {}) = some (.str (lit "S"))) ∧
    (aget (lit "chat_id") [(lit "x", Json.num 3)] = none →
      aget (lit "chat_id") (reconstructPending (lit "pm7") (lit "AR-9")
        (lit "S") [(lit "x", Json.num 3)] 5 {}) = some (.num 5)) :=
  unknown_stage_reconstruct_verbatim (lit "pm7") (lit "AR-9") (lit "S")
    [(lit "x", Json.num 3)] 5 {} (by decide) (by decide)

end PMAgent

namespace PMAgent

/-! ### C10 / C4 — unpark NotFound and list_parked self-healing -/

/-- `findMarker` finds nothing when every marker-prefixed comment fails
to parse (in particular when no comment has the prefix at all). -/
theorem findMarker_eq_none {l : List (Nat × Str)}
    (h : ∀ c ∈ l, pyStarts c.2 PARK_MARKER = true →
      parseMarkerComment c.2 = none) :
    findMarker l = none := by
  induction l with
  | nil => rfl
  | cons hd tl ih =>
      obtain ⟨cid, t⟩ := hd
      rw [findMarker]
      by_cases hs : pyStarts t PARK_MARKER = true
      · rw [if_pos hs, h (cid, t) (List.mem_cons_self _ _) hs]
        exact ih fun c hc => h c (List.mem_cons_of_mem _ hc)
      · rw [if_neg hs]
        exact ih fun c hc => h c (List.mem_cons_of_mem _ hc)

/-- Erasing an absent key is the identity. -/
theorem aerase_eq_of_aget_none {β : Type} {k : Str} {d : List (Str × β)}
    (h : aget k d = none) : aerase k d = d := by
  induction d with
  | nil => rfl
  | cons hd tl ih =>
      obtain ⟨k0, v0⟩ := hd
      by_cases h0 : k0 = k
      · rw [aget, if_pos h0] at h
        cases h
      · rw [aget, if_neg h0] at h
        rw [aerase, if_neg h0, ih h]

/-- C10: when `unpark_item` finds no (parseable) marker comment it
returns `None`, leaves every comment in place — in particular an
unparseable marker comment — yet still removes the key from the
`parked.json` index, erasing the item's discoverability. -/
theorem unpark_notfound_prunes_index_only (k : Str) (a : Agent)
    (h : ∀ c ∈ commentsOf k a, pyStarts c.2 PARK_MARKER = true →
      parseMarkerComment c.2 = none) :
    unparkItem k a = (none, { a with parked := aerase k a.parked }) := by
  rw [unparkItem, findMarker_eq_none h]
  by_cases hp : (aget k a.parked).isSome
  · rw [if_pos hp]
    rfl
  · rw [if_neg hp]
    have heq : aerase k a.parked = a.parked :=
      aerase_eq_of_aget_none (by
        cases hg : aget k a.parked with
        | some v => rw [hg] at hp; simp at hp
        | none => rfl)
    rw [heq]
    rfl

/-- C10 witness: a parked key whose only comment is a marker comment
with an unparseable payload — unpark returns `None`, the comment
stays, the index entry is gone. -/
theorem unpark_notfound_prunes_index_only_witness :
    unparkItem (lit "AR-5")
      { issues := [(lit "AR-5", lit "S")],
        comments := [(lit "AR-5", [(0, lit "PM_AGENT_PARKED:pm2:notjson")])],
        parked := [(lit "AR-5", lit "pm2")] } =
    (none,
      { issues := [(lit "AR-5", lit "S")],
        comments := [(lit "AR-5", [(0, lit "PM_AGENT_PARKED:pm2:notjson")])],
        parked := aerase (lit "AR-5") [(lit "AR-5", lit "pm2")] }) :=
  unpark_notfound_prunes_index_only (lit "AR-5") _ (by decide)

/-- `listParkedStep` only ever appends to the stale-key list. -/
theorem listParkedStep_stale_mono (a : Agent) (acc : List ParkedItem × List Str)
    (kv : Str × Str) {k : Str} (h : k ∈ acc.2) :
    k ∈ (listParkedStep a acc kv).2 := by
  rw [listParkedStep]
  cases getIssue kv.1 a with
  | none => exact List.mem_append_left _ h
  | some summary =>
      cases findMarker (commentsOf kv.1 a) with
      | none => exact List.mem_append_left _ h
      | some r => exact h

/-- A key every occurrence of which goes stale is in the final stale
list as soon as it occurs in the index. -/
theorem foldl_step_stale_mem (a : Agent) {k : Str}
    (hstale : getIssue k a = none ∨ findMarker (commentsOf k a) = none) :
    ∀ (l : List (Str × Str)) (acc : List ParkedItem × List Str),
      ((∃ st, (k, st) ∈ l) ∨ k ∈ acc.2) →
      k ∈ (l.foldl (listParkedStep a) acc).2 := by
  intro l
  induction l with
  | nil =>
      intro acc h
      rcases h with ⟨st, h⟩ | h
      · cases h
      · exact h
  | cons hd tl ih =>
      intro acc h
      rw [List.foldl_cons]
      rcases h with ⟨st, h⟩ | h
      · rcases List.mem_cons.mp h with h | h
        · refine ih _ (Or.inr ?_)
          subst h
          rw [listParkedStep]
          rcases hstale with h1 | h1
          · rw [h1]
            exact List.mem_append_right _ (List.mem_singleton.mpr rfl)
          · cases hg : getIssue k a with
            | none => exact List.mem_append_right _ (List.mem_singleton.mpr rfl)
            | some s =>
                rw [h1]
                exact List.mem_append_right _ (List.mem_singleton.mpr rfl)
        · exact ih _ (Or.inl ⟨st, h⟩)
      · exact ih _ (Or.inr (listParkedStep_stale_mono a acc hd h))

/-- No returned item carries a key every occurrence of which goes
stale. -/
theorem foldl_step_items_ne (a : Agent) {k : Str}
    (hstale : getIssue k a = none ∨ findMarker (commentsOf k a) = none) :
    ∀ (l : List (Str × Str)) (acc : List ParkedItem × List Str),
      (∀ it ∈ acc.1, it.issue_key ≠ k) →
      ∀ it ∈ (l.foldl (listParkedStep a) acc).1, it.issue_key ≠ k := by
  intro l
  induction l with
  | nil => intro acc h; exact h
  | cons hd tl ih =>
      intro acc h
      rw [List.foldl_cons]
      refine ih _ ?_
      intro it hit
      rw [listParkedStep] at hit
      by_cases hk : hd.1 = k
      · rw [hk] at hit
        rcases hstale with h1 | h1
        · rw [h1] at hit
          exact h it hit
        · cases hg : getIssue k a with
          | none => rw [hg] at hit; exact h it hit
          | some s =>
              rw [hg, h1] at hit
              exact h it hit
      · cases hg : getIssue hd.1 a with
        | none => rw [hg] at hit; exact h it hit
        | some s =>
            rw [hg] at hit
            cases hm : findMarker (commentsOf hd.1 a) with
            | none => rw [hm] at hit; exact h it hit
            | some r =>
                rw [hm] at hit
                rcases List.mem_append.mp hit with h2 | h2
                · exact h it h2
                · rw [List.mem_singleton.mp h2]
                  exact hk

/-- `aerase` is a sublist, so key-nodup survives it. -/
theorem aerase_sublist {β : Type} (k : Str) (d : List (Str × β)) :
    (aerase k d).Sublist d := by
  induction d with
  | nil => exact List.Sublist.refl _
  | cons hd tl ih =>
      obtain ⟨k0, v0⟩ := hd
      by_cases h0 : k0 = k
      · rw [aerase, if_pos h0]
        exact List.sublist_cons_self _ _
      · rw [aerase, if_neg h0]
        exact List.Sublist.cons₂ _ ih

/-- Folding `aerase` preserves an absent binding. -/
theorem foldl_aerase_of_none {k : Str} :
    ∀ (stale : List Str) (p : List (Str × Str)), aget k p = none →
      aget k (stale.foldl (fun p key => aerase key p) p) = none := by
  intro stale
  induction stale with
  | nil => intro p h; exact h
  | cons s0 rest ih =>
      intro p h
      rw [List.foldl_cons]
      exact ih _ (aget_aerase_of_none s0 h)

/-- Folding `aerase` over a list containing `k` removes `k`'s binding
(given unique keys). -/
theorem foldl_aerase_aget_none {k : Str} :
    ∀ (stale : List Str) (parked : List (Str × Str)),
      (akeys parked).Nodup → k ∈ stale →
      aget k (stale.foldl (fun p key => aerase key p) parked) = none := by
  intro stale
  induction stale with
  | nil => intro parked _ h; cases h
  | cons s0 rest ih =>
      intro parked hnd hmem
      rw [List.foldl_cons]
      by_cases hk : k = s0
      · subst hk
        exact foldl_aerase_of_none rest _ (aget_aerase_self hnd)
      · exact ih _ ((List.Sublist.map Prod.fst (aerase_sublist s0 parked)).nodup hnd)
          ((List.mem_cons.mp hmem).resolve_left hk)

/-- `aget` as membership witness. -/
theorem mem_of_aget_eq_some {β : Type} {k : Str} {v : β} {d : List (Str × β)}
    (h : aget k d = some v) : (k, v) ∈ d := by
  induction d with
  | nil => cases h
  | cons hd tl ih =>
      obtain ⟨k0, v0⟩ := hd
      by_cases h0 : k0 = k
      · rw [aget, if_pos h0] at h
        cases h
        rw [h0]
        exact List.mem_cons_self _ _
      · rw [aget, if_neg h0] at h
        exact List.mem_cons_of_mem _ (ih h)

/-- C4: a key in the park index whose backing issue exists but carries
no marker-prefixed comment is excluded from `list_parked`'s result and
evicted from the index file. -/
theorem list_parked_prunes_stale (k : Str) (a : Agent)
    (hnd : (akeys a.parked).Nodup)
    (hmem : (aget k a.parked).isSome)
    (_hissue : (getIssue k a).isSome)
    (hnomarker : ∀ c ∈ commentsOf k a, pyStarts c.2 PARK_MARKER = false) :
    (∀ it ∈ (listParked a).1, it.issue_key ≠ k) ∧
    aget k (listParked a).2.parked = none := by
  have hstale : getIssue k a = none ∨ findMarker (commentsOf k a) = none :=
    Or.inr (findMarker_eq_none fun c hc hs => by
      rw [hnomarker c hc] at hs
      cases hs)
  obtain ⟨st, hst⟩ : ∃ st, aget k a.parked = some st := by
    cases hg : aget k a.parked with
    | some v => exact ⟨v, rfl⟩
    | none => rw [hg] at hmem; simp at hmem
  have hne : a.parked ≠ [] := by
    intro hnil
    rw [hnil] at hst
    cases hst
  have hkstale : k ∈ (a.parked.foldl (listParkedStep a) ([], [])).2 :=
    foldl_step_stale_mem a hstale _ _ (Or.inl ⟨st, mem_of_aget_eq_some hst⟩)
  have hsne : (a.parked.foldl (listParkedStep a) ([], [])).2 ≠ [] := by
    intro hnil
    rw [hnil] at hkstale
    cases hkstale
  have hitems : ∀ it ∈ (a.parked.foldl (listParkedStep a) ([], [])).1,
      it.issue_key ≠ k :=
    foldl_step_items_ne a hstale _ _ (by intro it hit; cases hit)
  rw [listParked, if_neg hne]
  rcases hfold : a.parked.foldl (listParkedStep a) ([], []) with ⟨items, stale⟩
  rw [hfold] at hkstale hsne hitems
  simp only
  rw [if_pos hsne]
  exact ⟨hitems, foldl_aerase_aget_none stale a.parked hnd hkstale⟩

/-- C4 witness: an indexed key whose issue exists but whose marker
comment was deleted (only an unrelated comment remains) is pruned. -/
theorem list_parked_prunes_stale_witness :
    (∀ it ∈ (listParked
      { issues := [(lit "AR-6", lit "S")],
        comments := [(lit "AR-6", [(0, lit "just a note")])],
        parked := [(lit "AR-6", lit "pm3")] }).1, it.issue_key ≠ lit "AR-6") ∧
    aget (lit "AR-6") (listParked
      { issues := [(lit "AR-6", lit "S")],
        comments := [(lit "AR-6", [(0, lit "just a note")])],
        parked := [(lit "AR-6", lit "pm3")] }).2.parked = none :=
  list_parked_prunes_stale (lit "AR-6") _ (by decide) (by decide) (by decide)
    (by decide)

end PMAgent

namespace PMAgent

/-! ### C6 — pm2 park projection and live-resume of the PRD text -/

/-- C6: parking a PRD-stage item persists exactly `page_id`, `web_url`
and `page_title` (no PRD text), and resuming reconstructs
`prd_markdown` from the page content *currently* stored at that page
id — the statement quantifies over the present world `a`, so a page
edited after parking yields the edited text, not the park-time text. -/
theorem pm2_park_projection_and_live_resume
    (p : Dict) (k summ : Str) (chat : Int) (a : Agent) (pid live : Str)
    (hpid : aget (lit "page_id") p = some (.str pid))
    (hne : pid ≠ [])
    (hlive : fetchPageContent pid a = some live) :
    storeDataForStage (lit "pm2") p =
      [(lit "page_id", .str pid),
       (lit "web_url", jget p (lit "web_url") (.str [])),
       (lit "page_title", jget p (lit "page_title") (.str []))] ∧
    aget (lit "prd_markdown")
      (reconstructPending (lit "pm2") k summ (storeDataForStage (lit "pm2") p)
        chat a) = some (.str live) := by
  have hstore : storeDataForStage (lit "pm2") p =
      [(lit "page_id", .str pid),
       (lit "web_url", jget p (lit "web_url") (.str [])),
       (lit "page_title", jget p (lit "page_title") (.str []))] := by
    rw [storeDataForStage, if_neg (by decide), if_pos rfl]
    rw [show jget p (lit "page_id") (.str []) = .str pid by
      rw [jget, hpid]; rfl]
  refine ⟨hstore, ?_⟩
  rw [hstore, reconstructPending, if_neg (by decide), if_pos rfl]
  have htr : jsonTruthy (Json.str pid) = true := by
    simpa [jsonTruthy] using hne
  simp +decide only [jget, aget, refetchPrd, htr, hlive, Option.getD,
    if_true, if_false]

/-- C6 witness: the spec's scenario — key `AR-42`, page id `123`; the
page content changed to `NEW PRD` after park time, and resume picks up
the live text. -/
theorem pm2_park_projection_and_live_resume_witness :
    (storeDataForStage (lit "pm2")
      [(lit "page_id", .str (lit "123")),
       (lit "web_url", .str (lit "http://x/123")),
       (lit "page_title", .str (lit "PRD — AR-42")),
       (lit "prd_markdown", .str (lit "OLD PRD"))] =
      [(lit "page_id", .str (lit "123")),
       (lit "web_url",
         jget [(lit "page_id", .str (lit "123")),
               (lit "web_url", .str (lit "http://x/123")),
               (lit "page_title", .str (lit "PRD — AR-42")),
               (lit "prd_markdown", .str (lit "OLD PRD"))]
           (lit "web_url") (.str [])),
       (lit "page_title",
         jget [(lit "page_id", .str (lit "123")),
               (lit "web_url", .str (lit "http://x/123")),
               (lit "page_title", .str (lit "PRD — AR-42")),
               (lit "prd_markdown", .str (lit "OLD PRD"))]
           (lit "page_title") (.str []))]) ∧
    aget (lit "prd_markdown")
      (reconstructPending (lit "pm2") (lit "AR-42") (lit "S")
        (storeDataForStage (lit "pm2")
          [(lit "page_id", .str (lit "123")),
           (lit "web_url", .str (lit "http://x/123")),
           (lit "page_title", .str (lit "PRD — AR-42")),
           (lit "prd_markdown", .str (lit "OLD PRD"))])
        7 { pages := [(lit "123", lit "NEW PRD")] })
      = some (.str (lit "NEW PRD")) :=
  pm2_park_projection_and_live_resume _ (lit "AR-42") (lit "S") 7
    { pages := [(lit "123", lit "NEW PRD")] } (lit "123") (lit "NEW PRD")
    (by decide) (by decide) (by decide)

end PMAgent

namespace PMAgent

/-! ### C1 — duplicate approve -/

/-- C1 counterexample: PM2's `approve_prd` reads its entry with `get`
and leaves it in `pending_prds` (the prototype-decision callback pops
it later), so after a successful approve a second call with the same
preview message id does *not* report "already processed" — it adds a
second `PRD approved` comment to the issue and re-sends the prompt. -/
theorem approve_prd_duplicate_not_noop :
    (approvePrd 5
      { issues := [(lit "AR-7", lit "S")],
        pendingPrds := [(5, ⟨lit "AR-7", lit "S", lit "123", lit "T",
          lit "u", lit "md", lit "kb", [], 9⟩)] }).1 = none ∧
    (approvePrd 5 (approvePrd 5
      { issues := [(lit "AR-7", lit "S")],
        pendingPrds := [(5, ⟨lit "AR-7", lit "S", lit "123", lit "T",
          lit "u", lit "md", lit "kb", [], 9⟩)] }).2).1 ≠
      some (lit "❌ This PRD has already been processed or expired.") ∧
    (commentsOf (lit "AR-7") (approvePrd 5 (approvePrd 5
      { issues := [(lit "AR-7", lit "S")],
        pendingPrds := [(5, ⟨lit "AR-7", lit "S", lit "123", lit "T",
          lit "u", lit "md", lit "kb", [], 9⟩)] }).2).2).length = 2 := by
  refine ⟨?_, ?_, ?_⟩ <;> decide

/-- `add_comment` never touches the in-memory pending dicts. -/
theorem addComment_preserves_pending (k md : Str) (b : Agent) :
    (addComment k md b).2.pendingIdeas = b.pendingIdeas ∧
    (addComment k md b).2.pendingProtos = b.pendingProtos ∧
    (addComment k md b).2.pendingEpics = b.pendingEpics := by
  unfold addComment
  split
  · exact ⟨rfl, rfl, rfl⟩
  · exact ⟨rfl, rfl, rfl⟩

/-- C1 (amended): for the stages whose approve handler pops the
PendingEntry before acting — PM1, PM3 and PM4 here (PM5 and PM6 follow
the identical pop-first pattern) — once `approve` has run for a present
entry, running it again with the same preview message id returns the
"already processed" status and changes nothing (no external writes). -/
theorem approve_pop_first_duplicate_noop :
    (∀ (a : Agent) (mid : Nat),
      (akeys a.pendingIdeas).Nodup →
      (aget mid a.pendingIdeas).isSome →
      (approveIdea mid (approveIdea mid a).2).1 = alreadyProcessedIdea ∧
      (approveIdea mid (approveIdea mid a).2).2 = (approveIdea mid a).2) ∧
    (∀ (a : Agent) (mid : Nat),
      (akeys a.pendingProtos).Nodup →
      (aget mid a.pendingProtos).isSome →
      (approvePrototype mid (approvePrototype mid a).2).1 =
        lit "❌ This prototype has already been processed or expired." ∧
      (approvePrototype mid (approvePrototype mid a).2).2 =
        (approvePrototype mid a).2) ∧
    (∀ (a : Agent) (mid : Nat),
      (akeys a.pendingEpics).Nodup →
      (aget mid a.pendingEpics).isSome →
      (approveEpic mid (approveEpic mid a).2).1 =
        lit "❌ This Epic has already been processed or expired." ∧
      (approveEpic mid (approveEpic mid a).2).2 = (approveEpic mid a).2) := by
  refine ⟨?_, ?_, ?_⟩
  · intro a mid hnod hsome
    obtain ⟨e, he⟩ := Option.isSome_iff_exists.mp hsome
    have hstep : (approveIdea mid a).2.pendingIdeas =
        aerase mid a.pendingIdeas := by
      simp only [approveIdea, he]
      exact (addComment_preserves_pending _ _ _).1
    have hnone : aget mid (approveIdea mid a).2.pendingIdeas = none := by
      rw [hstep]
      exact aget_aerase_self hnod
    rw [approveIdea, hnone]
    exact ⟨rfl, rfl⟩
  · intro a mid hnod hsome
    obtain ⟨e, he⟩ := Option.isSome_iff_exists.mp hsome
    have hstep : (approvePrototype mid a).2.pendingProtos =
        aerase mid a.pendingProtos := by
      simp only [approvePrototype, he]
      exact (addComment_preserves_pending _ _ _).2.1
    have hnone : aget mid (approvePrototype mid a).2.pendingProtos = none := by
      rw [hstep]
      exact aget_aerase_self hnod
    rw [approvePrototype, hnone]
    exact ⟨rfl, rfl⟩
  · intro a mid hnod hsome
    obtain ⟨e, he⟩ := Option.isSome_iff_exists.mp hsome
    have hstep : (approveEpic mid a).2.pendingEpics =
        aerase mid a.pendingEpics := by
      simp only [approveEpic, he]
      cases hc : a.epicCreated with
      | none => simp only [createEpic, hc]
      | some ek =>
          simp only [createEpic, hc]
          rw [(addComment_preserves_pending _ _ _).2.2,
            (addComment_preserves_pending _ _ _).2.2]
    have hnone : aget mid (approveEpic mid a).2.pendingEpics = none := by
      rw [hstep]
      exact aget_aerase_self hnod
    rw [approveEpic, hnone]
    exact ⟨rfl, rfl⟩

/-- C1 witness: concrete duplicate-approve no-ops for PM1, PM3 and
PM4. -/
theorem approve_pop_first_duplicate_noop_witness :
    ((approveIdea 3 (approveIdea 3
      { issues := [(lit "AR-1", lit "S")],
        pendingIdeas := [(3, ⟨lit "AR-1", lit "S", lit "D", lit "raw",
          lit "kb", 9⟩)] }).2).1 = alreadyProcessedIdea ∧
     (approveIdea 3 (approveIdea 3
      { issues := [(lit "AR-1", lit "S")],
        pendingIdeas := [(3, ⟨lit "AR-1", lit "S", lit "D", lit "raw",
          lit "kb", 9⟩)] }).2).2 = (approveIdea 3
      { issues := [(lit "AR-1", lit "S")],
        pendingIdeas := [(3, ⟨lit "AR-1", lit "S", lit "D", lit "raw",
          lit "kb", 9⟩)] }).2) ∧
    ((approvePrototype 4 (approvePrototype 4
      { issues := [(lit "AR-2", lit "S")],
        pendingProtos := [(4, ⟨lit "AR-2", lit "S", lit "url", lit "html",
          lit "prd", lit "123", lit "wurl", lit "ds", lit "db", 9⟩)] }).2).1 =
        lit "❌ This prototype has already been processed or expired." ∧
     (approvePrototype 4 (approvePrototype 4
      { issues := [(lit "AR-2", lit "S")],
        pendingProtos := [(4, ⟨lit "AR-2", lit "S", lit "url", lit "html",
          lit "prd", lit "123", lit "wurl", lit "ds", lit "db", 9⟩)] }).2).2 =
      (approvePrototype 4
      { issues := [(lit "AR-2", lit "S")],
        pendingProtos := [(4, ⟨lit "AR-2", lit "S", lit "url", lit "html",
          lit "prd", lit "123", lit "wurl", lit "ds", lit "db", 9⟩)] }).2) ∧
    ((approveEpic 6 (approveEpic 6
      { issues := [(lit "AR-3", lit "S")], epicCreated := some (lit "AX-1"),
        pendingEpics := [(6, ⟨lit "AR-3", lit "S", lit "ET", lit "ES",
          lit "123", lit "wurl", lit "prd", lit "purl", 9⟩)] }).2).1 =
        lit "❌ This Epic has already been processed or expired." ∧
     (approveEpic 6 (approveEpic 6
      { issues := [(lit "AR-3", lit "S")], epicCreated := some (lit "AX-1"),
        pendingEpics := [(6, ⟨lit "AR-3", lit "S", lit "ET", lit "ES",
          lit "123", lit "wurl", lit "prd", lit "purl", 9⟩)] }).2).2 =
      (approveEpic 6
      { issues := [(lit "AR-3", lit "S")], epicCreated := some (lit "AX-1"),
        pendingEpics := [(6, ⟨lit "AR-3", lit "S", lit "ET", lit "ES",
          lit "123", lit "wurl", lit "prd", lit "purl", 9⟩)] }).2) :=
  ⟨approve_pop_first_duplicate_noop.1 _ 3 (by decide) (by decide),
   approve_pop_first_duplicate_noop.2.1 _ 4 (by decide) (by decide),
   approve_pop_first_duplicate_noop.2.2 _ 6 (by decide) (by decide)⟩

end PMAgent
namespace PMAgent

/-! ### C7 — nothing is partially committed -/

/-- C7: the Jira-creation step of `process_idea` raises `TypeError` —
`pm1_idea_intake.py:43` passes `swimlane_id=STRATEGIC_INITIATIVES_ID`
to `jira_client.create_idea(structured_data)`, which has no such
parameter.  First conjunct (over every input state): `process_idea`
never installs a `pending_ideas` entry and never creates a Jira issue
— the install and the preview send are dead code.  Middle conjuncts: on
a concrete run where the KB fetch and the enrichment succeed, the
uncaught `TypeError` escapes right after the `📝 Creating idea in
Jira...` edit, with no user-visible `❌` message anywhere, against the
claim's "returning early with a user-visible error".  Last conjunct:
the `park_item` half of the claim does hold — a failed marker-comment
write returns `False` with the world untouched. -/
theorem process_idea_creation_typeerror :
    (∀ (raw : Str) (chat : Int) (a : Agent),
      (processIdea raw chat a).2.pendingIdeas = a.pendingIdeas ∧
      (processIdea raw chat a).2.issues = a.issues) ∧
    (processIdea (lit "idea") 1
      { kb := some (lit "KB"), enriched := some (lit "Sum", lit "Desc"),
        newIdeaKey := some (lit "AR-3"), previewOk := true }).1 =
      some createIdeaTypeError ∧
    (processIdea (lit "idea") 1
      { kb := some (lit "KB"), enriched := some (lit "Sum", lit "Desc"),
        newIdeaKey := some (lit "AR-3"), previewOk := true }).2.edits =
      [(1, 0, lit "🧠 Enriching your idea with AI..."),
       (1, 0, lit "📝 Creating idea in Jira...")] ∧
    (∀ m ∈ (processIdea (lit "idea") 1
      { kb := some (lit "KB"), enriched := some (lit "Sum", lit "Desc"),
        newIdeaKey := some (lit "AR-3"), previewOk := true }).2.sent,
      pyStarts m.2.2 (lit "❌") = false) ∧
    parkItem (lit "AR-3") (lit "pm2") (.obj [])
      { issues := [(lit "AR-3", lit "S")], addCommentOk := false } =
      (false, { issues := [(lit "AR-3", lit "S")], addCommentOk := false }) := by
  refine ⟨?_, by decide, by decide, by decide, by decide⟩
  intro raw chat a
  cases hkb : a.kb with
  | none =>
      simp only [processIdea, sendMessage, hkb, editMessageText]
      exact ⟨trivial, trivial⟩
  | some kbText =>
    cases henr : a.enriched with
    | none =>
        simp only [processIdea, sendMessage, hkb, henr, editMessageText]
        exact ⟨trivial, trivial⟩
    | some sd =>
        simp only [processIdea, sendMessage, hkb, henr, editMessageText]
        exact ⟨trivial, trivial⟩

end PMAgent
namespace PMAgent

/-! ### C2 / C3 — park comment format and retrieval -/

/-- `find` of a single character locates it right after a clean
prefix. -/
theorem findAux_single_after (c : Char) (y : Str) :
    ∀ (x : Str) (i : Nat), c ∉ x →
      findAux [c] (x ++ c :: y) i = some (i + x.length) := by
  intro x
  induction x with
  | nil =>
      intro i _
      simp only [List.nil_append, List.length_nil, Nat.add_zero]
      rw [findAux, if_pos (by simp [List.isPrefixOf])]
  | cons c0 x' ih =>
      intro i hc
      rw [List.mem_cons, not_or] at hc
      rw [List.cons_append, findAux,
        if_neg (by simp [List.isPrefixOf, beq_iff_eq]; exact fun h => (hc.1 h).elim),
        ih (i + 1) hc.2]
      simp only [List.length_cons]
      congr 1
      omega

/-- Python `t.split(":", 2)` on a well-formed marker comment. -/
theorem pySplit2_marker (M S P : Str) (hM : ':' ∉ M) (hS : ':' ∉ S) :
    pySplit2 ':' (M ++ ':' :: (S ++ ':' :: P)) = [M, S, P] := by
  have h1 : pyFind (M ++ ':' :: (S ++ ':' :: P)) [':'] 0 = some M.length := by
    rw [pyFind, List.drop_zero, findAux_single_after ':' _ M 0 hM]
    simp
  have h2 : pyFind (S ++ ':' :: P) [':'] 0 = some S.length := by
    rw [pyFind, List.drop_zero, findAux_single_after ':' _ S 0 hS]
    simp
  rw [pySplit2, h1]
  have hdrop : (M ++ ':' :: (S ++ ':' :: P)).drop (M.length + 1) =
      S ++ ':' :: P := by
    rw [List.drop_append_eq_append_drop]
    simp
  have hslice : slice (M ++ ':' :: (S ++ ':' :: P)) 0 M.length = M := by
    rw [slice, List.drop_zero, Nat.sub_zero, List.take_append_eq_append_take]
    simp
  have hslice2 : slice (S ++ ':' :: P) 0 S.length = S := by
    rw [slice, List.drop_zero, Nat.sub_zero, List.take_append_eq_append_take]
    simp
  have hdrop2 : (S ++ ':' :: P).drop (S.length + 1) = P := by
    rw [List.drop_append_eq_append_drop]
    simp
  simp only [hdrop, h2, hslice, hslice2, hdrop2]

/-- A marker comment parses back to its stage and payload. -/
theorem parseMarkerComment_marker (S P : Str) (hS : ':' ∉ S) :
    parseMarkerComment (PARK_MARKER ++ ':' :: (S ++ ':' :: P)) =
      (loads P).map (fun d => (S, d)) := by
  rw [parseMarkerComment, pySplit2_marker PARK_MARKER S P (by decide) hS]

/-- Comments without the marker prefix are skipped by the comment
loop. -/
theorem findMarker_append_skip (l1 l2 : List (Nat × Str))
    (h : ∀ c ∈ l1, pyStarts c.2 PARK_MARKER = false) :
    findMarker (l1 ++ l2) = findMarker l2 := by
  induction l1 with
  | nil => rfl
  | cons hd tl ih =>
      obtain ⟨cid, t⟩ := hd
      rw [List.cons_append, findMarker,
        if_neg (by rw [h (cid, t) (List.mem_cons_self _ _)]; simp)]
      exact ih fun c hc => h c (List.mem_cons_of_mem _ hc)

/-- The marker text starts with the marker. -/
theorem pyStarts_marker (r : Str) : pyStarts (PARK_MARKER ++ r) PARK_MARKER = true := by
  rw [pyStarts]
  exact List.isPrefixOf_iff_prefix.mpr (List.prefix_append _ _)

end PMAgent
namespace PMAgent

/-- `listParkedStep` only appends to the item list. -/
theorem listParkedStep_items_mono (a : Agent) (acc : List ParkedItem × List Str)
    (kv : Str × Str) {it : ParkedItem} (h : it ∈ acc.1) :
    it ∈ (listParkedStep a acc kv).1 := by
  rw [listParkedStep]
  cases getIssue kv.1 a with
  | none => exact h
  | some summary =>
      cases findMarker (commentsOf kv.1 a) with
      | none => exact h
      | some r => exact List.mem_append_left _ h

/-- Items survive the rest of the fold. -/
theorem foldl_items_mono (a : Agent) :
    ∀ (l : List (Str × Str)) (acc : List ParkedItem × List Str)
      {it : ParkedItem}, it ∈ acc.1 →
      it ∈ (l.foldl (listParkedStep a) acc).1 := by
  intro l
  induction l with
  | nil => intro acc it h; exact h
  | cons hd tl ih =>
      intro acc it h
      rw [List.foldl_cons]
      exact ih _ (listParkedStep_items_mono a _ hd h)

/-- Processing an index entry whose issue and marker comment resolve
adds the corresponding item. -/
theorem foldl_step_item_mem (a : Agent) {k st summ S : Str} {d : Json}
    {cid : Nat} (hissue : getIssue k a = some summ)
    (hfind : findMarker (commentsOf k a) = some (cid, S, d)) :
    ∀ (l : List (Str × Str)) (acc : List ParkedItem × List Str),
      (k, st) ∈ l →
      (⟨k, summ, S, d, cid⟩ : ParkedItem) ∈ (l.foldl (listParkedStep a) acc).1 := by
  intro l
  induction l with
  | nil => intro acc h; cases h
  | cons hd tl ih =>
      intro acc h
      rw [List.foldl_cons]
      rcases List.mem_cons.mp h with h | h
      · have hstep : (⟨k, summ, S, d, cid⟩ : ParkedItem) ∈
            (listParkedStep a acc hd).1 := by
          rw [← h, listParkedStep]
          simp only [hissue, hfind]
          exact List.mem_append_right _ (List.mem_singleton.mpr rfl)
        exact foldl_items_mono a tl _ hstep
      · exact ih _ h

/-- Every returned item's key comes from an index entry. -/
theorem foldl_step_items_from_index (a : Agent) :
    ∀ (l : List (Str × Str)) (acc : List ParkedItem × List Str)
      (it : ParkedItem), it ∈ (l.foldl (listParkedStep a) acc).1 →
      it ∈ acc.1 ∨ ∃ kv ∈ l, it.issue_key = kv.1 := by
  intro l
  induction l with
  | nil => intro acc it h; exact Or.inl h
  | cons hd tl ih =>
      intro acc it h
      rw [List.foldl_cons] at h
      rcases ih _ _ h with h1 | h1
      · rw [listParkedStep] at h1
        rcases hgi : getIssue hd.1 a with _ | summary
        · rw [hgi] at h1
          exact Or.inl h1
        · rw [hgi] at h1
          rcases hfm : findMarker (commentsOf hd.1 a) with _ | r
          · rw [hfm] at h1
            exact Or.inl h1
          · rw [hfm] at h1
            rcases List.mem_append.mp h1 with h2 | h2
            · exact Or.inl h2
            · refine Or.inr ⟨hd, List.mem_cons_self _ _, ?_⟩
              rw [List.mem_singleton.mp h2]
      · obtain ⟨kv, hkv, hkey⟩ := h1
        exact Or.inr ⟨kv, List.mem_cons_of_mem _ hkv, hkey⟩

/-- Every item `list_parked` returns carries a key present in the
index it read. -/
theorem listParked_items_from_index (a : Agent) (it : ParkedItem)
    (h : it ∈ (listParked a).1) : ∃ kv ∈ a.parked, it.issue_key = kv.1 := by
  rw [listParked] at h
  by_cases hne : a.parked = []
  · rw [if_pos hne] at h
    cases h
  · rw [if_neg hne] at h
    rcases hfold : a.parked.foldl (listParkedStep a) ([], []) with ⟨items, stale⟩
    rw [hfold] at h
    simp only at h
    have hmem : it ∈ items := by
      by_cases hs : stale ≠ []
      · rw [if_pos hs] at h
        exact h
      · rw [if_neg hs] at h
        exact h
    have := foldl_step_items_from_index a a.parked ([], []) it
      (by rw [hfold]; exact hmem)
    rcases this with h1 | h1
    · cases h1
    · exact h1

end PMAgent
namespace PMAgent

/-- A key in the key list has a binding. -/
theorem aget_isSome_of_mem_akeys {β : Type} {k : Str} {d : List (Str × β)}
    (h : k ∈ akeys d) : (aget k d).isSome := by
  induction d with
  | nil => simp [akeys] at h
  | cons hd tl ih =>
      obtain ⟨k0, v0⟩ := hd
      by_cases h0 : k0 = k
      · rw [aget, if_pos h0]
        rfl
      · rw [aget, if_neg h0]
        rw [akeys_cons, List.mem_cons] at h
        exact ih (h.resolve_left fun hh => h0 hh.symm)

/-- A successful `park_item`: the marker comment is appended and the
key upserted into the index. -/
theorem parkItem_success (a : Agent) (k S : Str) (d : Json) (summ : Str)
    (hs : getIssue k a = some summ) (hok : a.addCommentOk = true) :
    parkItem k S d a = (true,
      { a with
        comments := aset k (commentsOf k a ++ [(a.nextCid,
          commentObserved (PARK_MARKER ++ ':' :: (S ++ ':' :: dumps d)))])
          a.comments
        nextCid := a.nextCid + 1
        parked := aset k S a.parked }) := by
  rw [parkItem, addComment, if_pos ⟨hok, by
    rw [show aget k a.issues = some summ from hs]; rfl⟩]
  rfl

/-- The comment loop on a clean history followed by one well-formed
marker comment finds that comment. -/
theorem findMarker_clean_append (old : List (Nat × Str)) (cid : Nat)
    (S P : Str) (d : Json)
    (hprior : ∀ c ∈ old, pyStarts c.2 PARK_MARKER = false)
    (hS : ':' ∉ S) (hload : loads P = some d) :
    findMarker (old ++ [(cid, PARK_MARKER ++ ':' :: (S ++ ':' :: P))]) =
      some (cid, S, d) := by
  rw [findMarker_append_skip old _ hprior, findMarker,
    if_pos (pyStarts_marker _), parseMarkerComment_marker S P hS, hload]
  rfl

/-- The comments of `k` after parking onto `k`. -/
theorem commentsOf_after_park (a : Agent) (k : Str) (x : List (Nat × Str))
    (n : Nat) (p : List (Str × Str)) :
    commentsOf k
      { a with comments := aset k x a.comments, nextCid := n, parked := p }
      = x := by
  show (aget k (aset k x a.comments)).getD [] = x
  rw [aget_aset_self]
  rfl

/-- `unpark_item` when the comment loop finds a marker comment and the
key is indexed: delete that comment, drop the key from the index,
return the payload. -/
theorem unparkItem_found (k : Str) (b : Agent) (cid : Nat) (S : Str)
    (d : Json) (hfind : findMarker (commentsOf k b) = some (cid, S, d))
    (hpk : (aget k b.parked).isSome) :
    unparkItem k b = (some (S, d),
      { deleteComment k cid b with parked := aerase k b.parked }) := by
  rw [unparkItem, hfind]
  rw [if_pos (by exact hpk)]
  rfl

end PMAgent
namespace PMAgent

/-- C2 (amended): after a successful `park_item(key, S, data)` — onto
an issue with no other marker comment, a colon-free stage tag, and a
payload the Jira-comment markdown round-trip preserves (payloads with
inline-markdown tokens such as `**` are mangled, see the
counterexample) — `unpark_item(key)` returns `{stage := S, data}` with
`data` exactly as parked (the compact JSON may contain colons: the
split is limited to the first two), and a subsequent `list_parked()`
no longer includes the key. -/
theorem park_unpark_roundtrip (a : Agent) (k S summ : Str) (d : Json)
    (hs : getIssue k a = some summ)
    (hok : a.addCommentOk = true)
    (hS : ':' ∉ S)
    (hprior : ∀ c ∈ commentsOf k a, pyStarts c.2 PARK_MARKER = false)
    (hobs : commentObserved (PARK_MARKER ++ ':' :: (S ++ ':' :: dumps d)) =
      PARK_MARKER ++ ':' :: (S ++ ':' :: dumps d))
    (hload : loads (dumps d) = some d)
    (hnd : (akeys a.parked).Nodup) :
    (parkItem k S d a).1 = true ∧
    (unparkItem k (parkItem k S d a).2).1 = some (S, d) ∧
    ∀ it ∈ (listParked (unparkItem k (parkItem k S d a).2).2).1,
      it.issue_key ≠ k := by
  have hpark := parkItem_success a k S d summ hs hok
  rw [hobs] at hpark
  have hfind : findMarker (commentsOf k
      { a with
        comments := aset k (commentsOf k a ++ [(a.nextCid,
          PARK_MARKER ++ ':' :: (S ++ ':' :: dumps d))]) a.comments
        nextCid := a.nextCid + 1
        parked := aset k S a.parked }) = some (a.nextCid, S, d) := by
    rw [commentsOf_after_park]
    exact findMarker_clean_append _ _ _ _ _ hprior hS hload
  have hpk : (aget k (aset k S a.parked)).isSome := by
    rw [aget_aset_self]
    rfl
  have hun := unparkItem_found k _ a.nextCid S d hfind hpk
  simp only [hpark, hun]
  refine ⟨trivial, trivial, ?_⟩
  intro it hit hkey
  obtain ⟨kv, hkv, hkey'⟩ := listParked_items_from_index _ it hit
  have hk2 : kv.1 = k := by rw [← hkey', hkey]
  have h2 := aget_isSome_of_mem_akeys
    (List.mem_map_of_mem Prod.fst hkv)
  rw [hk2] at h2
  have h3 : (aget k (aerase k (aset k S a.parked))).isSome := h2
  rw [aget_aerase_self (akeys_aset_nodup S hnd)] at h3
  cases h3

end PMAgent

namespace PMAgent

/-- C2 witness: a payload whose compact JSON contains colons
(`{"x":"a:b","n":3}`) survives park → unpark exactly, and the key is
gone from a subsequent listing. -/
theorem park_unpark_roundtrip_witness :
    (parkItem (lit "AR-7") (lit "pm2")
      (.obj [(lit "x", .str (lit "a:b")), (lit "n", .num 3)])
      { issues := [(lit "AR-7", lit "S")] }).1 = true ∧
    (unparkItem (lit "AR-7") (parkItem (lit "AR-7") (lit "pm2")
      (.obj [(lit "x", .str (lit "a:b")), (lit "n", .num 3)])
      { issues := [(lit "AR-7", lit "S")] }).2).1 =
      some (lit "pm2", .obj [(lit "x", .str (lit "a:b")), (lit "n", .num 3)]) ∧
    ∀ it ∈ (listParked (unparkItem (lit "AR-7") (parkItem (lit "AR-7")
      (lit "pm2") (.obj [(lit "x", .str (lit "a:b")), (lit "n", .num 3)])
      { issues := [(lit "AR-7", lit "S")] }).2).2).1,
      it.issue_key ≠ lit "AR-7" :=
  park_unpark_roundtrip { issues := [(lit "AR-7", lit "S")] }
    (lit "AR-7") (lit "pm2") (lit "S")
    (.obj [(lit "x", .str (lit "a:b")), (lit "n", .num 3)])
    (by decide) rfl (by decide) (by decide) (by decide) (by decide) (by decide)

/-- C2 counterexample: the claim fails for the JSON-serializable dict
`{"a": "**b**"}` — `add_comment` stores the marker comment through
`markdown_to_adf`, whose inline parser treats the `**` in the payload
as bold markup and corrupts the stored text, so `unpark_item` cannot
parse it back and returns `None` instead of the parked data. -/
theorem park_unpark_mangled_payload :
    (parkItem (lit "AR-7") (lit "pm2") (.obj [(lit "a", .str (lit "**b**"))])
      { issues := [(lit "AR-7", lit "S")] }).1 = true ∧
    (unparkItem (lit "AR-7") (parkItem (lit "AR-7") (lit "pm2")
      (.obj [(lit "a", .str (lit "**b**"))])
      { issues := [(lit "AR-7", lit "S")] }).2).1 = none := by
  refine ⟨?_, ?_⟩ <;> decide

/-- `aset` never returns an empty dict. -/
theorem aset_ne_nil {β : Type} (k : Str) (v : β) (d : List (Str × β)) :
    aset k v d ≠ [] := by
  cases d with
  | nil => simp [aset]
  | cons hd tl =>
      obtain ⟨k0, v0⟩ := hd
      by_cases h0 : k0 = k <;> simp [aset, h0]

/-- C3 (amended): a successful `park_item(key, S, data)` — same
provisos as the unpark round-trip: no other marker comment on the
issue, colon-free stage tag, payload preserved by the comment markdown
round-trip — is immediately visible: `list_parked()` returns an entry
with this key, stage, summary and data. -/
theorem park_then_list_contains (a : Agent) (k S summ : Str) (d : Json)
    (hs : getIssue k a = some summ)
    (hok : a.addCommentOk = true)
    (hS : ':' ∉ S)
    (hprior : ∀ c ∈ commentsOf k a, pyStarts c.2 PARK_MARKER = false)
    (hobs : commentObserved (PARK_MARKER ++ ':' :: (S ++ ':' :: dumps d)) =
      PARK_MARKER ++ ':' :: (S ++ ':' :: dumps d))
    (hload : loads (dumps d) = some d)
    (hnd : (akeys a.parked).Nodup) :
    (parkItem k S d a).1 = true ∧
    (⟨k, summ, S, d, a.nextCid⟩ : ParkedItem) ∈
      (listParked (parkItem k S d a).2).1 := by
  have hpark := parkItem_success a k S d summ hs hok
  rw [hobs] at hpark
  simp only [hpark]
  refine ⟨trivial, ?_⟩
  have hfind : findMarker (commentsOf k
      { a with
        comments := aset k (commentsOf k a ++ [(a.nextCid,
          PARK_MARKER ++ ':' :: (S ++ ':' :: dumps d))]) a.comments
        nextCid := a.nextCid + 1
        parked := aset k S a.parked }) = some (a.nextCid, S, d) := by
    rw [commentsOf_after_park]
    exact findMarker_clean_append _ _ _ _ _ hprior hS hload
  have hissue : getIssue k
      { a with
        comments := aset k (commentsOf k a ++ [(a.nextCid,
          PARK_MARKER ++ ':' :: (S ++ ':' :: dumps d))]) a.comments
        nextCid := a.nextCid + 1
        parked := aset k S a.parked } = some summ := hs
  have hne : (aset k S a.parked) ≠ [] := aset_ne_nil k S a.parked
  rw [listParked, if_neg (by exact hne)]
  rcases hfold : (aset k S a.parked).foldl (listParkedStep
    { a with
      comments := aset k (commentsOf k a ++ [(a.nextCid,
        PARK_MARKER ++ ':' :: (S ++ ':' :: dumps d))]) a.comments
      nextCid := a.nextCid + 1
      parked := aset k S a.parked }) ([], []) with ⟨items, stale⟩
  have hin : (⟨k, summ, S, d, a.nextCid⟩ : ParkedItem) ∈ items := by
    have := foldl_step_item_mem _ hissue hfind (aset k S a.parked) ([], [])
      (mem_aset_self S hnd)
    rw [hfold] at this
    exact this
  simp only
  by_cases hs2 : stale ≠ []
  · rw [if_pos hs2]
    exact hin
  · rw [if_neg hs2]
    exact hin

/-- C3 witness: a concrete successful park is immediately listed with
its key, stage, summary and data. -/
theorem park_then_list_contains_witness :
    (parkItem (lit "AR-8") (lit "pm4")
      (.obj [(lit "epic_title", .str (lit "T"))])
      { issues := [(lit "AR-8", lit "Sum")] }).1 = true ∧
    (⟨lit "AR-8", lit "Sum", lit "pm4",
      .obj [(lit "epic_title", .str (lit "T"))],
      ({ issues := [(lit "AR-8", lit "Sum")] } : Agent).nextCid⟩ : ParkedItem) ∈
      (listParked (parkItem (lit "AR-8") (lit "pm4")
        (.obj [(lit "epic_title", .str (lit "T"))])
        { issues := [(lit "AR-8", lit "Sum")] }).2).1 :=
  park_then_list_contains { issues := [(lit "AR-8", lit "Sum")] }
    (lit "AR-8") (lit "pm4") (lit "Sum")
    (.obj [(lit "epic_title", .str (lit "T"))])
    (by decide) rfl (by decide) (by decide) (by decide) (by decide) (by decide)

/-- C3 counterexample: for the dict `{"a": "**x**"}` the park succeeds
but the stored marker comment is corrupted by the markdown round-trip,
so the immediately following `list_parked()` returns no entry at all
for the key (it goes down the stale path instead). -/
theorem park_then_list_missing_on_mangled :
    (parkItem (lit "AR-8") (lit "pm2") (.obj [(lit "a", .str (lit "**x**"))])
      { issues := [(lit "AR-8", lit "S")] }).1 = true ∧
    (listParked (parkItem (lit "AR-8") (lit "pm2")
      (.obj [(lit "a", .str (lit "**x**"))])
      { issues := [(lit "AR-8", lit "S")] }).2).1 = [] := by
  refine ⟨?_, ?_⟩ <;> decide

end PMAgent
namespace PMAgent

/-! ### C9 — markdown → wiki → structured-document round trip

The claimed round trip feeds `markdown_to_wiki` output back through the
structured-document converter (`markdown_to_adf`).  Wiki headings
(`h2. …`) are not markdown headings and wiki ordered items (`# …`) are
markdown `h1` headings, so heading levels and ordered lists do not
survive; bullet items and bold marks do.  The amended theorem proves
exact ADF-tree preservation on a fragment of documents made of
paragraphs and bullet lists over alphanumeric words with at most one
bold span per line. -/

/-- The heading levels of an ADF document, in order. -/
def headingLevels (bs : List Block) : List Nat :=
  bs.filterMap fun b =>
    match b with
    | .heading n _ => some n
    | _ => none

/-- C9 counterexample: for the markdown `"## Title\n1. one"` the round
trip `markdown_to_adf ∘ markdown_to_wiki` does not preserve heading
levels — the `h2` heading becomes a plain paragraph (`"h2. Title"`)
while the ordered item (wiki `"# one"`) becomes a *level-1 heading*. -/
theorem roundtrip_heading_loss :
    headingLevels (markdownToAdf (markdownToWiki (lit "## Title\n1. one"))) ≠
      headingLevels (markdownToAdf (lit "## Title\n1. one")) ∧
    markdownToAdf (markdownToWiki (lit "## Title\n1. one")) =
      [.paragraph [.text (lit "h2. Title")], .heading 1 [.text (lit "one")]] ∧
    markdownToAdf (lit "## Title\n1. one") =
      [.heading 2 [.text (lit "Title")], .orderedList [[.text (lit "one")]]] := by
  refine ⟨?_, ?_, ?_⟩ <;> decide

/-- An inline token of the round-trip fragment: an alphanumeric word,
or a bold span over such a word. -/
inductive Tok where
  | word (s : Str) : Tok
  | bold (s : Str) : Tok
deriving DecidableEq

/-- A nonempty, purely alphanumeric string. -/
def safeWord (s : Str) : Bool := s ≠ [] && s.all (·.isAlphanum)

/-- Safety of a token. -/
def tokOK : Tok → Bool
  | .word s => safeWord s
  | .bold s => safeWord s

/-- Is the token a bold span? -/
def isBoldTok : Tok → Bool
  | .word _ => false
  | .bold _ => true

/-- Markdown rendering of a token. -/
def renderTokMd : Tok → Str
  | .word s => s
  | .bold s => '*' :: '*' :: (s ++ ['*', '*'])

/-- Wiki rendering of a token. -/
def renderTokWiki : Tok → Str
  | .word s => s
  | .bold s => '*' :: (s ++ ['*'])

/-- A line's inline content, markdown side: tokens joined by single
spaces. -/
def renderInlineMd (ts : List Tok) : Str :=
  joinWith [' '] (ts.map renderTokMd)

/-- A line's inline content, wiki side. -/
def renderInlineWiki (ts : List Tok) : Str :=
  joinWith [' '] (ts.map renderTokWiki)

/-- Inline content well-formedness: nonempty, safe tokens, at most one
bold span. -/
def inlineOK (ts : List Tok) : Bool :=
  ts ≠ [] && ts.all tokOK && ts.countP isBoldTok ≤ 1

/-- A block of the fragment. -/
inductive Blk where
  | para (ts : List Tok) : Blk
  | bullet (items : List (List Tok)) : Blk
deriving DecidableEq

/-- Block well-formedness. -/
def blkOK : Blk → Bool
  | .para ts => inlineOK ts
  | .bullet items => items ≠ [] && items.all inlineOK

/-- The markdown lines of a block. -/
def renderBlkMd : Blk → List Str
  | .para ts => [renderInlineMd ts]
  | .bullet items => items.map fun ts => '-' :: ' ' :: renderInlineMd ts

/-- The wiki-markup lines `markdown_to_wiki` produces for a block. -/
def renderBlkWiki : Blk → List Str
  | .para ts => [renderInlineWiki ts]
  | .bullet items => items.map fun ts => '*' :: ' ' :: renderInlineWiki ts

/-- The markdown source of a fragment document. -/
def renderDocMd (d : List Blk) : Str :=
  joinWith ['\n'] (d.map renderBlkMd).flatten

/-- Document well-formedness. -/
def docOK (d : List Blk) : Bool := d ≠ [] && d.all blkOK

end PMAgent
namespace PMAgent

/-- Elements located by `get?` are members. -/
theorem mem_of_get?_eq_some {t : Str} {p : Nat} {c : Char}
    (h : t.get? p = some c) : c ∈ t := by
  induction t generalizing p with
  | nil => cases h
  | cons hd tl ih =>
      cases p with
      | zero =>
          cases h
          exact List.mem_cons_self _ _
      | succ p' => exact List.mem_cons_of_mem _ (ih h)

/-- `startswith` fails when the very first characters differ. -/
theorem pyStarts_false_head {t p : Str} {c c' : Char}
    (ht : t.head? = some c) (hp : p.head? = some c') (hne : c' ≠ c) :
    pyStarts t p = false := by
  cases t with
  | nil => cases ht
  | cons c0 t' =>
      cases p with
      | nil => cases hp
      | cons c1 p' =>
          cases ht
          cases hp
          simp [pyStarts, List.isPrefixOf, hne]

/-- `startswith` fails when the second characters differ. -/
theorem pyStarts_false_second {t' p' : Str} {c c2 c2' : Char}
    (h2 : t'.head? = some c2) (hp2 : p'.head? = some c2') (hne : c2' ≠ c2) :
    pyStarts (c :: t') (c :: p') = false := by
  cases t' with
  | nil => cases h2
  | cons d t'' =>
      cases p' with
      | nil => cases hp2
      | cons d' p'' =>
          cases h2
          cases hp2
          simp [pyStarts, List.isPrefixOf, hne]

/-- `findAux` skips a region free of the pattern's head character. -/
theorem findAux_shift {c : Char} (p : Str) {x : Str} (y : Str)
    (hc : c ∉ x) :
    ∀ i, findAux (c :: p) (x ++ y) i = findAux (c :: p) y (i + x.length) := by
  induction x with
  | nil => intro i; simp
  | cons c0 x' ih =>
      intro i
      rw [List.mem_cons, not_or] at hc
      rw [List.cons_append, findAux,
        if_neg (by simp [List.isPrefixOf, beq_iff_eq]; exact fun h => (hc.1 h).elim),
        ih hc.2 (i + 1)]
      congr 1
      simp [List.length_cons]
      omega

/-- `findAux` stops at an immediate match. -/
theorem findAux_self {pat y : Str} (h : pat.isPrefixOf y = true) (i : Nat) :
    findAux pat y i = some i := by
  cases y with
  | nil =>
      cases pat with
      | nil => simp [findAux]
      | cons c p => simp [List.isPrefixOf] at h
  | cons c0 y' => rw [findAux, if_pos h]

/-- `findAux` finds nothing when no suffix matches. -/
theorem findAux_eq_none {pat y : Str}
    (h : ∀ j, pat.isPrefixOf (y.drop j) = false) :
    ∀ i, findAux pat y i = none := by
  induction y with
  | nil =>
      intro i
      have h0 := h 0
      rw [List.drop_nil] at h0
      cases pat with
      | nil => simp [List.isPrefixOf] at h0
      | cons c p => simp [findAux]
  | cons c0 y' ih =>
      intro i
      rw [findAux, if_neg (by rw [show (c0 :: y') = (c0 :: y').drop 0 from rfl, h 0]; simp)]
      exact ih (fun j => h (j + 1)) (i + 1)

/-- A pattern is a prefix of itself followed by anything. -/
theorem isPrefixOf_append_self (pat rest : Str) :
    pat.isPrefixOf (pat ++ rest) = true :=
  List.isPrefixOf_iff_prefix.mpr (List.prefix_append _ _)

/-- A single-character pattern never matches in a string avoiding the
character. -/
theorem pyFind_single_none {c : Char} {t : Str} (p : Str) (hc : c ∉ t) :
    pyFind t (c :: p) 0 = none := by
  have hj : ∀ j, (c :: p).isPrefixOf (t.drop j) = false := by
    intro j
    cases hdrop : t.drop j with
    | nil => simp [List.isPrefixOf]
    | cons d rest =>
        have hd : d ∈ t := by
          have hmem : d ∈ t.drop j := by
            rw [hdrop]
            exact List.mem_cons_self _ _
          exact List.mem_of_mem_drop hmem
        by_cases hdc : c = d
        · exact absurd (hdc ▸ hd) hc
        · simp [List.isPrefixOf, beq_iff_eq, hdc]
  rw [pyFind, List.drop_zero, findAux_eq_none hj 0]
  rfl

end PMAgent
namespace PMAgent

/-- The head located by `head?` is a member. -/
theorem mem_of_head?_eq_some {t : Str} {c : Char} (h : t.head? = some c) :
    c ∈ t := by
  cases t with
  | nil => cases h
  | cons c0 t' => cases h; exact List.mem_cons_self _ _

/-- The element located by `getLast?` is a member. -/
theorem mem_of_getLast?_eq_some {t : Str} {c : Char}
    (h : t.getLast? = some c) : c ∈ t := by
  rw [← List.head?_reverse] at h
  exact List.mem_reverse.mp (mem_of_head?_eq_some h)

/-- An alphanumeric character is none of the markup-significant
characters. -/
theorem alnum_ne {c : Char} (h : c.isAlphanum = true) :
    c ≠ '*' ∧ c ≠ '\n' ∧ c ≠ '#' ∧ c ≠ '-' ∧ c ≠ '|' ∧ c ≠ btick ∧
    c ≠ '[' ∧ c ≠ '.' ∧ c ≠ ' ' := by
  refine ⟨?_, ?_, ?_, ?_, ?_, ?_, ?_, ?_, ?_⟩ <;>
    (intro hh; rw [hh] at h; exact absurd h (by decide))

/-- Alphanumeric characters are not Python whitespace. -/
theorem isPySpace_false_of_alnum {c : Char} (h : c.isAlphanum = true) :
    isPySpace c = false := by
  by_contra hc
  rw [Bool.not_eq_false, isPySpace] at hc
  rcases of_decide_eq_true hc with h1 | h1 | h1 | h1 | h1 | h1 <;>
    (rw [h1] at h; exact absurd h (by decide))

/-- `dropWhile` is the identity when the head fails the predicate. -/
theorem dropWhile_eq_self_of_head {p : Char → Bool} {t : Str} {c : Char}
    (hh : t.head? = some c) (hp : p c = false) : t.dropWhile p = t := by
  cases t with
  | nil => cases hh
  | cons c0 t' =>
      cases hh
      simp [List.dropWhile_cons, hp]

/-- `strip` is the identity on strings with non-space end characters. -/
theorem pyStrip_eq_self {t : Str} {c1 c2 : Char}
    (hh : t.head? = some c1) (h1 : isPySpace c1 = false)
    (hl : t.getLast? = some c2) (h2 : isPySpace c2 = false) :
    pyStrip t = t := by
  rw [pyStrip, dropWhile_eq_self_of_head hh h1,
    dropWhile_eq_self_of_head (by rw [List.head?_reverse]; exact hl) h2,
    List.reverse_reverse]

/-- Joined safe words: nonempty, alphanumeric-or-space characters,
alphanumeric first and last characters. -/
theorem joinWith_space_facts :
    ∀ (ws : List Str), ws ≠ [] → (∀ w ∈ ws, safeWord w = true) →
      joinWith [' '] ws ≠ [] ∧
      (∀ c ∈ joinWith [' '] ws, c.isAlphanum = true ∨ c = ' ') ∧
      (∃ c, (joinWith [' '] ws).head? = some c ∧ c.isAlphanum = true) ∧
      (∃ c, (joinWith [' '] ws).getLast? = some c ∧ c.isAlphanum = true) := by
  intro ws
  induction ws with
  | nil => intro h; cases h rfl
  | cons w rest ih =>
      intro _ hsafe
      have hw : safeWord w = true := hsafe w (List.mem_cons_self _ _)
      rw [safeWord, Bool.and_eq_true, decide_eq_true_iff, List.all_eq_true] at hw
      obtain ⟨hwne, hwal'⟩ := hw
      cases rest with
      | nil =>
          refine ⟨hwne, fun c hc => Or.inl (hwal' c hc), ?_, ?_⟩
          · cases w with
            | nil => cases hwne rfl
            | cons c0 w' =>
                exact ⟨c0, rfl, hwal' c0 (List.mem_cons_self _ _)⟩
          · obtain ⟨c2, hc2⟩ :=
              Option.isSome_iff_exists.mp (List.getLast?_isSome.mpr hwne)
            exact ⟨c2, hc2, hwal' c2 (mem_of_getLast?_eq_some hc2)⟩
      | cons w2 rest' =>
          obtain ⟨jne, jmem, ⟨ch, hch, hcha⟩, ⟨cl, hcl, hcla⟩⟩ :=
            ih (by simp) (fun x hx => hsafe x (List.mem_cons_of_mem _ hx))
          have hshape : joinWith [' '] (w :: w2 :: rest') =
              w ++ [' '] ++ joinWith [' '] (w2 :: rest') := rfl
          refine ⟨by simp [hshape, hwne], ?_, ?_, ?_⟩
          · intro c hc
            rw [hshape] at hc
            rcases List.mem_append.mp hc with hc1 | hc1
            · rcases List.mem_append.mp hc1 with hc2 | hc2
              · exact Or.inl (hwal' c hc2)
              · exact Or.inr (List.mem_singleton.mp hc2)
            · exact jmem c hc1
          · refine ⟨?_, ?_, ?_⟩
            · exact (w.head?).getD ' '
            all_goals cases w with
              | nil => exact absurd rfl hwne
              | cons c0 w' => first
                  | exact rfl
                  | exact hwal' _ (List.mem_cons_self _ _)
          · refine ⟨cl, ?_, hcla⟩
            rw [hshape, List.getLast?_append_of_ne_nil _ jne]
            exact hcl

end PMAgent
namespace PMAgent

/-- `find` from 0 is `findAux` from 0. -/
theorem pyFind_zero (t pat : Str) : pyFind t pat 0 = findAux pat t 0 := by
  rw [pyFind, List.drop_zero]
  cases findAux pat t 0 <;> simp

/-- `findAux` steps past a non-match. -/
theorem findAux_step_fail {pat : Str} {c : Char} {rest : Str} (i : Nat)
    (h : pat.isPrefixOf (c :: rest) = false) :
    findAux pat (c :: rest) i = findAux pat rest (i + 1) := by
  rw [findAux, if_neg (by simp [h])]

/-- A prefix check fails when the second characters differ. -/
theorem isPrefixOf_cons₂_false {c d d' : Char} {p y : Str} (hne : d ≠ d') :
    (c :: d :: p).isPrefixOf (c :: d' :: y) = false := by
  simp [List.isPrefixOf, beq_iff_eq, hne]

/-- A two-character-headed prefix pins the first two characters. -/
theorem get?_of_isPrefixOf₂ {a b : Char} {p ys : Str}
    (h : (a :: b :: p).isPrefixOf ys = true) :
    ys.get? 0 = some a ∧ ys.get? 1 = some b := by
  cases ys with
  | nil => simp [List.isPrefixOf] at h
  | cons y0 ys' =>
      cases ys' with
      | nil => simp [List.isPrefixOf] at h
      | cons y1 ys'' =>
          simp only [List.isPrefixOf, Bool.and_eq_true, beq_iff_eq] at h
          obtain ⟨h1, h2, _⟩ := h
          subst h1
          subst h2
          exact ⟨rfl, rfl⟩

/-- In `x ++ '*' :: (m ++ '*' :: z)` with star-free `x`, `m`, `z`, the
stars sit exactly at positions `|x|` and `|x| + |m| + 1`. -/
theorem star_positions {x m z : Str} (hx : '*' ∉ x) (hm : '*' ∉ m)
    (hz : '*' ∉ z) {j : Nat}
    (h : (x ++ '*' :: (m ++ '*' :: z)).get? j = some '*') :
    j = x.length ∨ j = x.length + m.length + 1 := by
  by_cases h1 : j < x.length
  · rw [List.get?_append h1] at h
    exact absurd (mem_of_get?_eq_some h) hx
  · push_neg at h1
    rw [List.get?_append_right h1] at h
    cases hop : j - x.length with
    | zero => left; omega
    | succ k =>
        rw [hop, List.get?_cons_succ] at h
        by_cases h3 : k < m.length
        · rw [List.get?_append h3] at h
          exact absurd (mem_of_get?_eq_some h) hm
        · push_neg at h3
          rw [List.get?_append_right h3] at h
          cases hop2 : k - m.length with
          | zero => right; omega
          | succ k2 =>
              rw [hop2, List.get?_cons_succ] at h
              exact absurd (mem_of_get?_eq_some h) hz

/-- With a nonempty star-free middle, no two stars are adjacent. -/
theorem no_double_star {x m z : Str} (hx : '*' ∉ x) (hm : '*' ∉ m)
    (hz : '*' ∉ z) (hmne : m ≠ []) (j : Nat) :
    ¬ ((x ++ '*' :: (m ++ '*' :: z)).get? j = some '*' ∧
       (x ++ '*' :: (m ++ '*' :: z)).get? (j + 1) = some '*') := by
  rintro ⟨ha, hb⟩
  have hml : 0 < m.length := List.length_pos.mpr hmne
  rcases star_positions hx hm hz ha with h1 | h1 <;>
    rcases star_positions hx hm hz hb with h2 | h2 <;> omega

/-- A double-star pattern never occurs in a string with no adjacent
stars. -/
theorem findAux_double_none {x m z : Str} (hx : '*' ∉ x) (hm : '*' ∉ m)
    (hz : '*' ∉ z) (hmne : m ≠ []) (p : Str) (i : Nat) :
    findAux ('*' :: '*' :: p) (x ++ '*' :: (m ++ '*' :: z)) i = none := by
  refine findAux_eq_none (fun j => ?_) i
  by_contra hcon
  rw [Bool.not_eq_false] at hcon
  obtain ⟨h0, h1⟩ := get?_of_isPrefixOf₂ hcon
  rw [List.get?_drop, Nat.add_zero] at h0
  rw [List.get?_drop] at h1
  exact no_double_star hx hm hz hmne j ⟨h0, h1⟩

/-- First occurrence of a pattern right after a region free of its head
character. -/
theorem pyFind_head_at {c : Char} {p x y : Str} (hx : c ∉ x)
    (hy : (c :: p).isPrefixOf y = true) :
    pyFind (x ++ y) (c :: p) 0 = some x.length := by
  rw [pyFind_zero, findAux_shift p y hx 0, findAux_self hy, Nat.zero_add]

/-- Locating the markdown bold source `**b**` in the markdown line. -/
theorem pyFind_md_double {P b S : Str} (hP : '*' ∉ P) :
    pyFind (P ++ '*' :: '*' :: (b ++ '*' :: '*' :: S))
      (lit "**" ++ b ++ lit "**") 0 = some P.length := by
  refine pyFind_head_at hP ?_
  have h2 := isPrefixOf_append_self ('*' :: '*' :: (b ++ lit "**")) S
  rw [show ('*' :: '*' :: (b ++ lit "**")) ++ S =
    '*' :: '*' :: (b ++ '*' :: '*' :: S) by simp [lit]] at h2
  exact h2

/-- Locating the single-star source `*b*` in the markdown line: one
position past the opening double star. -/
theorem pyFind_md_single {P b S : Str} (hP : '*' ∉ P) (hb : '*' ∉ b)
    (hbne : b ≠ []) :
    pyFind (P ++ '*' :: '*' :: (b ++ '*' :: '*' :: S))
      ('*' :: (b ++ ['*'])) 0 = some (P.length + 1) := by
  rw [pyFind_zero, findAux_shift _ _ hP 0, Nat.zero_add]
  cases b with
  | nil => cases hbne rfl
  | cons b0 b' =>
      have hb0 : b0 ≠ '*' := fun h => hb (h ▸ List.mem_cons_self _ _)
      show findAux ('*' :: b0 :: (b' ++ ['*']))
        ('*' :: '*' :: (b0 :: b' ++ '*' :: '*' :: S)) P.length =
        some (P.length + 1)
      rw [findAux_step_fail _ (isPrefixOf_cons₂_false hb0)]
      have hpre : ('*' :: b0 :: (b' ++ ['*'])).isPrefixOf
          ('*' :: (b0 :: b' ++ '*' :: '*' :: S)) = true := by
        have h2 := isPrefixOf_append_self ('*' :: b0 :: (b' ++ ['*'])) ('*' :: S)
        rw [show ('*' :: b0 :: (b' ++ ['*'])) ++ '*' :: S =
          '*' :: (b0 :: b' ++ '*' :: '*' :: S) by simp] at h2
        exact h2
      rw [findAux_self hpre]

/-- Locating the wiki bold span `*b*` in the wiki line. -/
theorem pyFind_wiki_single {P b S : Str} (hP : '*' ∉ P) :
    pyFind (P ++ '*' :: (b ++ '*' :: S)) ('*' :: (b ++ ['*'])) 0 =
      some P.length := by
  refine pyFind_head_at hP ?_
  have h2 := isPrefixOf_append_self ('*' :: (b ++ ['*'])) S
  rw [show ('*' :: (b ++ ['*'])) ++ S = '*' :: (b ++ '*' :: S) by simp] at h2
  exact h2

/-- The markdown source `**b**` does not occur in the wiki line. -/
theorem pyFind_wiki_double {P b S : Str} (hP : '*' ∉ P) (hb : '*' ∉ b)
    (hS : '*' ∉ S) (hbne : b ≠ []) :
    pyFind (P ++ '*' :: (b ++ '*' :: S)) (lit "**" ++ b ++ lit "**") 0 =
      none := by
  rw [pyFind_zero,
    show (lit "**" ++ b ++ lit "**") = '*' :: '*' :: (b ++ lit "**") by
      simp [lit],
    findAux_double_none hP hb hS hbne]

end PMAgent
namespace PMAgent

/-- The scan is finished at or beyond the end of the line. -/
theorem scanInline_ge (fuel : Nat) (t : Str) (i : Nat) (nodes : List Inline)
    (h : t.length ≤ i) : scanInline fuel t i nodes = nodes := by
  cases fuel with
  | zero => rfl
  | succ fuel => rw [scanInline, if_neg (by omega)]

/-- `get?` inside the left part of an append. -/
theorem no_star_left {x r : Str} (hx : '*' ∉ x) :
    ∀ j, j < x.length → (x ++ r).get? j ≠ some '*' := by
  intro j hj h
  rw [List.get?_append hj] at h
  exact hx (mem_of_get?_eq_some h)

/-- No star at or past the boundary when the tail is star-free. -/
theorem no_star_right {pre S : Str} (hS : '*' ∉ S) :
    ∀ j, pre.length ≤ j → (pre ++ S).get? j ≠ some '*' := by
  intro j hj h
  rw [List.get?_append_right hj] at h
  exact hS (mem_of_get?_eq_some h)

/-- `get?` at the append boundary. -/
theorem get?_append_self (x y : Str) : (x ++ y).get? x.length = y.get? 0 := by
  rw [List.get?_append_right (Nat.le_refl _), Nat.sub_self]

/-- `get?` at an offset past the append boundary. -/
theorem get?_append_at (x y : Str) (n : Nat) :
    (x ++ y).get? (x.length + n) = y.get? n := by
  rw [List.get?_append_right (Nat.le_add_right _ _), Nat.add_sub_cancel_left]

/-- Slicing out the middle of a three-part append. -/
theorem slice_append_exact (pre mid post : Str) :
    slice (pre ++ (mid ++ post)) pre.length (pre.length + mid.length) = mid := by
  rw [slice, List.drop_left, Nat.add_sub_cancel_left, List.take_left]

/-- The scan walks one-by-one over a star-free region. -/
theorem scanInline_skip {t : Str} : ∀ (k i fuel : Nat) (nodes : List Inline),
    (∀ j, i ≤ j → j < i + k → t.get? j ≠ some '*') →
    scanInline (k + fuel) t i nodes = scanInline fuel t (i + k) nodes := by
  intro k
  induction k with
  | zero => intro i fuel nodes _; rw [Nat.zero_add, Nat.add_zero]
  | succ k ih =>
      intro i fuel nodes h
      have hstar : t.get? i ≠ some '*' := h i (Nat.le_refl _) (by omega)
      have hshape : k + 1 + fuel = (k + fuel) + 1 := by omega
      rw [hshape]
      by_cases hi : i < t.length
      · rw [scanInline, if_pos hi, if_neg (fun hh => hstar hh.1),
          if_neg (fun hh => hstar hh.1),
          ih (i + 1) fuel nodes (fun j hj1 hj2 => h j (by omega) (by omega))]
        congr 1
        omega
      · rw [scanInline, if_neg hi]
        exact (scanInline_ge fuel t _ nodes (by omega)).symm

/-- The scan returns its accumulator once the rest of the line is
star-free. -/
theorem scanInline_tail {t : Str} : ∀ (fuel i : Nat) (nodes : List Inline),
    (∀ j, i ≤ j → t.get? j ≠ some '*') →
    scanInline fuel t i nodes = nodes := by
  intro fuel
  induction fuel with
  | zero => intro i nodes _; rfl
  | succ fuel ih =>
      intro i nodes h
      by_cases hi : i < t.length
      · rw [scanInline, if_pos hi, if_neg (fun hh => h i (Nat.le_refl _) hh.1),
          if_neg (fun hh => h i (Nat.le_refl _) hh.1)]
        exact ih (i + 1) nodes (fun j hj => h j (by omega))
      · rw [scanInline, if_neg hi]

/-- One scan step across a markdown bold span `**…**`. -/
theorem scanInline_step_double {t : Str} {i e : Nat} (fuel : Nat)
    (nodes : List Inline) (hi : i < t.length)
    (h1 : t.get? i = some '*') (h2 : t.get? (i + 1) = some '*')
    (hfind : pyFind t (lit "**") (i + 2) = some e) :
    scanInline (fuel + 1) t i nodes =
      scanInline fuel t (e + 2)
        (let nodes1 :=
          if nodes = [] ∧ 0 < i then nodes ++ [Inline.text (slice t 0 i)]
          else nodes
         if pyStrip (slice t (i + 2) e) ≠ [] then
           nodes1 ++ [Inline.strong (slice t (i + 2) e)]
         else nodes1) := by
  rw [scanInline, if_pos hi, if_pos ⟨h1, h2⟩, hfind]

/-- One scan step across a wiki-style single-star span `*…*`. -/
theorem scanInline_step_single {t : Str} {i e : Nat} (fuel : Nat)
    (nodes : List Inline) (hi : i < t.length)
    (hno : ¬ (t.get? i = some '*' ∧ t.get? (i + 1) = some '*'))
    (h1 : t.get? i = some '*')
    (hbd : i = 0 ∨ t.get? (i - 1) = some ' ' ∨ t.get? (i - 1) = some '\t' ∨
      t.get? (i - 1) = some '(')
    (hfind : pyFind t ['*'] (i + 1) = some e) (hlt : i + 1 < e)
    (hcond : ¬ pyContains (slice t (i + 1) e) [' '] = true ∨
      (slice t (i + 1) e).length < 80) :
    scanInline (fuel + 1) t i nodes =
      scanInline fuel t (e + 1)
        ((if nodes = [] ∧ 0 < i then nodes ++ [Inline.text (slice t 0 i)]
          else nodes) ++ [Inline.strong (slice t (i + 1) e)]) := by
  rw [scanInline, if_pos hi, if_neg hno, if_pos ⟨h1, hbd⟩, hfind]
  show (if i + 1 < e then
      let inner := slice t (i + 1) e
      if ¬pyContains inner [' '] = true ∨ inner.length < 80 then
        let nodes1 :=
          if nodes = [] ∧ 0 < i then nodes ++ [Inline.text (slice t 0 i)]
          else nodes
        scanInline fuel t (e + 1) (nodes1 ++ [Inline.strong inner])
      else scanInline fuel t (i + 1) nodes
    else scanInline fuel t (i + 1) nodes) = _
  rw [if_pos hlt, if_pos hcond]

end PMAgent
namespace PMAgent

/-- Scanning the markdown line `P**b**S` (star-free `P`, `b`, `S`)
collects the leading text (if any) and the bold span. -/
theorem scanInline_md {P b S : Str} (hP : '*' ∉ P) (hb : '*' ∉ b)
    (hbne : b ≠ []) (hS : '*' ∉ S) (hstrip : pyStrip b ≠ []) :
    scanInline ((P ++ '*' :: '*' :: (b ++ '*' :: '*' :: S)).length + 1)
      (P ++ '*' :: '*' :: (b ++ '*' :: '*' :: S)) 0 [] =
      (if P = [] then [] else [Inline.text P]) ++ [Inline.strong b] := by
  have hlen : (P ++ '*' :: '*' :: (b ++ '*' :: '*' :: S)).length =
      P.length + b.length + S.length + 4 := by
    simp only [List.length_append, List.length_cons]
    omega
  have hf1 : (P ++ '*' :: '*' :: (b ++ '*' :: '*' :: S)).length + 1 =
      P.length + (b.length + S.length + 4 + 1) := by rw [hlen]; omega
  rw [hf1,
    scanInline_skip P.length 0 (b.length + S.length + 4 + 1) []
      (fun j _ hj2 => no_star_left hP j (by omega)),
    Nat.zero_add]
  have hi : P.length < (P ++ '*' :: '*' :: (b ++ '*' :: '*' :: S)).length := by
    rw [hlen]; omega
  have h1 : (P ++ '*' :: '*' :: (b ++ '*' :: '*' :: S)).get? P.length =
      some '*' := by rw [get?_append_self]; rfl
  have h2 : (P ++ '*' :: '*' :: (b ++ '*' :: '*' :: S)).get? (P.length + 1) =
      some '*' := by rw [get?_append_at]; rfl
  have hdrop : (P ++ '*' :: '*' :: (b ++ '*' :: '*' :: S)).drop
      (P.length + 2) = b ++ '*' :: '*' :: S := by
    rw [show P ++ '*' :: '*' :: (b ++ '*' :: '*' :: S) =
        (P ++ ['*', '*']) ++ (b ++ '*' :: '*' :: S) by simp,
      show P.length + 2 = (P ++ ['*', '*']).length by simp, List.drop_left]
  have hfind : pyFind (P ++ '*' :: '*' :: (b ++ '*' :: '*' :: S)) (lit "**")
      (P.length + 2) = some (P.length + 2 + b.length) := by
    rw [pyFind, hdrop, show lit "**" = '*' :: ['*'] from rfl,
      findAux_shift ['*'] ('*' :: '*' :: S) hb 0, Nat.zero_add,
      findAux_self
        (show (('*' : Char) :: ['*']).isPrefixOf ('*' :: '*' :: S) = true from
          isPrefixOf_append_self ['*', '*'] S)]
    simp only [Option.map_some']
    congr 1
    omega
  rw [scanInline_step_double (b.length + S.length + 4) [] hi h1 h2 hfind,
    scanInline_tail (b.length + S.length + 4) (P.length + 2 + b.length + 2) _
      (by
        intro j hj
        rw [show P ++ '*' :: '*' :: (b ++ '*' :: '*' :: S) =
          (P ++ '*' :: '*' :: (b ++ ['*', '*'])) ++ S by simp]
        refine no_star_right hS j ?_
        simp only [List.length_append, List.length_cons, List.length_nil]
        omega)]
  have hsliceb : slice (P ++ '*' :: '*' :: (b ++ '*' :: '*' :: S))
      (P.length + 2) (P.length + 2 + b.length) = b := by
    rw [show P ++ '*' :: '*' :: (b ++ '*' :: '*' :: S) =
        (P ++ ['*', '*']) ++ (b ++ '*' :: '*' :: S) by simp,
      show P.length + 2 = (P ++ ['*', '*']).length by simp]
    exact slice_append_exact _ _ _
  have hslice0 : slice (P ++ '*' :: '*' :: (b ++ '*' :: '*' :: S)) 0
      P.length = P := by
    rw [slice, List.drop_zero, Nat.sub_zero, List.take_left]
  show (if pyStrip (slice (P ++ '*' :: '*' :: (b ++ '*' :: '*' :: S))
      (P.length + 2) (P.length + 2 + b.length)) ≠ [] then
      (if ([] : List Inline) = [] ∧ 0 < P.length then
        [] ++ [Inline.text (slice (P ++ '*' :: '*' :: (b ++ '*' :: '*' :: S))
          0 P.length)] else []) ++
        [Inline.strong (slice (P ++ '*' :: '*' :: (b ++ '*' :: '*' :: S))
          (P.length + 2) (P.length + 2 + b.length))]
    else
      (if ([] : List Inline) = [] ∧ 0 < P.length then
        [] ++ [Inline.text (slice (P ++ '*' :: '*' :: (b ++ '*' :: '*' :: S))
          0 P.length)] else [])) =
    (if P = [] then [] else [Inline.text P]) ++ [Inline.strong b]
  rw [hsliceb, hslice0, if_pos hstrip]
  congr 1
  by_cases hP0 : P = []
  · simp [hP0]
  · simp [hP0, List.length_pos.mpr hP0]

/-- Scanning the wiki line `P*b*S` (star-free `P`, `b`, `S`; `P` empty
or ending in a space; `b` nonempty, space-free) collects the same
nodes. -/
theorem scanInline_wiki {P b S : Str} (hP : '*' ∉ P) (hb : '*' ∉ b)
    (hbne : b ≠ []) (hS : '*' ∉ S) (hbsp : ' ' ∉ b)
    (hPl : P = [] ∨ P.getLast? = some ' ') :
    scanInline ((P ++ '*' :: (b ++ '*' :: S)).length + 1)
      (P ++ '*' :: (b ++ '*' :: S)) 0 [] =
      (if P = [] then [] else [Inline.text P]) ++ [Inline.strong b] := by
  have hlen : (P ++ '*' :: (b ++ '*' :: S)).length =
      P.length + b.length + S.length + 2 := by
    simp only [List.length_append, List.length_cons]
    omega
  have hf1 : (P ++ '*' :: (b ++ '*' :: S)).length + 1 =
      P.length + (b.length + S.length + 2 + 1) := by rw [hlen]; omega
  rw [hf1,
    scanInline_skip P.length 0 (b.length + S.length + 2 + 1) []
      (fun j _ hj2 => no_star_left hP j (by omega)),
    Nat.zero_add]
  have hi : P.length < (P ++ '*' :: (b ++ '*' :: S)).length := by
    rw [hlen]; omega
  have h1 : (P ++ '*' :: (b ++ '*' :: S)).get? P.length = some '*' := by
    rw [get?_append_self]; rfl
  have hno : ¬ ((P ++ '*' :: (b ++ '*' :: S)).get? P.length = some '*' ∧
      (P ++ '*' :: (b ++ '*' :: S)).get? (P.length + 1) = some '*') := by
    rintro ⟨-, h2⟩
    rw [get?_append_at, List.get?_cons_succ] at h2
    cases b with
    | nil => exact hbne rfl
    | cons b0 b' =>
        rw [List.cons_append, List.get?_cons_zero] at h2
        exact hb (Option.some.inj h2 ▸ List.mem_cons_self _ _)
  have hbd : P.length = 0 ∨
      (P ++ '*' :: (b ++ '*' :: S)).get? (P.length - 1) = some ' ' ∨
      (P ++ '*' :: (b ++ '*' :: S)).get? (P.length - 1) = some '\t' ∨
      (P ++ '*' :: (b ++ '*' :: S)).get? (P.length - 1) = some '(' := by
    rcases hPl with hP0 | hPl'
    · left; rw [hP0]; rfl
    · right; left
      have hPne : P ≠ [] := by rintro rfl; cases hPl'
      have hlt : P.length - 1 < P.length := by
        have := List.length_pos.mpr hPne
        omega
      rw [List.get?_append hlt, ← List.getLast?_eq_get?]
      exact hPl'
  have hdrop : (P ++ '*' :: (b ++ '*' :: S)).drop (P.length + 1) =
      b ++ '*' :: S := by
    rw [show P ++ '*' :: (b ++ '*' :: S) =
        (P ++ ['*']) ++ (b ++ '*' :: S) by simp,
      show P.length + 1 = (P ++ ['*']).length by simp, List.drop_left]
  have hfind : pyFind (P ++ '*' :: (b ++ '*' :: S)) ['*'] (P.length + 1) =
      some (P.length + 1 + b.length) := by
    rw [pyFind, hdrop, findAux_shift [] ('*' :: S) hb 0, Nat.zero_add,
      findAux_self
        (show (('*' : Char) :: []).isPrefixOf ('*' :: S) = true from
          isPrefixOf_append_self ['*'] S)]
    simp only [Option.map_some']
    congr 1
    omega
  have hsliceb : slice (P ++ '*' :: (b ++ '*' :: S)) (P.length + 1)
      (P.length + 1 + b.length) = b := by
    rw [show P ++ '*' :: (b ++ '*' :: S) =
        (P ++ ['*']) ++ (b ++ '*' :: S) by simp,
      show P.length + 1 = (P ++ ['*']).length by simp]
    exact slice_append_exact _ _ _
  have hlt : P.length + 1 < P.length + 1 + b.length := by
    have := List.length_pos.mpr hbne
    omega
  have hcond : ¬ pyContains (slice (P ++ '*' :: (b ++ '*' :: S))
      (P.length + 1) (P.length + 1 + b.length)) [' '] = true ∨
      (slice (P ++ '*' :: (b ++ '*' :: S)) (P.length + 1)
        (P.length + 1 + b.length)).length < 80 :=
    Or.inl (by rw [hsliceb, pyContains, pyFind_single_none [] hbsp]; simp)
  rw [scanInline_step_single (b.length + S.length + 2) [] hi hno h1 hbd hfind
      hlt hcond,
    scanInline_tail (b.length + S.length + 2) (P.length + 1 + b.length + 1) _
      (by
        intro j hj
        rw [show P ++ '*' :: (b ++ '*' :: S) =
          (P ++ '*' :: (b ++ ['*'])) ++ S by simp]
        refine no_star_right hS j ?_
        simp only [List.length_append, List.length_cons, List.length_nil]
        omega)]
  have hslice0 : slice (P ++ '*' :: (b ++ '*' :: S)) 0 P.length = P := by
    rw [slice, List.drop_zero, Nat.sub_zero, List.take_left]
  rw [hsliceb, hslice0]
  congr 1
  by_cases hP0 : P = []
  · simp [hP0]
  · simp [hP0, List.length_pos.mpr hP0]

end PMAgent
namespace PMAgent

/-- Rebuild of an empty node list. -/
theorem rebuildInline_nil (t : Str) (pos : Nat) :
    rebuildInline t [] pos = ([], pos) := rfl

/-- Rebuild step over a plain-text node: the node is re-emitted and the
position does not advance (the source bug). -/
theorem rebuildInline_text {t s : Str} {rest : List Inline} {pos : Nat} :
    rebuildInline t (Inline.text s :: rest) pos =
      (Inline.text s :: (rebuildInline t rest pos).1,
       (rebuildInline t rest pos).2) := by
  cases hrp : rebuildInline t rest pos with
  | mk r p => rw [rebuildInline, hrp]

/-- Rebuild step over a bold node when both the `**…**` and `*…*`
sources are found, the double-star one first. -/
theorem rebuildInline_strong_both {t s : Str} {rest : List Inline}
    {pos d sg : Nat}
    (hd : pyFind t (lit "**" ++ s ++ lit "**") pos = some d)
    (hsg : pyFind t ('*' :: s ++ ['*']) pos = some sg) (hle : d ≤ sg) :
    rebuildInline t (Inline.strong s :: rest) pos =
      ((if pos < d then [Inline.text (slice t pos d)] else []) ++
        Inline.strong s :: (rebuildInline t rest (d + s.length + 4)).1,
       (rebuildInline t rest (d + s.length + 4)).2) := by
  rw [rebuildInline, hd, hsg]
  simp only [if_pos hle]

/-- Rebuild step over a bold node when only the single-star source
occurs. -/
theorem rebuildInline_strong_single {t s : Str} {rest : List Inline}
    {pos sg : Nat}
    (hd : pyFind t (lit "**" ++ s ++ lit "**") pos = none)
    (hsg : pyFind t ('*' :: s ++ ['*']) pos = some sg) :
    rebuildInline t (Inline.strong s :: rest) pos =
      ((if pos < sg then [Inline.text (slice t pos sg)] else []) ++
        Inline.strong s :: (rebuildInline t rest (sg + s.length + 2)).1,
       (rebuildInline t rest (sg + s.length + 2)).2) := by
  rw [rebuildInline, hd, hsg]

/-- `_parse_inline_markdown` on the markdown line `P**b**S`: the
leading text is duplicated (scan emits it once, rebuild re-inserts the
gap before the bold source), the bold span survives, the tail text is
kept. -/
theorem parseInline_md {P b S : Str} (hP : '*' ∉ P) (hb : '*' ∉ b)
    (hbne : b ≠ []) (hS : '*' ∉ S) (hstripb : pyStrip b ≠ [])
    (hstripS : S ≠ [] → pyStrip S ≠ []) :
    parseInline (P ++ '*' :: '*' :: (b ++ '*' :: '*' :: S)) =
      (if P = [] then [] else [Inline.text P, Inline.text P]) ++
        Inline.strong b :: (if S = [] then [] else [Inline.text S]) := by
  have hlen : (P ++ '*' :: '*' :: (b ++ '*' :: '*' :: S)).length =
      P.length + b.length + S.length + 4 := by
    simp only [List.length_append, List.length_cons]
    omega
  have htne : P ++ '*' :: '*' :: (b ++ '*' :: '*' :: S) ≠ [] := by simp
  have hNne : ((if P = [] then [] else [Inline.text P]) ++
      [Inline.strong b]) ≠ [] := by
    by_cases hP0 : P = [] <;> simp [hP0]
  have hslice0 : slice (P ++ '*' :: '*' :: (b ++ '*' :: '*' :: S)) 0
      P.length = P := by
    rw [slice, List.drop_zero, Nat.sub_zero, List.take_left]
  have hd := pyFind_md_double (P := P) (b := b) (S := S) hP
  have hsg := pyFind_md_single (P := P) (b := b) (S := S) hP hb hbne
  have hreb : rebuildInline (P ++ '*' :: '*' :: (b ++ '*' :: '*' :: S))
      ((if P = [] then [] else [Inline.text P]) ++ [Inline.strong b]) 0 =
      ((if P = [] then [] else [Inline.text P, Inline.text P]) ++
        [Inline.strong b], P.length + b.length + 4) := by
    by_cases hP0 : P = []
    · rw [if_pos hP0, if_pos hP0, List.nil_append,
        rebuildInline_strong_both hd hsg (by omega), rebuildInline_nil]
      simp [hP0]
    · rw [if_neg hP0, if_neg hP0,
        show [Inline.text P] ++ [Inline.strong b] =
          Inline.text P :: [Inline.strong b] from rfl,
        rebuildInline_text, rebuildInline_strong_both hd hsg (by omega),
        rebuildInline_nil, hslice0]
      simp [List.length_pos.mpr hP0]
  have hdrop2 : (P ++ '*' :: '*' :: (b ++ '*' :: '*' :: S)).drop
      (P.length + b.length + 4) = S := by
    rw [show P ++ '*' :: '*' :: (b ++ '*' :: '*' :: S) =
        (P ++ '*' :: '*' :: (b ++ ['*', '*'])) ++ S by simp,
      show P.length + b.length + 4 =
        (P ++ '*' :: '*' :: (b ++ ['*', '*'])).length by
        simp only [List.length_append, List.length_cons, List.length_nil]
        omega,
      List.drop_left]
  have hRne : ((if P = [] then [] else [Inline.text P, Inline.text P]) ++
      [Inline.strong b]) ≠ [] := by
    by_cases hP0 : P = [] <;> simp [hP0]
  rw [parseInline, if_neg htne]
  simp only [scanInline_md hP hb hbne hS hstripb, if_neg hNne, hreb]
  by_cases hS0 : S = []
  · have hSlen : S.length = 0 := by rw [hS0]; rfl
    have hnlt : ¬ (P.length + b.length + 4 <
        (P ++ '*' :: '*' :: (b ++ '*' :: '*' :: S)).length) := by
      rw [hlen]; omega
    rw [if_neg hnlt, if_neg hRne]
    simp [hS0]
  · have hlt2 : P.length + b.length + 4 <
        (P ++ '*' :: '*' :: (b ++ '*' :: '*' :: S)).length := by
      rw [hlen]
      have := List.length_pos.mpr hS0
      omega
    have hstr : pyStrip S ≠ [] := hstripS hS0
    have hR2ne : ((if P = [] then [] else [Inline.text P, Inline.text P]) ++
        [Inline.strong b]) ++ [Inline.text S] ≠ [] := by simp
    rw [if_pos hlt2, hdrop2, if_pos hstr, if_neg hR2ne]
    simp [hS0]

/-- `_parse_inline_markdown` on the wiki line `P*b*S`: identical result
to the markdown line, including the duplicated leading text. -/
theorem parseInline_wiki {P b S : Str} (hP : '*' ∉ P) (hb : '*' ∉ b)
    (hbne : b ≠ []) (hS : '*' ∉ S) (hbsp : ' ' ∉ b)
    (hPl : P = [] ∨ P.getLast? = some ' ')
    (hstripS : S ≠ [] → pyStrip S ≠ []) :
    parseInline (P ++ '*' :: (b ++ '*' :: S)) =
      (if P = [] then [] else [Inline.text P, Inline.text P]) ++
        Inline.strong b :: (if S = [] then [] else [Inline.text S]) := by
  have hlen : (P ++ '*' :: (b ++ '*' :: S)).length =
      P.length + b.length + S.length + 2 := by
    simp only [List.length_append, List.length_cons]
    omega
  have htne : P ++ '*' :: (b ++ '*' :: S) ≠ [] := by simp
  have hNne : ((if P = [] then [] else [Inline.text P]) ++
      [Inline.strong b]) ≠ [] := by
    by_cases hP0 : P = [] <;> simp [hP0]
  have hslice0 : slice (P ++ '*' :: (b ++ '*' :: S)) 0 P.length = P := by
    rw [slice, List.drop_zero, Nat.sub_zero, List.take_left]
  have hd := pyFind_wiki_double (P := P) (b := b) (S := S) hP hb hS hbne
  have hsg := pyFind_wiki_single (P := P) (b := b) (S := S) hP
  have hreb : rebuildInline (P ++ '*' :: (b ++ '*' :: S))
      ((if P = [] then [] else [Inline.text P]) ++ [Inline.strong b]) 0 =
      ((if P = [] then [] else [Inline.text P, Inline.text P]) ++
        [Inline.strong b], P.length + b.length + 2) := by
    by_cases hP0 : P = []
    · rw [if_pos hP0, if_pos hP0, List.nil_append,
        rebuildInline_strong_single hd hsg, rebuildInline_nil]
      simp [hP0]
    · rw [if_neg hP0, if_neg hP0,
        show [Inline.text P] ++ [Inline.strong b] =
          Inline.text P :: [Inline.strong b] from rfl,
        rebuildInline_text, rebuildInline_strong_single hd hsg,
        rebuildInline_nil, hslice0]
      simp [List.length_pos.mpr hP0]
  have hdrop2 : (P ++ '*' :: (b ++ '*' :: S)).drop
      (P.length + b.length + 2) = S := by
    rw [show P ++ '*' :: (b ++ '*' :: S) =
        (P ++ '*' :: (b ++ ['*'])) ++ S by simp,
      show P.length + b.length + 2 = (P ++ '*' :: (b ++ ['*'])).length by
        simp only [List.length_append, List.length_cons, List.length_nil]
        omega,
      List.drop_left]
  have hRne : ((if P = [] then [] else [Inline.text P, Inline.text P]) ++
      [Inline.strong b]) ≠ [] := by
    by_cases hP0 : P = [] <;> simp [hP0]
  rw [parseInline, if_neg htne]
  simp only [scanInline_wiki hP hb hbne hS hbsp hPl, if_neg hNne, hreb]
  by_cases hS0 : S = []
  · have hSlen : S.length = 0 := by rw [hS0]; rfl
    have hnlt : ¬ (P.length + b.length + 2 <
        (P ++ '*' :: (b ++ '*' :: S)).length) := by
      rw [hlen]; omega
    rw [if_neg hnlt, if_neg hRne]
    simp [hS0]
  · have hlt2 : P.length + b.length + 2 <
        (P ++ '*' :: (b ++ '*' :: S)).length := by
      rw [hlen]
      have := List.length_pos.mpr hS0
      omega
    have hstr : pyStrip S ≠ [] := hstripS hS0
    have hR2ne : ((if P = [] then [] else [Inline.text P, Inline.text P]) ++
        [Inline.strong b]) ++ [Inline.text S] ≠ [] := by simp
    rw [if_pos hlt2, hdrop2, if_pos hstr, if_neg hR2ne]
    simp [hS0]

end PMAgent
namespace PMAgent

/-- `subCode` with no backtick in sight is the identity. -/
theorem subCode_id {t : Str} (h : btick ∉ t) : ∀ fuel, subCode fuel t = t := by
  induction t with
  | nil => intro fuel; cases fuel <;> rfl
  | cons c rest ih =>
      intro fuel
      cases fuel with
      | zero => rfl
      | succ fuel =>
          rw [List.mem_cons, not_or] at h
          rw [subCode, if_neg (fun hh => h.1 hh.symm), ih h.2 fuel]

/-- `subLink` with no opening bracket is the identity. -/
theorem subLink_id {t : Str} (h : '[' ∉ t) : ∀ fuel, subLink fuel t = t := by
  induction t with
  | nil => intro fuel; cases fuel <;> rfl
  | cons c rest ih =>
      intro fuel
      cases fuel with
      | zero => rfl
      | succ fuel =>
          rw [List.mem_cons, not_or] at h
          rw [subLink, if_neg (fun hh => h.1 hh.symm), ih h.2 fuel]

/-- `subBold` on the empty string. -/
theorem subBold_nil : ∀ fuel, subBold fuel [] = [] := by
  intro fuel; cases fuel <;> rfl

/-- `subBold` with no star in sight is the identity. -/
theorem subBold_id {t : Str} (h : '*' ∉ t) : ∀ fuel, subBold fuel t = t := by
  induction t with
  | nil => intro fuel; cases fuel <;> rfl
  | cons c1 t2 ih =>
      intro fuel
      cases fuel with
      | zero => rfl
      | succ fuel =>
          rw [List.mem_cons, not_or] at h
          cases t2 with
          | nil => rfl
          | cons c2 rest =>
              rw [subBold, if_neg (fun hh => h.1 hh.1.symm), ih h.2 fuel]

/-- `subBold` copies a star-free prefix unchanged. -/
theorem subBold_skip {x : Str} (hx : '*' ∉ x) :
    ∀ (fuel : Nat) (y : Str),
      subBold (x.length + fuel) (x ++ y) = x ++ subBold fuel y := by
  induction x with
  | nil =>
      intro fuel y
      simp only [List.nil_append, List.length_nil, Nat.zero_add]
  | cons c x' ih =>
      intro fuel y
      rw [List.mem_cons, not_or] at hx
      have hsh : (c :: x').length + fuel = (x'.length + fuel) + 1 := by
        simp only [List.length_cons]
        omega
      rw [hsh, List.cons_append]
      cases hxy : x' ++ y with
      | nil =>
          obtain ⟨hx0, hy0⟩ := List.append_eq_nil.mp hxy
          subst hx0
          subst hy0
          rw [subBold_nil]
          rfl
      | cons c2 rest =>
          rw [subBold, if_neg (fun hh => hx.1 hh.1.symm), ← hxy,
            ih hx.2 fuel y]
          rfl

/-- `subBold` rewrites the bold span `**b**` to `*b*` and leaves the
star-free tail alone. -/
theorem subBold_bold {b S : Str} (hb : '*' ∉ b) (hbne : b ≠ [])
    (hS : '*' ∉ S) (fuel : Nat) :
    subBold (fuel + 1) ('*' :: '*' :: (b ++ '*' :: '*' :: S)) =
      '*' :: (b ++ '*' :: S) := by
  have hfind : pyFind (b ++ '*' :: '*' :: S) (lit "**") 1 = some b.length := by
    cases b with
    | nil => cases hbne rfl
    | cons b0 b' =>
        have hb' : '*' ∉ b' := fun hh => hb (List.mem_cons_of_mem _ hh)
        rw [pyFind, List.cons_append, List.drop_succ_cons, List.drop_zero,
          show lit "**" = '*' :: ['*'] from rfl,
          findAux_shift ['*'] ('*' :: '*' :: S) hb' 0, Nat.zero_add,
          findAux_self
            (show (('*' : Char) :: ['*']).isPrefixOf ('*' :: '*' :: S) = true
              from isPrefixOf_append_self ['*', '*'] S)]
        simp only [Option.map_some', List.length_cons]
  rw [subBold, if_pos ⟨rfl, rfl⟩, hfind]
  show '*' :: (slice (b ++ '*' :: '*' :: S) 0 b.length ++
      '*' :: subBold fuel ((b ++ '*' :: '*' :: S).drop (b.length + 2))) =
    '*' :: (b ++ '*' :: S)
  have hslice : slice (b ++ '*' :: '*' :: S) 0 b.length = b := by
    rw [slice, List.drop_zero, Nat.sub_zero, List.take_left]
  have hdrop : (b ++ '*' :: '*' :: S).drop (b.length + 2) = S := by
    rw [show b ++ '*' :: '*' :: S = (b ++ ['*', '*']) ++ S by simp,
      show b.length + 2 = (b ++ ['*', '*']).length by simp, List.drop_left]
  rw [hslice, hdrop, subBold_id hS]

/-- A character that is neither alphanumeric, space nor star avoids any
string whose characters are all of those kinds. -/
theorem not_mem_of_ok3 {t : Str}
    (hc : ∀ c ∈ t, c.isAlphanum = true ∨ c = ' ' ∨ c = '*') {x : Char}
    (hx : x.isAlphanum = false) (hxsp : x ≠ ' ') (hxst : x ≠ '*') :
    x ∉ t := by
  intro hmem
  rcases hc x hmem with h | h | h
  · rw [h] at hx; cases hx
  · exact hxsp h
  · exact hxst h

/-- Characters of the markdown line `P**b**S`. -/
theorem mdline_chars {P b S : Str}
    (hcP : ∀ c ∈ P, c.isAlphanum = true ∨ c = ' ')
    (hcb : ∀ c ∈ b, c.isAlphanum = true)
    (hcS : ∀ c ∈ S, c.isAlphanum = true ∨ c = ' ') :
    ∀ c ∈ P ++ '*' :: '*' :: (b ++ '*' :: '*' :: S),
      c.isAlphanum = true ∨ c = ' ' ∨ c = '*' := by
  intro c hmem
  simp only [List.mem_append, List.mem_cons] at hmem
  rcases hmem with h | h | h | h | h | h | h
  · rcases hcP c h with h2 | h2
    · exact Or.inl h2
    · exact Or.inr (Or.inl h2)
  · exact Or.inr (Or.inr h)
  · exact Or.inr (Or.inr h)
  · exact Or.inl (hcb c h)
  · exact Or.inr (Or.inr h)
  · exact Or.inr (Or.inr h)
  · rcases hcS c h with h2 | h2
    · exact Or.inl h2
    · exact Or.inr (Or.inl h2)

/-- Characters of the wiki line `P*b*S`. -/
theorem wikiline_chars {P b S : Str}
    (hcP : ∀ c ∈ P, c.isAlphanum = true ∨ c = ' ')
    (hcb : ∀ c ∈ b, c.isAlphanum = true)
    (hcS : ∀ c ∈ S, c.isAlphanum = true ∨ c = ' ') :
    ∀ c ∈ P ++ '*' :: (b ++ '*' :: S),
      c.isAlphanum = true ∨ c = ' ' ∨ c = '*' := by
  intro c hmem
  simp only [List.mem_append, List.mem_cons] at hmem
  rcases hmem with h | h | h | h | h
  · rcases hcP c h with h2 | h2
    · exact Or.inl h2
    · exact Or.inr (Or.inl h2)
  · exact Or.inr (Or.inr h)
  · exact Or.inl (hcb c h)
  · exact Or.inr (Or.inr h)
  · rcases hcS c h with h2 | h2
    · exact Or.inl h2
    · exact Or.inr (Or.inl h2)

/-- `_inline_md_to_wiki` is the identity on star-, backtick- and
bracket-free text. -/
theorem inlineMdToWiki_id {t : Str} (hbt : btick ∉ t) (hst : '*' ∉ t)
    (hbr : '[' ∉ t) : inlineMdToWiki t = t := by
  rw [inlineMdToWiki]
  by_cases ht : t = []
  · rw [if_pos ht, ht]
  · rw [if_neg ht]
    simp only [subCode_id hbt, subBold_id hst, subLink_id hbr]

/-- `_inline_md_to_wiki` turns the markdown line `P**b**S` into the
wiki line `P*b*S`. -/
theorem inlineMdToWiki_md {P b S : Str}
    (hcP : ∀ c ∈ P, c.isAlphanum = true ∨ c = ' ')
    (hcb : ∀ c ∈ b, c.isAlphanum = true) (hbne : b ≠ [])
    (hcS : ∀ c ∈ S, c.isAlphanum = true ∨ c = ' ') :
    inlineMdToWiki (P ++ '*' :: '*' :: (b ++ '*' :: '*' :: S)) =
      P ++ '*' :: (b ++ '*' :: S) := by
  have hP : '*' ∉ P := fun hmem => by
    rcases hcP _ hmem with h | h <;> exact absurd h (by decide)
  have hb : '*' ∉ b := fun hmem => absurd (hcb _ hmem) (by decide)
  have hS : '*' ∉ S := fun hmem => by
    rcases hcS _ hmem with h | h <;> exact absurd h (by decide)
  have hmd := mdline_chars hcP hcb hcS
  have hwk := wikiline_chars hcP hcb hcS
  have htne : P ++ '*' :: '*' :: (b ++ '*' :: '*' :: S) ≠ [] := by simp
  have hsh : (P ++ '*' :: '*' :: (b ++ '*' :: '*' :: S)).length + 1 =
      P.length + ((b.length + S.length + 4) + 1) := by
    simp only [List.length_append, List.length_cons]
    omega
  have hBold : subBold
      ((P ++ '*' :: '*' :: (b ++ '*' :: '*' :: S)).length + 1)
      (P ++ '*' :: '*' :: (b ++ '*' :: '*' :: S)) =
      P ++ '*' :: (b ++ '*' :: S) := by
    rw [hsh, subBold_skip hP ((b.length + S.length + 4) + 1) _,
      subBold_bold hb hbne hS (b.length + S.length + 4)]
  rw [inlineMdToWiki, if_neg htne]
  simp only [subCode_id (not_mem_of_ok3 hmd (by decide) (by decide) (by decide)),
    hBold, subLink_id (not_mem_of_ok3 hwk (by decide) (by decide) (by decide))]

end PMAgent
namespace PMAgent

/-- A false Boolean is not true. -/
theorem not_eq_true_of_eq_false {b : Bool} (h : b = false) : ¬ b = true := by
  rw [h]; simp

/-- `head?` of an append with nonempty left part. -/
theorem head?_append_left {x : Str} (y : Str) (hx : x ≠ []) :
    (x ++ y).head? = x.head? := by
  cases x with
  | nil => cases hx rfl
  | cons c t => rfl

/-- `getLast?` through two leading characters. -/
theorem getLast?_cons₂ (c1 c2 : Char) {X : Str} (hX : X ≠ []) :
    (c1 :: c2 :: X).getLast? = X.getLast? := by
  rw [show c1 :: c2 :: X = [c1, c2] ++ X from rfl,
    List.getLast?_append_of_ne_nil _ hX]

/-- `getLast?` through one leading character. -/
theorem getLast?_cons₁ (c1 : Char) {X : Str} (hX : X ≠ []) :
    (c1 :: X).getLast? = X.getLast? := by
  rw [show c1 :: X = [c1] ++ X from rfl,
    List.getLast?_append_of_ne_nil _ hX]

/-- No `. ` occurs in the 5-character prefix of a dot-free string. -/
theorem not_contains_dot {t : Str} (h : '.' ∉ t) :
    pyContains (t.take 5) (lit ". ") = false := by
  rw [pyContains, show lit ". " = '.' :: [' '] from rfl,
    pyFind_single_none [' '] (fun hm => h (List.mem_of_mem_take hm))]
  rfl

/-- A string containing an alphanumeric character differs from any
string without one. -/
theorem ne_of_has_alnum {t u : Str} (hc : ∃ c, c ∈ t ∧ c.isAlphanum = true)
    (hu : ∀ c ∈ u, c.isAlphanum = false) : t ≠ u := by
  intro he
  obtain ⟨c, hm, ha⟩ := hc
  rw [he] at hm
  rw [hu c hm] at ha
  cases ha

/-- Alphanumeric-or-star characters are not Python whitespace. -/
theorem isPySpace_false_of_ok {c : Char}
    (h : c.isAlphanum = true ∨ c = '*') : isPySpace c = false := by
  rcases h with h | h
  · exact isPySpace_false_of_alnum h
  · rw [h]; decide

/-- A non-alphanumeric, non-star character differs from any
alphanumeric-or-star one. -/
theorem head_ne_of_ok {c x : Char} (hk : c.isAlphanum = true ∨ c = '*')
    (hx : x.isAlphanum = false) (hxs : x ≠ '*') : x ≠ c := by
  intro he
  rcases hk with h | h
  · rw [he] at hx; rw [h] at hx; cases hx
  · rw [he, h] at hxs; exact hxs rfl

/-- A newline avoids alphanumeric/space/star strings. -/
theorem newline_not_mem {t : Str}
    (hc : ∀ c ∈ t, c.isAlphanum = true ∨ c = ' ' ∨ c = '*') : '\n' ∉ t := by
  intro hmem
  rcases hc _ hmem with h | h | h <;> exact absurd h (by decide)

/-- `strip` of a space-headed string with protected body. -/
theorem pyStrip_space_cons {t : Str} {c1 c2 : Char}
    (hh : t.head? = some c1) (h1 : isPySpace c1 = false)
    (hl : t.getLast? = some c2) (h2 : isPySpace c2 = false) :
    pyStrip (' ' :: t) = t := by
  rw [pyStrip, List.dropWhile_cons, if_pos (by decide),
    dropWhile_eq_self_of_head hh h1,
    dropWhile_eq_self_of_head (by rw [List.head?_reverse]; exact hl) h2,
    List.reverse_reverse]

end PMAgent
namespace PMAgent

/-- `join` over a cons with nonempty tail. -/
theorem joinWith_cons_ne (s x : Str) {rest : List Str} (h : rest ≠ []) :
    joinWith s (x :: rest) = x ++ s ++ joinWith s rest := by
  cases rest with
  | nil => cases h rfl
  | cons y t => rfl

/-- Decomposing a `join` around a distinguished middle element. -/
theorem joinWith_middle (s b : Str) :
    ∀ (xs zs : List Str),
      joinWith s (xs ++ b :: zs) =
        (if xs = [] then [] else joinWith s xs ++ s) ++ b ++
        (if zs = [] then [] else s ++ joinWith s zs) := by
  intro xs
  induction xs with
  | nil =>
      intro zs
      cases zs with
      | nil => simp [joinWith]
      | cons z zs' =>
          rw [List.nil_append, joinWith_cons_ne s b (List.cons_ne_nil z zs')]
          simp [List.append_assoc]
  | cons x xs' ih =>
      intro zs
      rw [List.cons_append, joinWith_cons_ne s x (by simp), ih zs]
      by_cases hx0 : xs' = []
      · subst hx0
        simp [joinWith, List.append_assoc]
      · simp [hx0, joinWith_cons_ne s x hx0, List.append_assoc]

/-- Markdown token rendering leaves plain words alone. -/
theorem map_renderTokMd_word (ws : List Str) :
    List.map renderTokMd (ws.map Tok.word) = ws := by
  induction ws with
  | nil => rfl
  | cons w t ih => simp [renderTokMd, ih]

/-- Wiki token rendering leaves plain words alone. -/
theorem map_renderTokWiki_word (ws : List Str) :
    List.map renderTokWiki (ws.map Tok.word) = ws := by
  induction ws with
  | nil => rfl
  | cons w t ih => simp [renderTokWiki, ih]

/-- The rendered markdown and wiki lines of a one-bold token list
decompose as `P**b**S` / `P*b*S` for a common prefix `P` and suffix `S`
with the listed word-shape facts. -/
theorem render_decomp (ws1 ws2 : List Str) (b : Str)
    (h1 : ∀ w ∈ ws1, safeWord w = true) (h2 : ∀ w ∈ ws2, safeWord w = true) :
    ∃ P S,
      renderInlineMd (ws1.map Tok.word ++ Tok.bold b :: ws2.map Tok.word) =
        P ++ '*' :: '*' :: (b ++ '*' :: '*' :: S) ∧
      renderInlineWiki (ws1.map Tok.word ++ Tok.bold b :: ws2.map Tok.word) =
        P ++ '*' :: (b ++ '*' :: S) ∧
      (∀ c ∈ P, c.isAlphanum = true ∨ c = ' ') ∧
      (∀ c ∈ S, c.isAlphanum = true ∨ c = ' ') ∧
      (P = [] ∨ P.getLast? = some ' ') ∧
      (P = [] ∨ ∃ ch, P.head? = some ch ∧ ch.isAlphanum = true) ∧
      (S ≠ [] → pyStrip S ≠ []) ∧
      (S = [] ∨ ∃ cl, S.getLast? = some cl ∧ cl.isAlphanum = true) := by
  have hmd : renderInlineMd (ws1.map Tok.word ++ Tok.bold b :: ws2.map Tok.word) =
      joinWith [' '] (ws1 ++ ('*' :: '*' :: (b ++ ['*', '*'])) :: ws2) := by
    rw [renderInlineMd, List.map_append, List.map_cons, map_renderTokMd_word,
      map_renderTokMd_word]
    rfl
  have hwk : renderInlineWiki (ws1.map Tok.word ++ Tok.bold b :: ws2.map Tok.word) =
      joinWith [' '] (ws1 ++ ('*' :: (b ++ ['*'])) :: ws2) := by
    rw [renderInlineWiki, List.map_append, List.map_cons,
      map_renderTokWiki_word, map_renderTokWiki_word]
    rfl
  rw [hmd, hwk, joinWith_middle, joinWith_middle]
  by_cases hws1 : ws1 = [] <;> by_cases hws2 : ws2 = []
  · refine ⟨[], [], ?_, ?_, by simp, by simp, Or.inl rfl, Or.inl rfl,
      fun h => absurd rfl h, Or.inl rfl⟩ <;>
      simp [hws1, hws2]
  · obtain ⟨jne, jmem, ⟨ch, hch, hcha⟩, ⟨cl, hcl, hcla⟩⟩ :=
      joinWith_space_facts ws2 hws2 h2
    refine ⟨[], ' ' :: joinWith [' '] ws2, ?_, ?_, by simp, ?_, Or.inl rfl,
      Or.inl rfl, fun _ => ?_, Or.inr ⟨cl, ?_, hcla⟩⟩
    · simp [hws1, hws2, List.append_assoc]
    · simp [hws1, hws2, List.append_assoc]
    · intro c hc
      rcases List.mem_cons.mp hc with h | h
      · exact Or.inr h
      · exact jmem c h
    · rw [pyStrip_space_cons hch (isPySpace_false_of_alnum hcha) hcl
        (isPySpace_false_of_alnum hcla)]
      exact jne
    · rw [getLast?_cons₁ ' ' jne]
      exact hcl
  · obtain ⟨jne, jmem, ⟨ch, hch, hcha⟩, ⟨cl, hcl, hcla⟩⟩ :=
      joinWith_space_facts ws1 hws1 h1
    refine ⟨joinWith [' '] ws1 ++ [' '], [], ?_, ?_, ?_, by simp,
      Or.inr ?_, Or.inr ⟨ch, ?_, hcha⟩, fun h => absurd rfl h, Or.inl rfl⟩
    · simp [hws1, hws2, List.append_assoc]
    · simp [hws1, hws2, List.append_assoc]
    · intro c hc
      rcases List.mem_append.mp hc with h | h
      · exact jmem c h
      · exact Or.inr (List.mem_singleton.mp h)
    · rw [List.getLast?_append_of_ne_nil _ (by simp : ([' '] : Str) ≠ [])]
      rfl
    · rw [head?_append_left [' '] jne]
      exact hch
  · obtain ⟨jne1, jmem1, ⟨ch1, hch1, hcha1⟩, ⟨cl1, hcl1, hcla1⟩⟩ :=
      joinWith_space_facts ws1 hws1 h1
    obtain ⟨jne2, jmem2, ⟨ch2, hch2, hcha2⟩, ⟨cl2, hcl2, hcla2⟩⟩ :=
      joinWith_space_facts ws2 hws2 h2
    refine ⟨joinWith [' '] ws1 ++ [' '], ' ' :: joinWith [' '] ws2, ?_, ?_,
      ?_, ?_, Or.inr ?_, Or.inr ⟨ch1, ?_, hcha1⟩, fun _ => ?_,
      Or.inr ⟨cl2, ?_, hcla2⟩⟩
    · simp [hws1, hws2, List.append_assoc]
    · simp [hws1, hws2, List.append_assoc]
    · intro c hc
      rcases List.mem_append.mp hc with h | h
      · exact jmem1 c h
      · exact Or.inr (List.mem_singleton.mp h)
    · intro c hc
      rcases List.mem_cons.mp hc with h | h
      · exact Or.inr h
      · exact jmem2 c h
    · rw [List.getLast?_append_of_ne_nil _ (by simp : ([' '] : Str) ≠ [])]
      rfl
    · rw [head?_append_left [' '] jne1]
      exact hch1
    · rw [pyStrip_space_cons hch2 (isPySpace_false_of_alnum hcha2) hcl2
        (isPySpace_false_of_alnum hcla2)]
      exact jne2
    · rw [getLast?_cons₁ ' ' jne2]
      exact hcl2

end PMAgent
namespace PMAgent

/-- Unpacking `safeWord`. -/
theorem safeWord_facts {s : Str} (h : safeWord s = true) :
    s ≠ [] ∧ (∀ c ∈ s, c.isAlphanum = true) ∧
    (∃ c, s.head? = some c ∧ c.isAlphanum = true) ∧
    (∃ c, s.getLast? = some c ∧ c.isAlphanum = true) ∧ pyStrip s = s := by
  rw [safeWord, Bool.and_eq_true, decide_eq_true_iff, List.all_eq_true] at h
  obtain ⟨hne, hall⟩ := h
  have hhead : ∃ c, s.head? = some c ∧ c.isAlphanum = true := by
    cases s with
    | nil => cases hne rfl
    | cons c0 s' => exact ⟨c0, rfl, hall c0 (List.mem_cons_self _ _)⟩
  have hlast : ∃ c, s.getLast? = some c ∧ c.isAlphanum = true := by
    obtain ⟨c2, hc2⟩ :=
      Option.isSome_iff_exists.mp (List.getLast?_isSome.mpr hne)
    exact ⟨c2, hc2, hall c2 (mem_of_getLast?_eq_some hc2)⟩
  obtain ⟨ch, hch, hcha⟩ := hhead
  obtain ⟨cl, hcl, hcla⟩ := hlast
  exact ⟨hne, hall, ⟨ch, hch, hcha⟩, ⟨cl, hcl, hcla⟩,
    pyStrip_eq_self hch (isPySpace_false_of_alnum hcha) hcl
      (isPySpace_false_of_alnum hcla)⟩

/-- The ordered-item check fails on dot-free lines. -/
theorem ord_cond_false {m : Str} (hdot : '.' ∉ m) :
    ¬ (2 < m.length ∧ m.head?.map Char.isDigit = some true ∧
      pyContains (m.take 5) (lit ". ") = true) :=
  fun hh => not_eq_true_of_eq_false (not_contains_dot hdot) hh.2.2

/-- The horizontal-rule check fails on lines with a letter or digit. -/
theorem hr_cond_false {m : Str} (hal : ∃ c, c ∈ m ∧ c.isAlphanum = true) :
    ¬ (m = lit "---" ∨ m = lit "***" ∨ m = lit "___") := by
  rintro (h | h | h) <;> exact ne_of_has_alnum hal (by decide) h

/-- All prefix checks headed by `#`, a backtick or `|` fail on lines
whose first character is alphanumeric or a star. -/
theorem head_checks_false {m : Str} {c1 : Char} (hc1 : m.head? = some c1)
    (hk : c1.isAlphanum = true ∨ c1 = '*') :
    ¬ pyStarts m (lit "### ") = true ∧ ¬ pyStarts m (lit "## ") = true ∧
    ¬ pyStarts m (lit "# ") = true ∧ ¬ pyStarts m (lit "```") = true ∧
    ¬ pyStarts m (lit "######") = true ∧ ¬ pyStarts m (lit "#####") = true ∧
    ¬ pyStarts m (lit "####") = true ∧ ¬ pyStarts m (lit "###") = true ∧
    ¬ pyStarts m (lit "##") = true ∧
    ¬ (pyStarts m (lit "|") = true ∧ pyEnds m (lit "|") = true) := by
  have hhash : '#' ≠ c1 := head_ne_of_ok hk (by decide) (by decide)
  have hbt : btick ≠ c1 := head_ne_of_ok hk (by decide) (by decide)
  have hpipe : '|' ≠ c1 := head_ne_of_ok hk (by decide) (by decide)
  refine ⟨not_eq_true_of_eq_false (pyStarts_false_head hc1 rfl hhash),
    not_eq_true_of_eq_false (pyStarts_false_head hc1 rfl hhash),
    not_eq_true_of_eq_false (pyStarts_false_head hc1 rfl hhash),
    not_eq_true_of_eq_false (pyStarts_false_head hc1
      (show (lit "```").head? = some btick by decide) hbt),
    not_eq_true_of_eq_false (pyStarts_false_head hc1 rfl hhash),
    not_eq_true_of_eq_false (pyStarts_false_head hc1 rfl hhash),
    not_eq_true_of_eq_false (pyStarts_false_head hc1 rfl hhash),
    not_eq_true_of_eq_false (pyStarts_false_head hc1 rfl hhash),
    not_eq_true_of_eq_false (pyStarts_false_head hc1 rfl hhash),
    fun hh =>
      not_eq_true_of_eq_false (pyStarts_false_head hc1
        (show (lit "|").head? = some '|' from rfl) hpipe) hh.1⟩

/-- The bullet check fails on lines headed by a letter, a digit, or a
star not followed by a space. -/
theorem bullet_cond_false {m : Str}
    (hmh : ∃ c, m.head? = some c ∧ (c.isAlphanum = true ∨ c = '*'))
    (h2 : ∀ c2 t2, m = '*' :: c2 :: t2 → c2 ≠ ' ') :
    ¬ (pyStarts m (lit "- ") = true ∨
      (pyStarts m (lit "* ") = true ∧ ¬ pyStarts m (lit "**") = true)) := by
  obtain ⟨c1, hc1, hk⟩ := hmh
  have hdash : '-' ≠ c1 := head_ne_of_ok hk (by decide) (by decide)
  rintro (hx | ⟨hx, -⟩)
  · rw [pyStarts_false_head hc1 (show (lit "- ").head? = some '-' from rfl)
      hdash] at hx
    cases hx
  · rcases hk with hA | hA
    · rw [pyStarts_false_head hc1 (show (lit "* ").head? = some '*' from rfl)
        (alnum_ne hA).1.symm] at hx
      cases hx
    · cases m with
      | nil => cases hc1
      | cons d tail =>
          have hd : d = c1 := Option.some.inj hc1
          cases tail with
          | nil => simp [pyStarts, List.isPrefixOf, lit] at hx
          | cons c2 t2 =>
              have hc2 : c2 ≠ ' ' := h2 c2 t2 (by rw [hd, hA])
              rw [show lit "* " = '*' :: [' '] from rfl, hd, hA,
                pyStarts_false_second (show (c2 :: t2).head? = some c2 from rfl)
                  (show ([' '] : Str).head? = some ' ' from rfl)
                  (Ne.symm hc2)] at hx
              cases hx
  -- the `**`-true escape is handled by discarding the right conjunct

/-- Every token list without bold tokens is a word list. -/
theorem all_word_shape : ∀ (ts : List Tok),
    (∀ t ∈ ts, isBoldTok t = false) → ∃ ws, ts = List.map Tok.word ws := by
  intro ts
  induction ts with
  | nil => intro _; exact ⟨[], rfl⟩
  | cons t rest ih =>
      intro h
      obtain ⟨ws', hws'⟩ := ih (fun x hx => h x (List.mem_cons_of_mem _ hx))
      cases t with
      | word w => exact ⟨w :: ws', by rw [List.map_cons, hws']⟩
      | bold s => cases h (Tok.bold s) (List.mem_cons_self _ _)

/-- Either no bold token, or a first bold token with bold-free prefix. -/
theorem split_first_bold : ∀ (ts : List Tok),
    (∀ t ∈ ts, isBoldTok t = false) ∨
    ∃ l b r, ts = l ++ Tok.bold b :: r ∧ ∀ t ∈ l, isBoldTok t = false := by
  intro ts
  induction ts with
  | nil => exact Or.inl (fun t ht => absurd ht (List.not_mem_nil t))
  | cons t rest ih =>
      cases t with
      | word w =>
          rcases ih with h | ⟨l, b, r, hsh, hl⟩
          · refine Or.inl (fun x hx => ?_)
            rcases List.mem_cons.mp hx with h1 | h1
            · rw [h1]; rfl
            · exact h x h1
          · refine Or.inr ⟨Tok.word w :: l, b, r, by rw [List.cons_append, hsh],
              fun x hx => ?_⟩
            rcases List.mem_cons.mp hx with h1 | h1
            · rw [h1]; rfl
            · exact hl x h1
      | bold s =>
          exact Or.inr ⟨[], s, rest, rfl,
            fun x hx => absurd hx (List.not_mem_nil x)⟩

/-- With at most one bold token, everything after the first bold token
is a word. -/
theorem after_first_bold {l : List Tok} {b : Str} {r : List Tok}
    (hcount : (l ++ Tok.bold b :: r).countP isBoldTok ≤ 1)
    (hl : ∀ t ∈ l, isBoldTok t = false) :
    ∀ t ∈ r, isBoldTok t = false := by
  have hlz : l.countP isBoldTok = 0 :=
    List.countP_eq_zero.mpr (fun a ha => by rw [hl a ha]; exact Bool.false_ne_true)
  rw [List.countP_append, hlz, List.countP_cons_of_pos _ _ (by rfl : isBoldTok (Tok.bold b) = true)] at hcount
  have hrz : r.countP isBoldTok = 0 := by omega
  intro t ht
  by_contra hb
  rw [Bool.not_eq_false] at hb
  have := List.countP_eq_zero.mp hrz t ht
  exact this hb

end PMAgent
namespace PMAgent

/-- `markdown_to_adf` line classification: a line that triggers no
heading/bullet/ordered prefix becomes a paragraph. -/
theorem adfLineStep_para (acc : List Block) (t : Str)
    (hstrip : pyStrip t = t) (htne : t ≠ [])
    (h3 : ¬ pyStarts t (lit "### ") = true)
    (h2 : ¬ pyStarts t (lit "## ") = true)
    (h1 : ¬ pyStarts t (lit "# ") = true)
    (hbul : ¬ (pyStarts t (lit "- ") = true ∨
      (pyStarts t (lit "* ") = true ∧ ¬ pyStarts t (lit "**") = true)))
    (hord : ¬ (2 < t.length ∧ t.head?.map Char.isDigit = some true ∧
      pyContains (t.take 5) (lit ". ") = true)) :
    adfLineStep acc t = Block.paragraph (parseInline t) :: acc := by
  rw [adfLineStep]
  simp only [hstrip]
  rw [if_neg htne, if_neg h3, if_neg h2, if_neg h1, if_neg hbul, if_neg hord]

/-- `markdown_to_adf` line classification: a bullet line is appended to
a preceding bullet list or starts one. -/
theorem adfLineStep_bullet (acc : List Block) (t : Str)
    (hstrip : pyStrip t = t) (htne : t ≠ [])
    (h3 : ¬ pyStarts t (lit "### ") = true)
    (h2 : ¬ pyStarts t (lit "## ") = true)
    (h1 : ¬ pyStarts t (lit "# ") = true)
    (hbul : pyStarts t (lit "- ") = true ∨
      (pyStarts t (lit "* ") = true ∧ ¬ pyStarts t (lit "**") = true)) :
    adfLineStep acc t =
      (match acc with
       | Block.bulletList items :: rest =>
           Block.bulletList (items ++ [parseInline (t.drop 2)]) :: rest
       | _ => Block.bulletList [parseInline (t.drop 2)] :: acc) := by
  rw [adfLineStep]
  simp only [hstrip]
  rw [if_neg htne, if_neg h3, if_neg h2, if_neg h1, if_pos hbul]

/-- `markdown_to_wiki` line handling: a plain paragraph line passes
through `_inline_md_to_wiki` and resets the table state. -/
theorem wikiLineStep_plain (inTable : Bool) (acc : List Str) (t : Str)
    (hstrip : pyStrip t = t) (htne : t ≠ [])
    (hcode : ¬ pyStarts t (lit "```") = true)
    (h6 : ¬ pyStarts t (lit "######") = true)
    (h5 : ¬ pyStarts t (lit "#####") = true)
    (h4 : ¬ pyStarts t (lit "####") = true)
    (h3 : ¬ pyStarts t (lit "###") = true)
    (h2 : ¬ pyStarts t (lit "##") = true)
    (h1 : ¬ pyStarts t (lit "# ") = true)
    (htab : ¬ (pyStarts t (lit "|") = true ∧ pyEnds t (lit "|") = true))
    (hbul : ¬ (pyStarts t (lit "- ") = true ∨
      (pyStarts t (lit "* ") = true ∧ ¬ pyStarts t (lit "**") = true)))
    (hord : ¬ (2 < t.length ∧ t.head?.map Char.isDigit = some true ∧
      pyContains (t.take 5) (lit ". ") = true))
    (hhr : ¬ (t = lit "---" ∨ t = lit "***" ∨ t = lit "___")) :
    wikiLineStep (false, inTable, acc) t =
      (false, false, inlineMdToWiki t :: acc) := by
  rw [wikiLineStep]
  simp only [hstrip]
  rw [if_neg hcode, if_neg (by simp : ¬ (false = true)), if_neg htne,
    if_neg h6, if_neg h5, if_neg h4, if_neg h3, if_neg h2, if_neg h1,
    if_neg htab, if_neg hbul, if_neg hord, if_neg hhr]

/-- `markdown_to_wiki` line handling: a `- ` bullet becomes a `* `
bullet with the content converted. -/
theorem wikiLineStep_bullet (inTable : Bool) (acc : List Str) (t : Str)
    (hstrip : pyStrip t = t) (htne : t ≠ [])
    (hcode : ¬ pyStarts t (lit "```") = true)
    (h6 : ¬ pyStarts t (lit "######") = true)
    (h5 : ¬ pyStarts t (lit "#####") = true)
    (h4 : ¬ pyStarts t (lit "####") = true)
    (h3 : ¬ pyStarts t (lit "###") = true)
    (h2 : ¬ pyStarts t (lit "##") = true)
    (h1 : ¬ pyStarts t (lit "# ") = true)
    (htab : ¬ (pyStarts t (lit "|") = true ∧ pyEnds t (lit "|") = true))
    (hbul : pyStarts t (lit "- ") = true ∨
      (pyStarts t (lit "* ") = true ∧ ¬ pyStarts t (lit "**") = true)) :
    wikiLineStep (false, inTable, acc) t =
      (false, false, ('*' :: ' ' :: inlineMdToWiki (t.drop 2)) :: acc) := by
  rw [wikiLineStep]
  simp only [hstrip]
  rw [if_neg hcode, if_neg (by simp : ¬ (false = true)), if_neg htne,
    if_neg h6, if_neg h5, if_neg h4, if_neg h3, if_neg h2, if_neg h1,
    if_neg htab, if_pos hbul]

end PMAgent
namespace PMAgent

/-- The paired facts needed of a markdown line `m` and its wiki
counterpart `w` for the round-trip argument: the wiki conversion sends
`m` to `w`, both classify the same way in `markdown_to_adf`, and both
are nonempty newline-free lines. -/
def lineOK (m w : Str) : Prop :=
  (∀ acc : List Str,
    wikiLineStep (false, false, acc) m = (false, false, w :: acc)) ∧
  (∀ acc : List Block, adfLineStep acc m = adfLineStep acc w) ∧
  m ≠ [] ∧ w ≠ [] ∧ '\n' ∉ m ∧ '\n' ∉ w

/-- All prefix checks headed by `#`, a backtick or `|` fail given the
first character differs from all three. -/
theorem head_checks_ne {m : Str} {c1 : Char} (hc1 : m.head? = some c1)
    (hhash : '#' ≠ c1) (hbt : btick ≠ c1) (hpipe : '|' ≠ c1) :
    ¬ pyStarts m (lit "### ") = true ∧ ¬ pyStarts m (lit "## ") = true ∧
    ¬ pyStarts m (lit "# ") = true ∧ ¬ pyStarts m (lit "```") = true ∧
    ¬ pyStarts m (lit "######") = true ∧ ¬ pyStarts m (lit "#####") = true ∧
    ¬ pyStarts m (lit "####") = true ∧ ¬ pyStarts m (lit "###") = true ∧
    ¬ pyStarts m (lit "##") = true ∧
    ¬ (pyStarts m (lit "|") = true ∧ pyEnds m (lit "|") = true) :=
  ⟨not_eq_true_of_eq_false (pyStarts_false_head hc1 rfl hhash),
    not_eq_true_of_eq_false (pyStarts_false_head hc1 rfl hhash),
    not_eq_true_of_eq_false (pyStarts_false_head hc1 rfl hhash),
    not_eq_true_of_eq_false (pyStarts_false_head hc1
      (show (lit "```").head? = some btick by decide) hbt),
    not_eq_true_of_eq_false (pyStarts_false_head hc1 rfl hhash),
    not_eq_true_of_eq_false (pyStarts_false_head hc1 rfl hhash),
    not_eq_true_of_eq_false (pyStarts_false_head hc1 rfl hhash),
    not_eq_true_of_eq_false (pyStarts_false_head hc1 rfl hhash),
    not_eq_true_of_eq_false (pyStarts_false_head hc1 rfl hhash),
    fun hh =>
      not_eq_true_of_eq_false (pyStarts_false_head hc1
        (show (lit "|").head? = some '|' from rfl) hpipe) hh.1⟩

/-- Both `lineOK` pairs (paragraph line and bullet line) follow from
the inline-level facts about `m` and `w`. -/
theorem lineOK_of_parts {m w : Str}
    (hconv : inlineMdToWiki m = w)
    (hparse : parseInline m = parseInline w)
    (hmchars : ∀ c ∈ m, c.isAlphanum = true ∨ c = ' ' ∨ c = '*')
    (hwchars : ∀ c ∈ w, c.isAlphanum = true ∨ c = ' ' ∨ c = '*')
    (hmh : ∃ c, m.head? = some c ∧ (c.isAlphanum = true ∨ c = '*'))
    (hml : ∃ c, m.getLast? = some c ∧ (c.isAlphanum = true ∨ c = '*'))
    (hwh : ∃ c, w.head? = some c ∧ (c.isAlphanum = true ∨ c = '*'))
    (hwl : ∃ c, w.getLast? = some c ∧ (c.isAlphanum = true ∨ c = '*'))
    (hmal : ∃ c, c ∈ m ∧ c.isAlphanum = true)
    (hm2 : ∀ c2 t2, m = '*' :: c2 :: t2 → c2 ≠ ' ')
    (hw2 : ∀ c2 t2, w = '*' :: c2 :: t2 → c2 ≠ ' ') :
    lineOK m w ∧ lineOK ('-' :: ' ' :: m) ('*' :: ' ' :: w) := by
  obtain ⟨cm1, hcm1, hkm1⟩ := hmh
  obtain ⟨cm2, hcm2, hkm2⟩ := hml
  obtain ⟨cw1, hcw1, hkw1⟩ := hwh
  obtain ⟨cw2, hcw2, hkw2⟩ := hwl
  have hmne : m ≠ [] := fun h0 => by rw [h0] at hcm1; cases hcm1
  have hwne : w ≠ [] := fun h0 => by rw [h0] at hcw1; cases hcw1
  have hstripm : pyStrip m = m :=
    pyStrip_eq_self hcm1 (isPySpace_false_of_ok hkm1) hcm2
      (isPySpace_false_of_ok hkm2)
  have hstripw : pyStrip w = w :=
    pyStrip_eq_self hcw1 (isPySpace_false_of_ok hkw1) hcw2
      (isPySpace_false_of_ok hkw2)
  have hnlm : '\n' ∉ m := newline_not_mem hmchars
  have hnlw : '\n' ∉ w := newline_not_mem hwchars
  obtain ⟨ma3, ma2, ma1, mcode, m6, m5, m4, m3, m2p, mtab⟩ :=
    head_checks_ne hcm1 (head_ne_of_ok hkm1 (by decide) (by decide))
      (head_ne_of_ok hkm1 (by decide) (by decide))
      (head_ne_of_ok hkm1 (by decide) (by decide))
  obtain ⟨wa3, wa2, wa1, -, -, -, -, -, -, -⟩ :=
    head_checks_ne hcw1 (head_ne_of_ok hkw1 (by decide) (by decide))
      (head_ne_of_ok hkw1 (by decide) (by decide))
      (head_ne_of_ok hkw1 (by decide) (by decide))
  have hbulm := bullet_cond_false ⟨cm1, hcm1, hkm1⟩ hm2
  have hbulw := bullet_cond_false ⟨cw1, hcw1, hkw1⟩ hw2
  have hordm := ord_cond_false
    (not_mem_of_ok3 hmchars (by decide) (by decide) (by decide))
  have hordw := ord_cond_false
    (not_mem_of_ok3 hwchars (by decide) (by decide) (by decide))
  have hhrm := hr_cond_false hmal
  refine ⟨⟨fun acc => ?_, fun acc => ?_, hmne, hwne, hnlm, hnlw⟩,
    ⟨fun acc => ?_, fun acc => ?_, by simp, by simp, ?_, ?_⟩⟩
  · rw [wikiLineStep_plain false acc m hstripm hmne mcode m6 m5 m4 m3 m2p
      ma1 mtab hbulm hordm hhrm, hconv]
  · rw [adfLineStep_para acc m hstripm hmne ma3 ma2 ma1 hbulm hordm,
      adfLineStep_para acc w hstripw hwne wa3 wa2 wa1 hbulw hordw, hparse]
  · -- bullet line through markdown_to_wiki
    obtain ⟨ba3, ba2, ba1, bcode, b6, b5, b4, b3, b2p, btab⟩ :=
      head_checks_ne (show ('-' :: ' ' :: m).head? = some '-' from rfl)
        (by decide) (by decide) (by decide)
    have hstripmB : pyStrip ('-' :: ' ' :: m) = '-' :: ' ' :: m :=
      pyStrip_eq_self (show ('-' :: ' ' :: m).head? = some '-' from rfl)
        (by decide) (by rw [getLast?_cons₂ _ _ hmne]; exact hcm2)
        (isPySpace_false_of_ok hkm2)
    rw [wikiLineStep_bullet false acc ('-' :: ' ' :: m) hstripmB (by simp)
        bcode b6 b5 b4 b3 b2p ba1 btab
        (Or.inl (by simp [pyStarts, List.isPrefixOf, lit])),
      show ('-' :: ' ' :: m).drop 2 = m from rfl, hconv]
  · -- bullet line classification agreement
    obtain ⟨ba3, ba2, ba1, -, -, -, -, -, -, -⟩ :=
      head_checks_ne (show ('-' :: ' ' :: m).head? = some '-' from rfl)
        (by decide) (by decide) (by decide)
    obtain ⟨ca3, ca2, ca1, -, -, -, -, -, -, -⟩ :=
      head_checks_ne (show ('*' :: ' ' :: w).head? = some '*' from rfl)
        (by decide) (by decide) (by decide)
    have hstripmB : pyStrip ('-' :: ' ' :: m) = '-' :: ' ' :: m :=
      pyStrip_eq_self (show ('-' :: ' ' :: m).head? = some '-' from rfl)
        (by decide) (by rw [getLast?_cons₂ _ _ hmne]; exact hcm2)
        (isPySpace_false_of_ok hkm2)
    have hstripwB : pyStrip ('*' :: ' ' :: w) = '*' :: ' ' :: w :=
      pyStrip_eq_self (show ('*' :: ' ' :: w).head? = some '*' from rfl)
        (by decide) (by rw [getLast?_cons₂ _ _ hwne]; exact hcw2)
        (isPySpace_false_of_ok hkw2)
    rw [adfLineStep_bullet acc ('-' :: ' ' :: m) hstripmB (by simp)
        ba3 ba2 ba1 (Or.inl (by simp [pyStarts, List.isPrefixOf, lit])),
      adfLineStep_bullet acc ('*' :: ' ' :: w) hstripwB (by simp)
        ca3 ca2 ca1
        (Or.inr ⟨by simp [pyStarts, List.isPrefixOf, lit],
          not_eq_true_of_eq_false (pyStarts_false_second
            (show (' ' :: w).head? = some ' ' from rfl)
            (show (['*'] : Str).head? = some '*' from rfl) (by decide))⟩),
      show ('-' :: ' ' :: m).drop 2 = m from rfl,
      show ('*' :: ' ' :: w).drop 2 = w from rfl, hparse]
  · simp only [List.mem_cons, not_or]
    exact ⟨by decide, by decide, hnlm⟩
  · simp only [List.mem_cons, not_or]
    exact ⟨by decide, by decide, hnlw⟩

end PMAgent
namespace PMAgent

/-- Every well-formed inline token list yields `lineOK` pairs for both
its paragraph line and its bullet line. -/
theorem inline_lineOK (ts : List Tok) (h : inlineOK ts = true) :
    lineOK (renderInlineMd ts) (renderInlineWiki ts) ∧
    lineOK ('-' :: ' ' :: renderInlineMd ts)
      ('*' :: ' ' :: renderInlineWiki ts) := by
  rw [inlineOK, Bool.and_eq_true, Bool.and_eq_true, decide_eq_true_iff,
    List.all_eq_true, decide_eq_true_iff] at h
  obtain ⟨⟨hne, hall⟩, hcount⟩ := h
  rcases split_first_bold ts with hnb | ⟨l, b, r, hsh, hl⟩
  · obtain ⟨ws, hws⟩ := all_word_shape ts hnb
    subst hws
    have hsafe : ∀ w ∈ ws, safeWord w = true := fun w hw =>
      hall (Tok.word w) (List.mem_map_of_mem _ hw)
    have hwsne : ws ≠ [] := fun h0 => hne (by rw [h0]; rfl)
    obtain ⟨jne, jmem, ⟨ch, hch, hcha⟩, ⟨cl, hcl, hcla⟩⟩ :=
      joinWith_space_facts ws hwsne hsafe
    have hmd : renderInlineMd (List.map Tok.word ws) = joinWith [' '] ws := by
      rw [renderInlineMd, map_renderTokMd_word]
    have hwk : renderInlineWiki (List.map Tok.word ws) = joinWith [' '] ws := by
      rw [renderInlineWiki, map_renderTokWiki_word]
    rw [hmd, hwk]
    have hstar : '*' ∉ joinWith [' '] ws := fun hm => by
      rcases jmem _ hm with h1 | h1 <;> exact absurd h1 (by decide)
    have hchars : ∀ c ∈ joinWith [' '] ws,
        c.isAlphanum = true ∨ c = ' ' ∨ c = '*' := fun c hc => by
      rcases jmem c hc with h1 | h1
      · exact Or.inl h1
      · exact Or.inr (Or.inl h1)
    have hnostar2 : ∀ c2 t2, joinWith [' '] ws = '*' :: c2 :: t2 → c2 ≠ ' ' := by
      intro c2 t2 he
      rw [he] at hch
      have h6 : ch = '*' := (Option.some.inj hch).symm
      rw [h6] at hcha
      exact absurd hcha (by decide)
    exact lineOK_of_parts
      (inlineMdToWiki_id
        (not_mem_of_ok3 hchars (by decide) (by decide) (by decide)) hstar
        (not_mem_of_ok3 hchars (by decide) (by decide) (by decide)))
      rfl hchars hchars ⟨ch, hch, Or.inl hcha⟩ ⟨cl, hcl, Or.inl hcla⟩
      ⟨ch, hch, Or.inl hcha⟩ ⟨cl, hcl, Or.inl hcla⟩
      ⟨ch, mem_of_head?_eq_some hch, hcha⟩ hnostar2 hnostar2
  · have hr := after_first_bold (hsh ▸ hcount) hl
    obtain ⟨ws1, hws1⟩ := all_word_shape l hl
    obtain ⟨ws2, hws2⟩ := all_word_shape r hr
    subst hsh
    subst hws1
    subst hws2
    have hsafe1 : ∀ w ∈ ws1, safeWord w = true := fun w hw =>
      hall (Tok.word w)
        (List.mem_append.mpr (Or.inl (List.mem_map_of_mem _ hw)))
    have hsafe2 : ∀ w ∈ ws2, safeWord w = true := fun w hw =>
      hall (Tok.word w)
        (List.mem_append.mpr (Or.inr
          (List.mem_cons_of_mem _ (List.mem_map_of_mem _ hw))))
    have hsafeb : safeWord b = true :=
      hall (Tok.bold b) (List.mem_append.mpr (Or.inr (List.mem_cons_self _ _)))
    obtain ⟨hbne, hbal, ⟨bh, hbh, hbha⟩, ⟨bl, hbl, hbla⟩, hbstrip⟩ :=
      safeWord_facts hsafeb
    obtain ⟨P, S, hmdR, hwkR, hcP, hcS, hPl, hPh, hSs, hSl⟩ :=
      render_decomp ws1 ws2 b hsafe1 hsafe2
    rw [hmdR, hwkR]
    have hP : '*' ∉ P := fun hm => by
      rcases hcP _ hm with h1 | h1 <;> exact absurd h1 (by decide)
    have hS : '*' ∉ S := fun hm => by
      rcases hcS _ hm with h1 | h1 <;> exact absurd h1 (by decide)
    have hb : '*' ∉ b := fun hm => absurd (hbal _ hm) (by decide)
    have hbsp : ' ' ∉ b := fun hm =>
      (alnum_ne (hbal _ hm)).2.2.2.2.2.2.2.2 rfl
    have hbstrip' : pyStrip b ≠ [] := by rw [hbstrip]; exact hbne
    have hPne_of : ∀ {c : Char}, P.head? = some c → P ≠ [] :=
      fun hc h0 => by rw [h0] at hc; cases hc
    have hSne_of : ∀ {c : Char}, S.getLast? = some c → S ≠ [] :=
      fun hc h0 => by rw [h0] at hc; cases hc
    have hmh : ∃ c, (P ++ '*' :: '*' :: (b ++ '*' :: '*' :: S)).head? =
        some c ∧ (c.isAlphanum = true ∨ c = '*') := by
      rcases hPh with hP0 | ⟨ch, hch, hcha⟩
      · exact ⟨'*', by rw [hP0]; rfl, Or.inr rfl⟩
      · exact ⟨ch, by rw [head?_append_left _ (hPne_of hch)]; exact hch,
          Or.inl hcha⟩
    have hwh : ∃ c, (P ++ '*' :: (b ++ '*' :: S)).head? =
        some c ∧ (c.isAlphanum = true ∨ c = '*') := by
      rcases hPh with hP0 | ⟨ch, hch, hcha⟩
      · exact ⟨'*', by rw [hP0]; rfl, Or.inr rfl⟩
      · exact ⟨ch, by rw [head?_append_left _ (hPne_of hch)]; exact hch,
          Or.inl hcha⟩
    have hml : ∃ c, (P ++ '*' :: '*' :: (b ++ '*' :: '*' :: S)).getLast? =
        some c ∧ (c.isAlphanum = true ∨ c = '*') := by
      rcases hSl with hS0 | ⟨cl2, hcl2, hcla2⟩
      · refine ⟨'*', ?_, Or.inr rfl⟩
        rw [List.getLast?_append_of_ne_nil _ (by simp),
          getLast?_cons₂ _ _ (by simp : b ++ '*' :: '*' :: S ≠ []),
          List.getLast?_append_of_ne_nil _ (by simp), hS0]
        rfl
      · refine ⟨cl2, ?_, Or.inl hcla2⟩
        rw [List.getLast?_append_of_ne_nil _ (by simp),
          getLast?_cons₂ _ _ (by simp : b ++ '*' :: '*' :: S ≠ []),
          List.getLast?_append_of_ne_nil _ (by simp),
          getLast?_cons₂ _ _ (hSne_of hcl2)]
        exact hcl2
    have hwl : ∃ c, (P ++ '*' :: (b ++ '*' :: S)).getLast? =
        some c ∧ (c.isAlphanum = true ∨ c = '*') := by
      rcases hSl with hS0 | ⟨cl2, hcl2, hcla2⟩
      · refine ⟨'*', ?_, Or.inr rfl⟩
        rw [List.getLast?_append_of_ne_nil _ (by simp),
          getLast?_cons₁ _ (by simp : b ++ '*' :: S ≠ []),
          List.getLast?_append_of_ne_nil _ (by simp), hS0]
        rfl
      · refine ⟨cl2, ?_, Or.inl hcla2⟩
        rw [List.getLast?_append_of_ne_nil _ (by simp),
          getLast?_cons₁ _ (by simp : b ++ '*' :: S ≠ []),
          List.getLast?_append_of_ne_nil _ (by simp),
          getLast?_cons₁ _ (hSne_of hcl2)]
        exact hcl2
    have hmal : ∃ c, c ∈ P ++ '*' :: '*' :: (b ++ '*' :: '*' :: S) ∧
        c.isAlphanum = true := by
      refine ⟨bh, ?_, hbha⟩
      have hbhm : bh ∈ b := mem_of_head?_eq_some hbh
      simp only [List.mem_append, List.mem_cons]
      exact Or.inr (Or.inr (Or.inr (Or.inl hbhm)))
    have hm2 : ∀ c2 t2, P ++ '*' :: '*' :: (b ++ '*' :: '*' :: S) =
        '*' :: c2 :: t2 → c2 ≠ ' ' := by
      intro c2 t2 he
      rcases hPh with hP0 | ⟨ch, hch, hcha⟩
      · rw [hP0, List.nil_append] at he
        injection he with h1 h2
        injection h2 with h3 h4
        rw [← h3]
        decide
      · have h5 := congrArg List.head? he
        rw [head?_append_left _ (hPne_of hch), hch] at h5
        have h6 : ch = '*' := Option.some.inj h5
        rw [h6] at hcha
        exact absurd hcha (by decide)
    have hw2 : ∀ c2 t2, P ++ '*' :: (b ++ '*' :: S) = '*' :: c2 :: t2 →
        c2 ≠ ' ' := by
      intro c2 t2 he
      rcases hPh with hP0 | ⟨ch, hch, hcha⟩
      · rw [hP0, List.nil_append] at he
        injection he with h1 h2
        cases b with
        | nil => cases hbne rfl
        | cons b0 b' =>
            rw [List.cons_append] at h2
            injection h2 with h3 h4
            rw [← h3]
            have hb0 := hbal b0 (List.mem_cons_self _ _)
            exact (alnum_ne hb0).2.2.2.2.2.2.2.2
      · have h5 := congrArg List.head? he
        rw [head?_append_left _ (hPne_of hch), hch] at h5
        have h6 : ch = '*' := Option.some.inj h5
        rw [h6] at hcha
        exact absurd hcha (by decide)
    exact lineOK_of_parts (inlineMdToWiki_md hcP hbal hbne hcS)
      (by rw [parseInline_md hP hb hbne hS hbstrip' hSs,
        parseInline_wiki hP hb hbne hS hbsp hPl hSs])
      (mdline_chars hcP hbal hcS) (wikiline_chars hcP hbal hcS)
      hmh hml hwh hwl hmal hm2 hw2

end PMAgent
namespace PMAgent

/-- `split` of a separator-free string. -/
theorem pySplitChar_no {sep : Char} {x : Str} (h : sep ∉ x) :
    pySplitChar sep x = [x] := by
  induction x with
  | nil => rfl
  | cons c rest ih =>
      rw [List.mem_cons, not_or] at h
      rw [pySplitChar, ih h.2,
        if_neg (show ¬ c = sep from fun hh => h.1 hh.symm)]

/-- `split` peels one separator-free piece. -/
theorem pySplitChar_sep {sep : Char} {x : Str} (h : sep ∉ x) (y : Str) :
    pySplitChar sep (x ++ sep :: y) = x :: pySplitChar sep y := by
  induction x with
  | nil =>
      rw [List.nil_append, pySplitChar]
      simp
  | cons c rest ih =>
      rw [List.mem_cons, not_or] at h
      rw [List.cons_append, pySplitChar, ih h.2,
        if_neg (show ¬ c = sep from fun hh => h.1 hh.symm)]

/-- `split("\n")` inverts `"\n".join` on newline-free lines. -/
theorem splitLines_joinWith : ∀ (ls : List Str), ls ≠ [] →
    (∀ l ∈ ls, '\n' ∉ l) → splitLines (joinWith ['\n'] ls) = ls := by
  intro ls
  induction ls with
  | nil => intro h; cases h rfl
  | cons l rest ih =>
      intro _ hnl
      cases rest with
      | nil =>
          rw [show joinWith ['\n'] [l] = l from rfl, splitLines,
            pySplitChar_no (hnl l (List.mem_cons_self _ _))]
      | cons l2 rest' =>
          rw [joinWith_cons_ne _ _ (by simp), List.append_assoc,
            show (['\n'] : Str) ++ joinWith ['\n'] (l2 :: rest') =
              '\n' :: joinWith ['\n'] (l2 :: rest') from rfl, splitLines,
            pySplitChar_sep (hnl l (List.mem_cons_self _ _)),
            ← splitLines, ih (by simp)
              (fun x hx => hnl x (List.mem_cons_of_mem _ hx))]

/-- `Forall₂` distributes over append. -/
theorem forall₂_append {R : Str → Str → Prop} :
    ∀ {a b c d : List Str}, List.Forall₂ R a b → List.Forall₂ R c d →
      List.Forall₂ R (a ++ c) (b ++ d) := by
  intro a
  induction a with
  | nil =>
      intro b c d hab hcd
      cases hab
      exact hcd
  | cons x a' ih =>
      intro b c d hab hcd
      cases hab with
      | cons hx ha' => exact List.Forall₂.cons hx (ih ha' hcd)

/-- Pointwise-agreeing lines fold to the same ADF accumulator. -/
theorem foldl_adf_ext : ∀ {L W : List Str}, List.Forall₂ lineOK L W →
    ∀ acc, L.foldl adfLineStep acc = W.foldl adfLineStep acc := by
  intro L W h
  induction h with
  | nil => intro acc; rfl
  | cons hx hrest ih =>
      intro acc
      rw [List.foldl_cons, List.foldl_cons, hx.2.1 acc]
      exact ih _

/-- The wiki fold collects exactly the converted lines, in reverse. -/
theorem foldl_wiki : ∀ {L W : List Str}, List.Forall₂ lineOK L W →
    ∀ acc, L.foldl wikiLineStep (false, false, acc) =
      (false, false, W.reverse ++ acc) := by
  intro L W h
  induction h with
  | nil => intro acc; simp
  | cons hx hrest ih =>
      intro acc
      rw [List.foldl_cons, hx.1 acc, ih]
      simp

/-- Left component facts of a `lineOK` chain. -/
theorem lineOK_left_facts : ∀ {L W : List Str}, List.Forall₂ lineOK L W →
    ∀ l ∈ L, '\n' ∉ l ∧ l ≠ [] := by
  intro L W h
  induction h with
  | nil => intro l hl; cases hl
  | cons hx hrest ih =>
      intro l hl
      rcases List.mem_cons.mp hl with h1 | h1
      · subst h1
        exact ⟨hx.2.2.2.2.1, hx.2.2.1⟩
      · exact ih l h1

/-- Right component facts of a `lineOK` chain. -/
theorem lineOK_right_facts : ∀ {L W : List Str}, List.Forall₂ lineOK L W →
    ∀ w ∈ W, '\n' ∉ w ∧ w ≠ [] := by
  intro L W h
  induction h with
  | nil => intro w hw; cases hw
  | cons hx hrest ih =>
      intro w hw
      rcases List.mem_cons.mp hw with h1 | h1
      · subst h1
        exact ⟨hx.2.2.2.2.2, hx.2.2.2.1⟩
      · exact ih w h1

/-- A join of nonempty pieces is nonempty. -/
theorem joinWith_ne_nil (s : Str) : ∀ {L : List Str}, L ≠ [] →
    (∀ l ∈ L, l ≠ []) → joinWith s L ≠ [] := by
  intro L
  cases L with
  | nil => intro h; cases h rfl
  | cons x rest =>
      intro _ hne
      cases rest with
      | nil => exact hne x (List.mem_cons_self _ _)
      | cons y rest' =>
          rw [joinWith_cons_ne _ _ (by simp)]
          simp [hne x (List.mem_cons_self _ _)]

/-- Bullet-item `lineOK` chains. -/
theorem items_forall₂ : ∀ (items : List (List Tok)),
    (∀ x ∈ items, inlineOK x = true) →
    List.Forall₂ lineOK
      (items.map (fun ts => '-' :: ' ' :: renderInlineMd ts))
      (items.map (fun ts => '*' :: ' ' :: renderInlineWiki ts)) := by
  intro items
  induction items with
  | nil => intro _; exact List.Forall₂.nil
  | cons ts rest ih =>
      intro hall
      exact List.Forall₂.cons
        (inline_lineOK ts (hall ts (List.mem_cons_self _ _))).2
        (ih (fun x hx => hall x (List.mem_cons_of_mem _ hx)))

/-- Per-block `lineOK` chains. -/
theorem blk_forall₂ (bk : Blk) (hb : blkOK bk = true) :
    List.Forall₂ lineOK (renderBlkMd bk) (renderBlkWiki bk) ∧
    renderBlkMd bk ≠ [] := by
  cases bk with
  | para ts =>
      exact ⟨List.Forall₂.cons (inline_lineOK ts hb).1 List.Forall₂.nil,
        by simp [renderBlkMd]⟩
  | bullet items =>
      rw [blkOK, Bool.and_eq_true, decide_eq_true_iff, List.all_eq_true] at hb
      obtain ⟨hine, hiall⟩ := hb
      constructor
      · rw [renderBlkMd, renderBlkWiki]
        exact items_forall₂ items hiall
      · rw [renderBlkMd]
        simp [hine]

/-- Whole-document `lineOK` chain. -/
theorem doc_forall₂ (d : List Blk) (hall : ∀ bk ∈ d, blkOK bk = true) :
    List.Forall₂ lineOK (d.map renderBlkMd).flatten
      (d.map renderBlkWiki).flatten := by
  induction d with
  | nil => exact List.Forall₂.nil
  | cons bk rest ih =>
      rw [List.map_cons, List.map_cons, List.flatten_cons, List.flatten_cons]
      exact forall₂_append (blk_forall₂ bk (hall bk (List.mem_cons_self _ _))).1
        (ih (fun x hx => hall x (List.mem_cons_of_mem _ hx)))

end PMAgent
namespace PMAgent

/-- C9 (amended): on the fragment of documents made of paragraphs and
bullet lists over alphanumeric words with at most one bold span per
line, converting the markdown source with `markdown_to_wiki` and
feeding the wiki text back through `markdown_to_adf` yields exactly the
ADF document of the original markdown — bullet structure and bold marks
survive the round trip.  (Heading levels and ordered lists do not, see
the counterexample `roundtrip_heading_loss`.) -/
theorem roundtrip_preserves_fragment (d : List Blk) (h : docOK d = true) :
    markdownToAdf (markdownToWiki (renderDocMd d)) =
      markdownToAdf (renderDocMd d) := by
  rw [docOK, Bool.and_eq_true, decide_eq_true_iff, List.all_eq_true] at h
  obtain ⟨hdne, hball⟩ := h
  have hfa := doc_forall₂ d hball
  have hLfacts := lineOK_left_facts hfa
  have hWfacts := lineOK_right_facts hfa
  have hLne : (d.map renderBlkMd).flatten ≠ [] := by
    cases d with
    | nil => cases hdne rfl
    | cons bk rest =>
        have hbk := blk_forall₂ bk (hball bk (List.mem_cons_self _ _))
        rw [List.map_cons, List.flatten_cons]
        intro h0
        exact hbk.2 (List.append_eq_nil.mp h0).1
  have hWne : (d.map renderBlkWiki).flatten ≠ [] := by
    intro h0
    have hlen := List.Forall₂.length_eq hfa
    rw [h0] at hlen
    exact hLne (List.length_eq_zero.mp hlen)
  have hmdne : joinWith ['\n'] (d.map renderBlkMd).flatten ≠ [] :=
    joinWith_ne_nil _ hLne (fun l hl => (hLfacts l hl).2)
  have hwkne : joinWith ['\n'] (d.map renderBlkWiki).flatten ≠ [] :=
    joinWith_ne_nil _ hWne (fun l hl => (hWfacts l hl).2)
  have hsplitL : splitLines (joinWith ['\n'] (d.map renderBlkMd).flatten) =
      (d.map renderBlkMd).flatten :=
    splitLines_joinWith _ hLne (fun l hl => (hLfacts l hl).1)
  have hsplitW : splitLines (joinWith ['\n'] (d.map renderBlkWiki).flatten) =
      (d.map renderBlkWiki).flatten :=
    splitLines_joinWith _ hWne (fun l hl => (hWfacts l hl).1)
  have hwiki : markdownToWiki (renderDocMd d) =
      joinWith ['\n'] (d.map renderBlkWiki).flatten := by
    rw [renderDocMd, markdownToWiki, if_neg hmdne]
    simp only [hsplitL, foldl_wiki hfa, List.append_nil,
      List.reverse_reverse]
  rw [hwiki, renderDocMd, markdownToAdf, if_neg hwkne, markdownToAdf,
    if_neg hmdne]
  simp only [hsplitL, hsplitW, foldl_adf_ext hfa]

end PMAgent
namespace PMAgent

/-- C9 witness: a concrete two-block document — a paragraph `a **b**`
and a bullet list with items `x` and `**y** z` — satisfies the fragment
conditions, and the round trip reproduces its ADF tree exactly. -/
theorem roundtrip_preserves_fragment_witness :
    docOK [Blk.para [Tok.word (lit "a"), Tok.bold (lit "b")],
      Blk.bullet [[Tok.word (lit "x")],
        [Tok.bold (lit "y"), Tok.word (lit "z")]]] = true ∧
    markdownToAdf (markdownToWiki (renderDocMd
      [Blk.para [Tok.word (lit "a"), Tok.bold (lit "b")],
        Blk.bullet [[Tok.word (lit "x")],
          [Tok.bold (lit "y"), Tok.word (lit "z")]]])) =
      markdownToAdf (renderDocMd
        [Blk.para [Tok.word (lit "a"), Tok.bold (lit "b")],
          Blk.bullet [[Tok.word (lit "x")],
            [Tok.bold (lit "y"), Tok.word (lit "z")]]]) :=
  ⟨by decide,
    roundtrip_preserves_fragment
      [Blk.para [Tok.word (lit "a"), Tok.bold (lit "b")],
        Blk.bullet [[Tok.word (lit "x")],
          [Tok.bold (lit "y"), Tok.word (lit "z")]]] (by decide)⟩

end PMAgent
